import Mathlib

/-!
# ExocortexCrate: the polygon mesh sample codec of `AlembicPolyMsh.cpp`

A shallow embedding of the encoder `AlembicPolyMesh::Save` and of the decode
operators `alembic_polymesh_Update`, `alembic_polymesh_topo_Update`,
`alembic_normals_Update`, `alembic_uvs_Update` and `alembic_bbox_Update`.

Conventions of the embedding:

* `float` and `double` values are idealised as exact rationals (`Scalar`); the
  narrowing cast `(float)` is an arbitrary function handed to the encoder.
  Where the rounding of `double` arithmetic decides what an operator returns
  (the blend of a sample with itself on the SubD branch of
  `alembic_polymesh_topo_Update`) it is written out (`roundDouble`,
  `topoPositionsFl`).
* C++ vectors are lists; `resize` and indexed writes are kept as such
  (`vecResize`, `List.set`), so a buffer and its fill count stay separate.
* `size_t`, `uint32_t`, `int32_t` and `LONG` values are `Nat`/`Int`; array
  lengths are unbounded naturals, and the casts and accumulators of the source
  that can lose bits of a value are written out (`toUInt32`, `wrapInt32`,
  `toSizeT`).
* An operator that leaves through an early `return` without writing its output,
  or that touches an array outside its bounds, ends in `Outcome.notSet` or
  `Outcome.fault`. The operators are entered after their preamble: not muted,
  the archive object found and wrapped.
* `Save` is a step on the state of the encoder object (`SaveState`): the sample
  counter, the member sample, which lives across calls, the member vectors and
  the samples handed to the archive so far. `SaveSeq` runs a stream of calls.
  The UV block of `Save` has a state of its own (`UvState`); `SaveUV` runs it
  next to `Save`, and ends in `none` when it leaves one of its vectors.
* What depends on the build rather than on the source is a parameter: the
  narrowing, `NormalizeInPlace` and the content of a vector entry never
  written (`Machine`).
-/

namespace ExocortexCrate

/-! ## Values -/

/-- Component type of every vector of the embedding. -/
abbrev Scalar := ℚ

/-- Three-component vector (`Alembic::Abc::V3f`, `N3f`, `CVector3`). -/
structure V3f where
  x : Scalar
  y : Scalar
  z : Scalar
  deriving DecidableEq, Repr

/-- Two-component vector (`Alembic::Abc::V2f`). -/
structure V2f where
  x : Scalar
  y : Scalar
  deriving DecidableEq, Repr

/-- Largest value of the host type `LONG` (a 32 bit signed integer), the type
of every element count the host hands to `Save`. -/
def LONG_MAX : Nat := 2 ^ 31 - 1

/-- The cast `(uint32_t)` applied to a `size_t`. -/
def toUInt32 (n : Nat) : Nat := n % 2 ^ 32

/-- Two's complement wrap of an integer into `int32_t`. -/
def wrapInt32 (i : Int) : Int := (i + 2 ^ 31) % 2 ^ 32 - 2 ^ 31

/-- The cast `(size_t)` of a signed value, and arithmetic in `size_t`. -/
def toSizeT (i : Int) : Nat := (i % 2 ^ 64).toNat

/-- The constant `FLT_MAX` of `<cfloat>`. -/
def FLT_MAX : Scalar := (2 ^ 24 - 1) * 2 ^ 104

/-- How an operator ends. -/
inductive Outcome (α : Type) where
  /-- The operator ran to its end and wrote `a` to its output. -/
  | done (a : α)
  /-- The operator returned early and left its output untouched. -/
  | notSet
  /-- The operator read or wrote outside an array. -/
  | fault
  deriving DecidableEq, Repr

/-- `std::vector::resize`: keeps the leading entries and pads with `fill`. -/
def vecResize {α : Type} (v : List α) (n : Nat) (fill : α) : List α :=
  v.take n ++ List.replicate (n - v.length) fill

/-! ## The indexing loop of `Save` (normals, lines 224-252; UVs, lines 375-403) -/

/-- Modelled from the spec: the ordering of the map key `SortableV3f`, which is
declared in `CommonMeshUtilities.h`. The spec gives it as "a total order over V
(lexicographic by component)". -/
def SortableV3f.lt (a b : V3f) : Bool :=
  if a.x < b.x then true
  else if b.x < a.x then false
  else if a.y < b.y then true
  else if b.y < a.y then false
  else decide (a.z < b.z)

/-- Modelled from the spec: the ordering of the map key `SortableV2f`, which is
declared in `CommonMeshUtilities.h`, lexicographic by component. -/
def SortableV2f.lt (a b : V2f) : Bool :=
  if a.x < b.x then true
  else if b.x < a.x then false
  else decide (a.y < b.y)

/-- `std::map::find` on a map ordered by `lt`, the map held as its list of
entries: the value of the entry whose key is equivalent to `k` (neither is less
than the other), if there is one. -/
def mapFind {K : Type} (lt : K → K → Bool) (m : List (K × Nat)) (k : K) : Option Nat :=
  (m.find? (fun e => !lt e.1 k && !lt k e.1)).map Prod.snd

/-- `std::map::insert`: no effect when an equivalent key is present. -/
def mapInsert {K : Type} (lt : K → K → Bool) (m : List (K × Nat)) (k : K) (v : Nat) :
    List (K × Nat) :=
  match mapFind lt m k with
  | some _ => m
  | none => m ++ [(k, v)]

/-- Variables of the indexing loop: `normalMap`, `normalIndexVec`,
`normalIndexCount`, `sortedNormalVec`, `sortedNormalCount`. -/
structure IndexState (K : Type) where
  map : List (K × Nat)
  indexVec : List Nat
  indexCount : Nat
  sortedVec : List K
  sortedCount : Nat

/-- One pass of the loop body for the value `v = normalVec[i]`. -/
def indexStep {K : Type} (lt : K → K → Bool) (st : IndexState K) (v : K) : IndexState K :=
  match mapFind lt st.map v with
  | some found =>
    { st with
      indexVec := st.indexVec.set st.indexCount (toUInt32 found)
      indexCount := st.indexCount + 1 }
  | none =>
    { map := mapInsert lt st.map v (toUInt32 st.sortedCount)
      indexVec := st.indexVec.set st.indexCount (toUInt32 st.sortedCount)
      indexCount := st.indexCount + 1
      sortedVec := st.sortedVec.set st.sortedCount v
      sortedCount := st.sortedCount + 1 }

/-- State on entry of the loop: an empty map, both buffers resized to the input
size. `prevIndex` is what the index vector held before (empty for the local
`normalIndexVec`, the previous sample for the member `mUvIndexVec[uvI]`);
`uninit` stands for the unspecified content of a freshly resized value vector. -/
def indexInit {K : Type} (uninit : K) (prevIndex : List Nat) (n : Nat) : IndexState K :=
  { map := []
    indexVec := vecResize prevIndex n 0
    indexCount := 0
    sortedVec := vecResize [] n uninit
    sortedCount := 0 }

/-- The whole loop `for(size_t i=0;i<normalVec.size();i++)`. -/
def indexLoop {K : Type} (lt : K → K → Bool) (uninit : K) (prevIndex : List Nat)
    (input : List K) : IndexState K :=
  input.foldl (indexStep lt) (indexInit uninit prevIndex input.length)

/-- An indexed attribute as handed to the sample: the first `normalCount` values
and the first `normalIndexCount` indices. -/
structure Indexed (K : Type) where
  vals : List K
  indices : List Nat
  deriving DecidableEq, Repr

/-- What `Save` takes from the loop: `normalVec = sortedNormalVec`,
`normalCount = sortedNormalCount`, and the array samples cut at the counts. -/
def IndexState.sample {K : Type} (st : IndexState K) : Indexed K :=
  { vals := st.sortedVec.take st.sortedCount
    indices := st.indexVec.take st.indexCount }

/-- `table[indices[i]]`: the value an occurrence expands to. -/
def Indexed.expand {K : Type} (r : Indexed K) (i : Nat) : Option K :=
  match r.indices[i]? with
  | some a => r.vals[a]?
  | none => none

/-- Indexed normals of `Save` (option `indexedNormals`). -/
def Save.indexedNormals (uninit : V3f) (normalVec : List V3f) : Indexed V3f :=
  (indexLoop SortableV3f.lt uninit [] normalVec).sample

/-- Indexed UVs of one UV set of `Save` (option `indexedUVs`). -/
def Save.indexedUVs (uninit : V2f) (prevIndex : List Nat) (uvVec : List V2f) : Indexed V2f :=
  (indexLoop SortableV2f.lt uninit prevIndex uvVec).sample

/-! ## The host mesh -/

/-- One polygon of the host mesh: `face.GetVertices().GetIndexArray()` and
`face.GetSamples().GetIndexArray()`. -/
structure PolygonFace where
  vertices : List Int
  samples : List Int
  deriving DecidableEq, Repr

/-- Number of face vertices of a list of polygons. The host reports it as
`mesh.GetSamples().GetCount()`. -/
def vertexTotal (faces : List PolygonFace) : Nat :=
  (faces.map (fun f => f.vertices.length)).sum

/-! ## `Save`: positions (lines 117-135) -/

/-- The casts `(float)pos[i].GetX()` and so on, component by component. -/
def narrowV3 (narrow : Scalar → Scalar) (p : V3f) : V3f :=
  ⟨narrow p.x, narrow p.y, narrow p.z⟩

/-- The position vector `posVec` handed to `setPositions`. `toWorld` is
`MapObjectPositionToWorldSpace(globalXfo, ·)`, used under `globalSpace` only. -/
def Save.posVec (globalSpace : Bool) (toWorld : V3f → V3f) (narrow : Scalar → Scalar)
    (pos : List V3f) : List V3f :=
  let posVec := pos.map (fun p => narrowV3 narrow (if globalSpace then toWorld p else p))
  if posVec.length = 0 then posVec ++ [⟨FLT_MAX, FLT_MAX, FLT_MAX⟩] else posVec

/-! ## `Save`: topology (lines 288-313) -/

/-- The member vectors `mFaceCountVec` and `mFaceIndicesVec`. -/
structure TopoBuffers where
  mFaceCountVec : List Int
  mFaceIndicesVec : List Int
  deriving DecidableEq, Repr

/-- The loop `for(LONG j=indices.GetCount()-1;j>=0;j--) mFaceIndicesVec[offset++] = indices[j];`
with `j + 1` passes left; the state is the index vector and `offset`. -/
def writeFaceIndices (indices : List Int) : Nat → List Int × Nat → List Int × Nat
  | 0, st => st
  | j + 1, (buf, offset) =>
    writeFaceIndices indices j (buf.set offset (indices.getD j 0), offset + 1)

/-- Variables of the loop over the faces: `i`, the two vectors, `offset`. -/
structure TopoWriteState where
  i : Nat
  mFaceCountVec : List Int
  mFaceIndicesVec : List Int
  offset : Nat

/-- One pass of the loop over the faces. -/
def writeFace (st : TopoWriteState) (face : PolygonFace) : TopoWriteState :=
  let indices := face.vertices
  let counts := st.mFaceCountVec.set st.i (indices.length : Int)
  let r := writeFaceIndices indices indices.length (st.mFaceIndicesVec, st.offset)
  { i := st.i + 1, mFaceCountVec := counts, mFaceIndicesVec := r.1, offset := r.2 }

/-- The topology part of `Save`: both member vectors are resized, filled face by
face, and get the entry 0 each when the index vector came out empty. `prev` is
what the member vectors held on entry. -/
def Save.topology (prev : TopoBuffers) (faces : List PolygonFace) (sampleCount : Nat) :
    TopoBuffers :=
  let st := faces.foldl writeFace
    { i := 0
      mFaceCountVec := vecResize prev.mFaceCountVec faces.length 0
      mFaceIndicesVec := vecResize prev.mFaceIndicesVec sampleCount 0
      offset := 0 }
  if st.mFaceIndicesVec.length = 0 then
    { mFaceCountVec := st.mFaceCountVec ++ [0], mFaceIndicesVec := st.mFaceIndicesVec ++ [0] }
  else
    { mFaceCountVec := st.mFaceCountVec, mFaceIndicesVec := st.mFaceIndicesVec }

/-! ## Stored samples and the decode operators -/

/-- What the decode operators read of one stored sample. -/
structure MeshSample where
  positions : List V3f
  /-- The velocity array `meshVel`; `none` is the null pointer. -/
  velocities : Option (List V3f)
  faceCounts : List Int
  faceIndices : List Int
  deriving DecidableEq, Repr

/-- The loop `for(i=0;i<other.size();i++) pos[i] = f(pos[i], other[i])`, from
index `i` on; `none` when `pos[i]` is outside `pos`. -/
def updateEach (f : V3f → V3f → V3f) : List V3f → Nat → List V3f → Option (List V3f)
  | [], _, pos => some pos
  | q :: rest, i, pos =>
    match pos[i]? with
    | none => none
    | some p => updateEach f rest (i + 1) (pos.set i (f p q))

/-- `CVector3::LinearlyInterpolate(A, B, alpha)` of the host SDK. -/
def LinearlyInterpolate (a b : V3f) (alpha : Scalar) : V3f :=
  ⟨a.x * (1 - alpha) + b.x * alpha, a.y * (1 - alpha) + b.y * alpha,
    a.z * (1 - alpha) + b.z * alpha⟩

/-! ### `alembic_polymesh_Update` (lines 584-626) -/

/-- Inputs of the point cache operator: the positions of the samples at
`floorIndex` and `ceilIndex`, the blend factor, the points of the input mesh. -/
structure PointCacheInput where
  floorPositions : List V3f
  ceilPositions : List V3f
  alpha : Scalar
  inPositions : List V3f
  deriving DecidableEq, Repr

/-- The operator `alembic_polymesh_Update`; the result is the position array
put on the output. Both schemas (PolyMesh, SubD) run the same steps here. -/
def alembic_polymesh_Update (inp : PointCacheInput) : Outcome (List V3f) :=
  if inp.inPositions.length ≠ inp.floorPositions.length then Outcome.notSet
  else
    match updateEach (fun _ q => q) inp.floorPositions 0 inp.inPositions with
    | none => Outcome.fault
    | some pos =>
      if inp.alpha ≠ 0 then
        match updateEach (fun p q => LinearlyInterpolate p q inp.alpha) inp.ceilPositions 0 pos with
        | none => Outcome.fault
        | some blended => Outcome.done blended
      else Outcome.done pos

/-! ### `alembic_polymesh_topo_Update` (lines 912-1035) -/

/-- Inputs of the topology operator. -/
structure TopoInput where
  /-- `IPolyMesh::matches(iObj.getMetaData())`; otherwise the object is read as `ISubD`. -/
  isPolyMesh : Bool
  /-- The answer of `isAlembicMeshTopoDynamic(&objMesh)`. -/
  hasDynamicTopo : Bool
  /-- The stored sample at `sampleInfo.floorIndex`. -/
  floorSample : MeshSample
  /-- The stored sample at `sampleInfo.ceilIndex`. -/
  ceilSample : MeshSample
  alpha : Scalar
  /-- `getSampleTime(sampleInfo.floorIndex)`. -/
  floorTime : Scalar
  /-- `getSampleTime(sampleInfo.ceilIndex)`. -/
  ceilTime : Scalar
  deriving DecidableEq, Repr

/-- Variables of the rebuild loop: `polies`, `offset1`, `offset2`. -/
structure RebuildState where
  polies : List Int
  offset1 : Nat
  offset2 : Int
  deriving DecidableEq, Repr

/-- The write `polies[offset1++] = v`. -/
def writePoly (st : RebuildState) (v : Int) : Option RebuildState :=
  if st.offset1 < st.polies.length then
    some { st with polies := st.polies.set st.offset1 v, offset1 := st.offset1 + 1 }
  else none

/-- The loop `for(size_t k=0;k<singleFaceCount;k++)` with `n` passes left and the
counter at `k`: `polies[offset1++] = meshFaceIndices->get()[(size_t)offset2 - 1 - k]`. -/
def rebuildFace (faceIndices : List Int) : Nat → Nat → RebuildState → Option RebuildState
  | 0, _, st => some st
  | n + 1, k, st =>
    match faceIndices[toSizeT (st.offset2 - 1 - (k : Int))]? with
    | none => none
    | some v =>
      match writePoly st v with
      | none => none
      | some st1 => rebuildFace faceIndices n (k + 1) st1

/-- One pass of the loop over `meshFaceCount`. A negative count turns into a
`size_t` bound of at least 2^63 passes, which no array holds. -/
def rebuildStep (faceIndices : List Int) (st : Option RebuildState) (singleFaceCount : Int) :
    Option RebuildState :=
  match st with
  | none => none
  | some st0 =>
    match writePoly st0 singleFaceCount with
    | none => none
    | some st1 =>
      let st2 := { st1 with offset2 := wrapInt32 (st1.offset2 + singleFaceCount) }
      if singleFaceCount < 0 then none
      else rebuildFace faceIndices singleFaceCount.toNat 0 st2

/-- The topology part of the operator (lines 938, 943-987): the polygon
description `polies` handed to `outMesh.Set`. The host does not say what a
fresh `CLongArray` holds; it is taken as zeros. -/
def topoPolies (s : MeshSample) : Outcome (List Int) :=
  let polies : List Int := List.replicate (s.faceCounts.length + s.faceIndices.length) 0
  match s.faceCounts with
  | [] => Outcome.done polies
  | first :: _ =>
    if first = 0 then
      match s.velocities with
      | none => Outcome.notSet
      | some vel =>
        if vel.length ≠ s.positions.length then Outcome.notSet
        else Outcome.done [3, 0, 0, 0]
    else
      match s.faceCounts.foldl (rebuildStep s.faceIndices)
          (some { polies := polies, offset1 := 0, offset2 := 0 }) with
      | none => Outcome.fault
      | some st => Outcome.done st.polies

/-- The positional part of the operator (lines 937-941 and 989-1032), in exact
arithmetic. On the SubD branch the blend is of the floor sample with itself
(line 1005 reads `floorIndex`), which exact arithmetic returns unchanged and
`double` arithmetic does not; `topoPositionsFl` writes the rounding out. -/
def topoPositions (inp : TopoInput) : Option (List V3f) :=
  let pos := inp.floorSample.positions
  if inp.alpha ≠ 0 then
    let alpha := inp.alpha
    let ialpha := 1 - alpha
    let meshPos :=
      if inp.isPolyMesh then inp.ceilSample.positions else inp.floorSample.positions
    if meshPos.length = pos.length ∧ inp.hasDynamicTopo = false then
      updateEach (fun p q =>
        ⟨ialpha * p.x + alpha * q.x, ialpha * p.y + alpha * q.y, ialpha * p.z + alpha * q.z⟩)
        meshPos 0 pos
    else
      match inp.floorSample.velocities with
      | some meshVel =>
        let timeAlpha := (inp.ceilTime - inp.floorTime) * alpha
        if meshVel.length = pos.length then
          updateEach (fun p v =>
            ⟨p.x + timeAlpha * v.x, p.y + timeAlpha * v.y, p.z + timeAlpha * v.z⟩)
            meshVel 0 pos
        else some pos
      | none => some pos
  else some pos

/-- The operator `alembic_polymesh_topo_Update`; the result is the pair
`(pos, polies)` of `outMesh.Set(pos, polies)`. -/
def alembic_polymesh_topo_Update (inp : TopoInput) : Outcome (List V3f × List Int) :=
  match topoPolies inp.floorSample with
  | Outcome.notSet => Outcome.notSet
  | Outcome.fault => Outcome.fault
  | Outcome.done polies =>
    match topoPositions inp with
    | none => Outcome.fault
    | some pos => Outcome.done (pos, polies)

/-! ### Rounding of the `double` arithmetic of the operator -/

/-- Rounding to the nearest integer, a tie to the even one. -/
def roundHalfEven (x : Scalar) : Int :=
  if x - ⌊x⌋ < 1 / 2 then ⌊x⌋
  else if 1 / 2 < x - ⌊x⌋ then ⌊x⌋ + 1
  else if ⌊x⌋ % 2 = 0 then ⌊x⌋ else ⌊x⌋ + 1

/-- The `double` nearest to a real number below the overflow threshold (IEEE 754
binary64, round to nearest, ties to even): 53 significant bits, the exponent of
the leading bit not below -1022. -/
def roundDouble (x : Scalar) : Scalar :=
  if x = 0 then 0
  else
    let e := max (Int.log 2 |x|) (-1022)
    (roundHalfEven (x / 2 ^ (e - 52)) : Scalar) * 2 ^ (e - 52)

/-- The positional part of the operator (lines 937-941 and 989-1032) with the
rounding `fl` of every `double` operation written out: `1.0 - alpha`, the
products and the sum of each blend, the difference of the sample times, its
product with `alpha`, and the product and the sum of each extrapolation. The
stored `float` values convert to `double` exactly. -/
def topoPositionsFl (fl : Scalar → Scalar) (inp : TopoInput) : Option (List V3f) :=
  let pos := inp.floorSample.positions
  if inp.alpha ≠ 0 then
    let alpha := inp.alpha
    let ialpha := fl (1 - alpha)
    let meshPos :=
      if inp.isPolyMesh then inp.ceilSample.positions else inp.floorSample.positions
    if meshPos.length = pos.length ∧ inp.hasDynamicTopo = false then
      updateEach (fun p q =>
        ⟨fl (fl (ialpha * p.x) + fl (alpha * q.x)), fl (fl (ialpha * p.y) + fl (alpha * q.y)),
          fl (fl (ialpha * p.z) + fl (alpha * q.z))⟩)
        meshPos 0 pos
    else
      match inp.floorSample.velocities with
      | some meshVel =>
        let timeAlpha := fl (fl (inp.ceilTime - inp.floorTime) * alpha)
        if meshVel.length = pos.length then
          updateEach (fun p v =>
            ⟨fl (p.x + fl (timeAlpha * v.x)), fl (p.y + fl (timeAlpha * v.y)),
              fl (p.z + fl (timeAlpha * v.z))⟩)
            meshVel 0 pos
        else some pos
      | none => some pos
  else some pos

/-- The operator `alembic_polymesh_topo_Update` with the rounding `fl` of its
`double` arithmetic written out. -/
def alembic_polymesh_topo_UpdateFl (fl : Scalar → Scalar) (inp : TopoInput) :
    Outcome (List V3f × List Int) :=
  match topoPolies inp.floorSample with
  | Outcome.notSet => Outcome.notSet
  | Outcome.fault => Outcome.fault
  | Outcome.done polies =>
    match topoPositionsFl fl inp with
    | none => Outcome.fault
    | some pos => Outcome.done (pos, polies)

/-! ## `Save`: the self bounds (lines 114-139) -/

/-- The constant `DBL_MAX` of `<cfloat>`. -/
def DBL_MAX : Scalar := (2 ^ 53 - 1) * 2 ^ 971

/-- `Alembic::Abc::Box3d`, the Imath box of the Alembic library. -/
structure Box3d where
  min : V3f
  max : V3f
  deriving DecidableEq, Repr

/-- Imath `Box::makeEmpty`, the state the default constructor leaves: `min` at
the largest and `max` at the lowest value of the base type. -/
def Box3d.makeEmpty : Box3d :=
  { min := ⟨DBL_MAX, DBL_MAX, DBL_MAX⟩, max := ⟨-DBL_MAX, -DBL_MAX, -DBL_MAX⟩ }

/-- Imath `Box::extendBy(point)`: on every axis, `if (point[i] < min[i])
min[i] = point[i]; if (point[i] > max[i]) max[i] = point[i];`. -/
def Box3d.extendBy (b : Box3d) (p : V3f) : Box3d :=
  { min := ⟨if p.x < b.min.x then p.x else b.min.x,
            if p.y < b.min.y then p.y else b.min.y,
            if p.z < b.min.z then p.z else b.min.z⟩
    max := ⟨if p.x > b.max.x then p.x else b.max.x,
            if p.y > b.max.y then p.y else b.max.y,
            if p.z > b.max.z then p.z else b.max.z⟩ }

/-- The box `bbox` handed to `setSelfBounds`: a fresh box extended by every
entry of `posVec` in turn, and by the origin when `posVec` came out empty. -/
def Save.selfBounds (globalSpace : Bool) (toWorld : V3f → V3f) (narrow : Scalar → Scalar)
    (pos : List V3f) : Box3d :=
  let posVec := pos.map (fun p => narrowV3 narrow (if globalSpace then toWorld p else p))
  let bbox := posVec.foldl Box3d.extendBy Box3d.makeEmpty
  if posVec.length = 0 then bbox.extendBy ⟨0, 0, 0⟩ else bbox

/-! ## `Save` as a whole (lines 69-537)

The state is the part of the object `AlembicPolyMesh` that `Save` reads and
writes; one call takes the job options and what the host answers at the frame.
The transform sample, the meta data, the visibility property, the face sets and
the bind pose go to properties of their own and are left out; the UV sets, with
members and properties of their own, follow in `SaveUV`. -/

/-- The options `GetJob()->GetOption(...)` read by `Save`. -/
structure JobOptions where
  globalSpace : Bool
  exportPurePointCache : Bool
  exportDynamicTopology : Bool
  exportNormals : Bool
  indexedNormals : Bool
  deriving DecidableEq, Repr

/-- What the host answers during one call of `Save`. -/
structure MeshSnapshot where
  /-- `isRefAnimated(GetRef(),false,globalSpace)`. -/
  animated : Bool
  /-- `mesh.GetVertices().GetPositionArray()`. -/
  pos : List V3f
  /-- `mesh.GetPolygons()`. -/
  faces : List PolygonFace
  /-- `mesh.GetSamples().GetCount()`. -/
  sampleCount : Nat
  /-- `shadingNormals` after the user normals have been copied in (lines 186-202). -/
  shadingNormals : List Scalar
  /-- The data of the ICE attribute `PointVelocity`, when defined and valid. -/
  velocitiesData : Option (List V3f)
  /-- `MapObjectPositionToWorldSpace(globalXfo, ·)`. -/
  toWorld : V3f → V3f
  /-- `MapObjectPositionToWorldSpace(globalRotation, ·)`. -/
  rotate : V3f → V3f

/-- What the machine and the host SDK contribute: the cast `(float)`,
`CVector3::NormalizeInPlace`, and the content of freshly resized vectors. -/
structure Machine where
  narrow : Scalar → Scalar
  normalize : V3f → V3f
  uninit : V3f

/-- `ON3fGeomParam::Sample`: the values, and the indices when set. -/
structure NormalSample where
  vals : List V3f
  indices : Option (List Nat)
  deriving DecidableEq, Repr

/-- `OPolyMeshSchema::Sample`, the member `mMeshSample`: every field is `none`
until a setter has been called on it. -/
structure OSample where
  positions : Option (List V3f)
  selfBounds : Option Box3d
  faceCounts : Option (List Int)
  faceIndices : Option (List Int)
  velocities : Option (List V3f)
  normals : Option NormalSample
  deriving DecidableEq, Repr

/-- The members of `AlembicPolyMesh` that `Save` reads and writes; `stored` is
the list of samples handed to `mMeshSchema.set`, oldest first. -/
structure SaveState where
  mNumSamples : Nat
  mMeshSample : OSample
  mFaceCountVec : List Int
  mFaceIndicesVec : List Int
  mVelocitiesVec : List V3f
  stored : List OSample
  deriving DecidableEq, Repr

/-- The object as its constructor leaves it. -/
def SaveState.init : SaveState :=
  { mNumSamples := 0
    mMeshSample := ⟨none, none, none, none, none, none⟩
    mFaceCountVec := [], mFaceIndicesVec := [], mVelocitiesVec := [], stored := [] }

/-- A loop `for(LONG i=0;i<n;i++) buf[i] = f(i)`. -/
def fillLoop {α : Type} (n : Nat) (f : Nat → α) (buf : List α) : List α :=
  (List.range n).foldl (fun b i => b.set i (f i)) buf

/-- Read of a `CFloatArray` at a `LONG` index. -/
def floatAt (a : List Scalar) (i : Int) : Scalar :=
  if 0 ≤ i then a.getD i.toNat 0 else 0

/-- The sample look table of lines 164-173: `sampleLookup[offset++] = samples[j]`
for `j` from the last sample of each face down to 0. -/
def Save.sampleLookup (faces : List PolygonFace) (sampleCount : Nat) : List Int :=
  (faces.foldl (fun st face => writeFaceIndices face.samples face.samples.length st)
    (List.replicate sampleCount 0, 0)).1

/-- The vector `normalVec` after lines 203-221. -/
def Save.normalVec (m : Machine) (job : JobOptions) (snap : MeshSnapshot) : List V3f :=
  let sampleLookup := Save.sampleLookup snap.faces snap.sampleCount
  fillLoop snap.sampleCount
    (fun i =>
      let lookedup := sampleLookup.getD i 0
      let normal : V3f :=
        ⟨floatAt snap.shadingNormals (lookedup * 3 + 0),
         floatAt snap.shadingNormals (lookedup * 3 + 1),
         floatAt snap.shadingNormals (lookedup * 3 + 2)⟩
      narrowV3 m.narrow (if job.globalSpace then m.normalize (snap.rotate normal) else normal))
    (vecResize [] (snap.shadingNormals.length / 3) m.uninit)

/-- The variables `normalVec`, `normalCount`, `normalIndexVec`, `normalIndexCount`. -/
structure NormalVars where
  normalVec : List V3f
  normalCount : Nat
  normalIndexVec : List Nat
  normalIndexCount : Nat
  deriving DecidableEq, Repr

/-- The four variables after the block of lines 175-253. -/
def Save.normalVars (m : Machine) (job : JobOptions) (snap : MeshSnapshot) : NormalVars :=
  if job.exportNormals then
    let normalVec := Save.normalVec m job snap
    if job.indexedNormals then
      let st := indexLoop SortableV3f.lt m.uninit [] normalVec
      { normalVec := st.sortedVec, normalCount := st.sortedCount
        normalIndexVec := st.indexVec, normalIndexCount := st.indexCount }
    else
      { normalVec := normalVec, normalCount := normalVec.length
        normalIndexVec := [], normalIndexCount := 0 }
  else { normalVec := [], normalCount := 0, normalIndexVec := [], normalIndexCount := 0 }

/-- Lines 316-322: one value `FLT_MAX` and one index 0 in place of an empty
normal attribute. -/
def Save.normalSentinel (job : JobOptions) (v : NormalVars) : NormalVars :=
  if (v.normalVec.length = 0 ∨ v.normalCount = 0) ∧ job.exportNormals = true ∧
      job.exportDynamicTopology = true then
    { normalVec := v.normalVec ++ [⟨FLT_MAX, FLT_MAX, FLT_MAX⟩], normalCount := 1
      normalIndexVec := v.normalIndexVec ++ [0], normalIndexCount := 1 }
  else v

/-- Lines 323-330 and 523-530: the normal sample put on `mMeshSample`. -/
def Save.setNormals (v : NormalVars) (sample : OSample) : OSample :=
  if v.normalVec.length > 0 ∧ v.normalCount > 0 then
    { sample with
      normals := some
        { vals := v.normalVec.take v.normalCount
          indices :=
            if v.normalIndexCount > 0 then some (v.normalIndexVec.take v.normalIndexCount)
            else none } }
  else sample

/-- The member `mVelocitiesVec` after lines 264-279, for a defined velocity
source `velocitiesData`. -/
def Save.velocitiesVec (m : Machine) (job : JobOptions) (snap : MeshSnapshot)
    (prev : List V3f) (velocitiesData : List V3f) : List V3f :=
  let vertCount := snap.pos.length
  let vec := fillLoop vertCount
    (fun i =>
      let vel := velocitiesData.getD i ⟨0, 0, 0⟩
      narrowV3 m.narrow (if job.globalSpace then snap.rotate vel else vel))
    (vecResize prev vertCount m.uninit)
  if vec.length = 0 then vec ++ [⟨0, 0, 0⟩] else vec

/-- One call of `AlembicPolyMesh::Save`. -/
def Save (m : Machine) (job : JobOptions) (st : SaveState) (snap : MeshSnapshot) : SaveState :=
  -- lines 96-99: nothing is stored for a mesh that is not animated
  if st.mNumSamples > 0 ∧ snap.animated = false then st
  else
    let posVec := Save.posVec job.globalSpace snap.toWorld m.narrow snap.pos
    let bbox := Save.selfBounds job.globalSpace snap.toWorld m.narrow snap.pos
    let s1 : OSample := { st.mMeshSample with positions := some posVec, selfBounds := some bbox }
    if job.exportPurePointCache then
      let s2 : OSample :=
        if st.mNumSamples = 0 then { s1 with faceCounts := some [], faceIndices := some [] }
        else s1
      { st with mMeshSample := s2, stored := st.stored ++ [s2], mNumSamples := st.mNumSamples + 1 }
    else
      let v := Save.normalVars m job snap
      let velVec : List V3f :=
        match job.exportDynamicTopology, snap.velocitiesData with
        | true, some data => Save.velocitiesVec m job snap st.mVelocitiesVec data
        | _, _ => st.mVelocitiesVec
      let s3 : OSample :=
        match job.exportDynamicTopology, snap.velocitiesData with
        | true, some _ => { s1 with velocities := some velVec }
        | _, _ => s1
      if st.mNumSamples = 0 ∨ job.exportDynamicTopology = true then
        let topo := Save.topology ⟨st.mFaceCountVec, st.mFaceIndicesVec⟩ snap.faces snap.sampleCount
        let s4 : OSample :=
          { s3 with faceCounts := some topo.mFaceCountVec, faceIndices := some topo.mFaceIndicesVec }
        let s5 := Save.setNormals (Save.normalSentinel job v) s4
        { mNumSamples := st.mNumSamples + 1
          mMeshSample := s5
          mFaceCountVec := topo.mFaceCountVec
          mFaceIndicesVec := topo.mFaceIndicesVec
          mVelocitiesVec := velVec
          stored := st.stored ++ [s5] }
      else
        let s5 := Save.setNormals v s3
        { st with
          mMeshSample := s5
          mVelocitiesVec := velVec
          stored := st.stored ++ [s5]
          mNumSamples := st.mNumSamples + 1 }

/-- A sequence of calls of `Save` on one object, under one job. -/
def SaveSeq (m : Machine) (job : JobOptions) (st : SaveState) (snaps : List MeshSnapshot) :
    SaveState :=
  snaps.foldl (Save m job) st

/-! ### `alembic_normals_Update` (lines 667-723) -/

/-- `ITypedGeomParam::getExpandedValue` of the Alembic library on a normals
sample, as the decode operators read it: the values themselves when the sample
has no indices, `vals[indices[i]]` for every `i` otherwise. -/
def NormalSample.expanded (s : NormalSample) : List V3f :=
  match s.indices with
  | none => s.vals
  | some indices => indices.map (fun a => s.vals.getD a ⟨0, 0, 0⟩)

/-- Inputs of the normals operator. -/
structure NormalsInput where
  /-- The array `normalValues` of the input cluster property. -/
  normalValues : List Scalar
  /-- `accessor.GetPolygonVerticesCount(counts)`. -/
  counts : List Int
  /-- The expanded normals at `floorIndex`; `none` when the normals parameter is
  not valid. -/
  floorNormals : Option (List V3f)
  /-- The expanded normals at `ceilIndex`. -/
  ceilNormals : List V3f
  alpha : Scalar
  deriving DecidableEq, Repr

/-- Read of `buf[o]`, `buf[o+1]`, `buf[o+2]`. -/
def readTriple (buf : List Scalar) (o : Nat) : Option V3f :=
  if o + 2 < buf.length then some ⟨buf.getD o 0, buf.getD (o + 1) 0, buf.getD (o + 2) 0⟩
  else none

/-- The three writes `buf[o++] = v.x; buf[o++] = v.y; buf[o++] = v.z`. -/
def writeTriple (buf : List Scalar) (o : Nat) (v : V3f) : Option (List Scalar) :=
  if o + 2 < buf.length then some (((buf.set o v.x).set (o + 1) v.y).set (o + 2) v.z)
  else none

/-- The loop `for(LONG j=counts[i]-1;j>=0;j--)` of both passes of the operator,
with `j + 1` passes left: the normal at `normalValues[offsetOut..]` becomes
`g` of itself and of `meshNormals[offsetIn+j]`. The state is `normalValues` and
`offsetOut`. -/
def normalsFace (g : V3f → V3f → V3f) (meshNormals : List V3f) (offsetIn : Int) :
    Nat → List Scalar × Nat → Option (List Scalar × Nat)
  | 0, st => some st
  | j + 1, (buf, offsetOut) =>
    if offsetIn + (j : Int) < 0 then none
    else
      match meshNormals[(offsetIn + (j : Int)).toNat]?, readTriple buf offsetOut with
      | some s, some cur =>
        match writeTriple buf offsetOut (g cur s) with
        | some buf1 => normalsFace g meshNormals offsetIn j (buf1, offsetOut + 3)
        | none => none
      | _, _ => none

/-- Variables of one pass over the polygons: `normalValues`, `offsetOut`,
`offsetIn`. -/
structure NormalsLoopState where
  normalValues : List Scalar
  offsetOut : Nat
  offsetIn : Int

/-- One polygon of a pass: the inner loop, then `offsetIn += counts[i]`. -/
def normalsStep (g : V3f → V3f → V3f) (meshNormals : List V3f)
    (st : Option NormalsLoopState) (count : Int) : Option NormalsLoopState :=
  match st with
  | none => none
  | some s =>
    match normalsFace g meshNormals s.offsetIn count.toNat (s.normalValues, s.offsetOut) with
    | none => none
    | some r =>
      some { normalValues := r.1, offsetOut := r.2, offsetIn := s.offsetIn + count }

/-- One pass `for(LONG i=0;i<counts.GetCount();i++)` from both offsets at 0. -/
def normalsLoop (g : V3f → V3f → V3f) (meshNormals : List V3f) (counts : List Int)
    (normalValues : List Scalar) : Option (List Scalar) :=
  (counts.foldl (normalsStep g meshNormals)
    (some { normalValues := normalValues, offsetOut := 0, offsetIn := 0 })).map
    (fun s => s.normalValues)

/-- The operator `alembic_normals_Update`; the result is the array put on the
output cluster property. -/
def alembic_normals_Update (m : Machine) (inp : NormalsInput) : Outcome (List Scalar) :=
  match inp.floorNormals with
  | none => Outcome.done inp.normalValues
  | some meshNormals =>
    if meshNormals.length * 3 = inp.normalValues.length then
      match normalsLoop (fun _ s => s) meshNormals inp.counts inp.normalValues with
      | none => Outcome.fault
      | some applied =>
        if inp.alpha ≠ 0 then
          if inp.ceilNormals.length = applied.length / 3 then
            match normalsLoop
                (fun normal s => m.normalize (LinearlyInterpolate normal s inp.alpha))
                inp.ceilNormals inp.counts applied with
            | none => Outcome.fault
            | some blended => Outcome.done blended
          else Outcome.done applied
        else Outcome.done applied
    else Outcome.done inp.normalValues

/-! ### `alembic_uvs_Update` (lines 770-851) -/

/-- Inputs of the UV operator. -/
structure UvsInput where
  /-- The array `uvValues` of the input cluster property. -/
  uvValues : List Scalar
  /-- `mesh.GetPolygons()`. -/
  faces : List PolygonFace
  /-- `accessor.GetNodeCount()`. -/
  nodeCount : Nat
  /-- The expanded UVs at `floorIndex`; `none` when the UV parameter is not valid. -/
  floorUVs : Option (List V2f)
  /-- The expanded UVs at `ceilIndex`. -/
  ceilUVs : List V2f
  alpha : Scalar
  deriving DecidableEq, Repr

/-- The loop `for(LONG j=samples.GetCount()-1;j>=0;j--) sampleLookup[samples[j]] = offset++;`
with `j + 1` passes left. -/
def uvsLookupFace (samples : List Int) : Nat → List Int × Int → Option (List Int × Int)
  | 0, st => some st
  | j + 1, (sampleLookup, offset) =>
    let node := samples.getD j 0
    if 0 ≤ node ∧ node.toNat < sampleLookup.length then
      uvsLookupFace samples j (sampleLookup.set node.toNat offset, offset + 1)
    else none

/-- The sample look table of lines 815-824. -/
def uvsSampleLookup (faces : List PolygonFace) (nodeCount : Nat) : Option (List Int) :=
  (faces.foldl
    (fun st face =>
      match st with
      | none => none
      | some s => uvsLookupFace face.samples face.samples.length s)
    (some (List.replicate nodeCount 0, 0))).map (fun s => s.1)

/-- Read of `meshUVs->get()[sampleLookup[i]]`. -/
def uvAt (meshUVs : List V2f) (index : Int) : Option V2f :=
  if 0 ≤ index then meshUVs[index.toNat]? else none

/-- The loop of lines 828-833 from node `i` on, the write offset at `offset`. -/
def uvsApply (meshUVs : List V2f) : List Int → Nat → List Scalar → Option (List Scalar)
  | [], _, uvValues => some uvValues
  | looked :: rest, offset, uvValues =>
    match uvAt meshUVs looked with
    | none => none
    | some uv =>
      match writeTriple uvValues offset ⟨uv.x, uv.y, 0⟩ with
      | none => none
      | some written => uvsApply meshUVs rest (offset + 3) written

/-- The loop of lines 841-846 from node `i` on. In
`uvValues[offset++] = uvValues[offset] * ialpha + ...` the right operand of the
assignment is evaluated before the subscript on the left: the read
`uvValues[offset]` takes the entry that is then written, and `offset` is
incremented after it. -/
def uvsBlend (meshUVs : List V2f) (alpha : Scalar) :
    List Int → Nat → List Scalar → Option (List Scalar)
  | [], _, uvValues => some uvValues
  | looked :: rest, offset, uvValues =>
    let ialpha := 1 - alpha
    match uvAt meshUVs looked with
    | none => none
    | some uv =>
      if offset + 2 < uvValues.length then
        let v1 := uvValues.set offset (uvValues.getD offset 0 * ialpha + uv.x * alpha)
        let v2 := v1.set (offset + 1) (v1.getD (offset + 1) 0 * ialpha + uv.y * alpha)
        let v3 := v2.set (offset + 2) 0
        uvsBlend meshUVs alpha rest (offset + 3) v3
      else none

/-- The operator `alembic_uvs_Update`; the result is the array put on the output
cluster property. -/
def alembic_uvs_Update (inp : UvsInput) : Outcome (List Scalar) :=
  match inp.floorUVs with
  | none => Outcome.done inp.uvValues
  | some meshUVs =>
    if meshUVs.length * 3 = inp.uvValues.length then
      match uvsSampleLookup inp.faces inp.nodeCount with
      | none => Outcome.fault
      | some sampleLookup =>
        match uvsApply meshUVs sampleLookup 0 inp.uvValues with
        | none => Outcome.fault
        | some applied =>
          if inp.alpha ≠ 0 then
            match uvsBlend inp.ceilUVs inp.alpha sampleLookup 0 applied with
            | none => Outcome.fault
            | some blended => Outcome.done blended
          else Outcome.done applied
    else Outcome.done inp.uvValues

/-! ## The sample lookup `getSampleInfo` -/

/-- The result `SampleInfo` of the sample lookup. -/
structure SampleInfo where
  floorIndex : Nat
  ceilIndex : Nat
  alpha : Scalar
  deriving DecidableEq, Repr

/-- Modelled from the spec: `getSampleInfo`, the sample lookup every decode
operator calls, is defined outside `src/`. Section 4.3 of the spec: for
`sampleCount <= 1` the result is floor = ceil = 0, `alpha = 0`; the query time
is clamped to the known times, with `alpha = 0` at or before the first time and
floor = ceil = n-1, `alpha = 0` at or after the last; otherwise the result is
the adjacent pair `t_i <= queryTime <= t_{i+1}` with
`alpha = (queryTime - t_i) / (t_{i+1} - t_i)` in `[0,1)`, and `alpha = 0` for
`t_i == t_{i+1}`. Section 8: a query time equal to a known time `times[k]`
gives `(k, k, 0.0)`. -/
def getSampleInfo (queryTime : Scalar) (knownTimes : List Scalar) (sampleCount : Nat) :
    SampleInfo :=
  if sampleCount ≤ 1 then ⟨0, 0, 0⟩
  else if queryTime ≤ knownTimes.getD 0 0 then ⟨0, 0, 0⟩
  else if knownTimes.getD (sampleCount - 1) 0 ≤ queryTime then
    ⟨sampleCount - 1, sampleCount - 1, 0⟩
  else
    let i := ((knownTimes.take sampleCount).takeWhile (fun t => decide (t ≤ queryTime))).length - 1
    let ti := knownTimes.getD i 0
    let tj := knownTimes.getD (i + 1) 0
    if queryTime = ti then ⟨i, i, 0⟩
    else if ti = tj then ⟨i, i + 1, 0⟩
    else ⟨i, i + 1, (queryTime - ti) / (tj - ti)⟩

/-! ### `alembic_bbox_Update` (lines 1076-1211) -/

/-- Inputs of the bounding box operator. -/
structure BBoxInput where
  /-- Whether the meta data of the archive object matches one of the schemas
  `IPolyMesh`, `ICurves`, `IPoints`, `ISubD`; the four branches run the same
  steps, and without a match `box` stays as its constructor left it. -/
  matched : Bool
  /-- `sample.getSelfBounds()` of the sample at `floorIndex`. -/
  floorBox : Box3d
  /-- `sample.getSelfBounds()` of the sample at `ceilIndex`. -/
  ceilBox : Box3d
  alpha : Scalar
  /-- The operator parameter `extend`. -/
  extend : Scalar
  /-- The points of the input primitive. -/
  inPositions : List V3f
  deriving DecidableEq, Repr

/-- The variable `box` before it is padded: the stored box of the floor sample,
blended with the one of the ceil sample when `alpha > 0.0`. -/
def bboxStored (inp : BBoxInput) : Box3d :=
  if inp.matched then
    let box := inp.floorBox
    if inp.alpha > 0 then
      let box2 := inp.ceilBox
      { min := ⟨(1 - inp.alpha) * box.min.x + inp.alpha * box2.min.x,
                (1 - inp.alpha) * box.min.y + inp.alpha * box2.min.y,
                (1 - inp.alpha) * box.min.z + inp.alpha * box2.min.z⟩
        max := ⟨(1 - inp.alpha) * box.max.x + inp.alpha * box2.max.x,
                (1 - inp.alpha) * box.max.y + inp.alpha * box2.max.y,
                (1 - inp.alpha) * box.max.z + inp.alpha * box2.max.z⟩ }
    else box
  else Box3d.makeEmpty

/-- Lines 1191-1196: `box.min.x -= extend; ... box.max.z += extend;`. -/
def bboxPad (box : Box3d) (extend : Scalar) : Box3d :=
  { min := ⟨box.min.x - extend, box.min.y - extend, box.min.z - extend⟩
    max := ⟨box.max.x + extend, box.max.y + extend, box.max.z + extend⟩ }

/-- The operator `alembic_bbox_Update`; the result is the position array put on
the output. -/
def alembic_bbox_Update (inp : BBoxInput) : Outcome (List V3f) :=
  let box := bboxPad (bboxStored inp) inp.extend
  Outcome.done (inp.inPositions.map (fun p =>
    ⟨if p.x < 0 then box.min.x else box.max.x,
     if p.y < 0 then box.min.y else box.max.y,
     if p.z < 0 then box.min.z else box.max.z⟩))

/-! ## `Save`: the UV sets (lines 332-464)

The UV block sits inside the topology branch of `Save`. It keeps members of its
own (`mUvVec`, `mUvIndexVec`, `mUvParams`, `mUvOptionsVec`) and writes to
properties of its own; `SaveUV` below runs it next to `Save`. -/

/-- One nested object of a UV cluster property, as lines 441-452 look at it. -/
structure UvChild where
  /-- `child.GetType() == L"uvprojdef"`. -/
  isProjDef : Bool
  wrap_u : Bool
  wrap_v : Bool
  deriving DecidableEq, Repr

/-- One UV cluster property of `accessor.GetUVs()`. -/
structure UvProp where
  /-- `GetElements().GetArray()`: three values per node. -/
  uvValues : List Scalar
  /-- `clusterProperty.GetType() == L"uvspace"`. -/
  isUvSpace : Bool
  /-- The value of the parameter `subdsmooth`. -/
  subdsmooth : Bool
  /-- `clusterProperty.GetNestedObjects()`. -/
  children : List UvChild
  deriving DecidableEq, Repr

/-- `OV2fGeomParam::Sample`: the values, and the indices when set. -/
structure UvSample where
  vals : List V2f
  indices : Option (List Nat)
  deriving DecidableEq, Repr

/-- `ITypedGeomParam::getExpandedValue` of the Alembic library on a UV sample, as
`alembic_uvs_Update` reads it: the values themselves when the sample has no
indices, `vals[indices[i]]` for every `i` otherwise. -/
def UvSample.expanded (s : UvSample) : List V2f :=
  match s.indices with
  | none => s.vals
  | some indices => indices.map (fun a => s.vals.getD a ⟨0, 0⟩)

/-- The job options `exportUVs` and `indexedUVs`. -/
structure UvJobOptions where
  exportUVs : Bool
  indexedUVs : Bool
  deriving DecidableEq, Repr

/-- The members of `AlembicPolyMesh` that the UV block reads and writes. -/
structure UvState where
  mUvVec : List (List V2f)
  mUvIndexVec : List (List Nat)
  /-- The vector `mUvParams`: every parameter with the samples set on it, oldest
  first. -/
  mUvParams : List (List UvSample)
  mUvOptionsVec : List Scalar
  /-- The samples set on the property `.uvOptions`, oldest first. -/
  uvOptionsSet : List (List Scalar)
  /-- The UV field of `mMeshSample` (`setUVs`). -/
  meshUVs : Option UvSample
  deriving DecidableEq, Repr

/-- The UV members as the constructor leaves them. -/
def UvState.init : UvState :=
  { mUvVec := [], mUvIndexVec := [], mUvParams := [], mUvOptionsVec := [], uvOptionsSet := []
    meshUVs := none }

/-- The vector `mUvVec[uvI]` after lines 361-370; `prev` is what it held. -/
def Save.uvVec (m : Machine) (sampleLookup : List Int) (sampleCount : Nat)
    (uvValues : List Scalar) (prev : List V2f) : List V2f :=
  fillLoop sampleCount
    (fun i =>
      let lookedup := sampleLookup.getD i 0
      (⟨m.narrow (floatAt uvValues (lookedup * 3 + 0)),
        m.narrow (floatAt uvValues (lookedup * 3 + 1))⟩ : V2f))
    (vecResize prev sampleCount ⟨m.uninit.x, m.uninit.y⟩)

/-- Lines 411-424: the sample goes to `mMeshSample` for the first UV set and to
`mUvParams[uvI-1]` for the others, the parameter being pushed on the first
sample of the stream. `none` when `mUvParams[uvI-1]` is outside the vector. -/
def Save.uvStore (mNumSamples : Nat) (st : UvState) (uvI : Nat) (uvSample : UvSample) :
    Option UvState :=
  if uvI = 0 then some { st with meshUVs := some uvSample }
  else
    let params := if mNumSamples = 0 then st.mUvParams ++ [[]] else st.mUvParams
    match params[uvI - 1]? with
    | none => none
    | some p => some { st with mUvParams := params.set (uvI - 1) (p ++ [uvSample]) }

/-- One pass of the loop over the UV sets (lines 359-425). `none` when
`mUvVec[uvI]`, `mUvIndexVec[uvI]` or `mUvParams[uvI-1]` is outside its vector. -/
def Save.uvSet (m : Machine) (indexedUVs : Bool) (mNumSamples : Nat) (sampleLookup : List Int)
    (sampleCount : Nat) (st : UvState) (uvI : Nat) (prop : UvProp) : Option UvState :=
  match st.mUvVec[uvI]? with
  | none => none
  | some prev =>
    let uvVec := Save.uvVec m sampleLookup sampleCount prop.uvValues prev
    if indexedUVs then
      match st.mUvIndexVec[uvI]? with
      | none => none
      | some prevIndex =>
        let ist := indexLoop SortableV2f.lt ⟨m.uninit.x, m.uninit.y⟩ prevIndex uvVec
        let st1 := { st with
          mUvVec := st.mUvVec.set uvI ist.sortedVec
          mUvIndexVec := st.mUvIndexVec.set uvI ist.indexVec }
        Save.uvStore mNumSamples st1 uvI
          { vals := ist.sortedVec.take ist.sortedCount
            indices :=
              if st1.mUvIndexVec.length > 0 ∧ ist.indexCount > 0 then
                some (ist.indexVec.take ist.indexCount)
              else none }
    else
      let st1 := { st with mUvVec := st.mUvVec.set uvI uvVec }
      Save.uvStore mNumSamples st1 uvI { vals := uvVec.take uvVec.length, indices := none }

/-- The loop `for(LONG uvI=0;uvI<uvPropRefs.GetCount();uvI++)` from `uvI` on. -/
def Save.uvLoop (m : Machine) (indexedUVs : Bool) (mNumSamples : Nat) (sampleLookup : List Int)
    (sampleCount : Nat) : List UvProp → Nat → UvState → Option UvState
  | [], _, st => some st
  | prop :: rest, uvI, st =>
    match Save.uvSet m indexedUVs mNumSamples sampleLookup sampleCount st uvI prop with
    | none => none
    | some st1 => Save.uvLoop m indexedUVs mNumSamples sampleLookup sampleCount rest (uvI + 1) st1

/-- The three entries pushed for one UV set (lines 431-457): `uWrap` and `vWrap`
of the first nested object of type `uvprojdef`, and `subdsmooth`, read for a
property of type `uvspace` only; each `1.0f` or `0.0f`. -/
def Save.uvOptions (prop : UvProp) : List Scalar :=
  let subdsmooth := if prop.isUvSpace then prop.subdsmooth else false
  let wrap : Bool × Bool :=
    match prop.children.find? (fun child => child.isProjDef) with
    | some child => (child.wrap_u, child.wrap_v)
    | none => (false, false)
  [if wrap.1 then 1 else 0, if wrap.2 then 1 else 0, if subdsmooth then 1 else 0]

/-- The UV block (lines 340-462) for the UV properties `uvProps` the accessor
answers in this call. The property `.uvSetNames`, written on the first sample,
is left out. -/
def Save.uvSets (m : Machine) (uvJob : UvJobOptions) (mNumSamples : Nat)
    (sampleLookup : List Int) (sampleCount : Nat) (uvProps : List UvProp) (st : UvState) :
    Option UvState :=
  if uvProps.length > 0 then
    let st0 :=
      if mNumSamples = 0 then
        { st with
          mUvVec := vecResize st.mUvVec uvProps.length []
          mUvIndexVec :=
            if uvJob.indexedUVs then vecResize st.mUvIndexVec uvProps.length []
            else st.mUvIndexVec }
      else st
    match Save.uvLoop m uvJob.indexedUVs mNumSamples sampleLookup sampleCount uvProps 0 st0 with
    | none => none
    | some st1 =>
      if st1.mUvOptionsVec.length = 0 then
        let options := uvProps.foldl (fun v prop => v ++ Save.uvOptions prop) st1.mUvOptionsVec
        some { st1 with mUvOptionsVec := options, uvOptionsSet := st1.uvOptionsSet ++ [options] }
      else some st1
  else some st

/-- One call of `Save`, the UV block included; `none` when the UV block leaves
one of its vectors. The UV block is reached in the topology branch only: past
the animation test and the pure point cache exit, on the first sample or under
`dynamicTopology`, with `exportUVs` set. -/
def SaveUV (m : Machine) (job : JobOptions) (uvJob : UvJobOptions) (st : SaveState × UvState)
    (call : MeshSnapshot × List UvProp) : Option (SaveState × UvState) :=
  let reached : Bool :=
    decide (¬ (st.1.mNumSamples > 0 ∧ call.1.animated = false)) &&
      !job.exportPurePointCache &&
      decide (st.1.mNumSamples = 0 ∨ job.exportDynamicTopology = true) && uvJob.exportUVs
  if reached then
    match Save.uvSets m uvJob st.1.mNumSamples
        (Save.sampleLookup call.1.faces call.1.sampleCount) call.1.sampleCount call.2 st.2 with
    | none => none
    | some uv => some (Save m job st.1 call.1, uv)
  else some (Save m job st.1 call.1, st.2)

/-- A sequence of calls of `Save`, the UV block included, on one object. -/
def SaveUVSeq (m : Machine) (job : JobOptions) (uvJob : UvJobOptions) :
    Option (SaveState × UvState) → List (MeshSnapshot × List UvProp) →
    Option (SaveState × UvState)
  | st, [] => st
  | none, _ :: _ => none
  | some st, call :: rest => SaveUVSeq m job uvJob (SaveUV m job uvJob st call) rest

/-! ## Notions used by the proofs -/

/-- Reference for the proofs: the distinct values of a list in the order of
their first occurrence. -/
def firstOccurrences {K : Type} [DecidableEq K] (xs : List K) : List K :=
  xs.foldl (fun t v => if v ∈ t then t else t ++ [v]) []

/-- The comparator of the map tells apart exactly the keys that differ: two keys
are equivalent for it (neither less than the other) iff they are equal. -/
def KeyOrder {K : Type} (lt : K → K → Bool) : Prop :=
  ∀ a b : K, (!lt a b && !lt b a) = true ↔ a = b

/-- Invariant of the indexing loop after the values `xs` have been read, the
buffers having `n` entries. -/
structure LoopInv {K : Type} [DecidableEq K] (lt : K → K → Bool) (n : Nat) (xs : List K)
    (st : IndexState K) : Prop where
  hmap : ∀ w, mapFind lt st.map w =
    if w ∈ firstOccurrences xs then some ((firstOccurrences xs).indexOf w) else none
  hsc : st.sortedCount = (firstOccurrences xs).length
  hsv : st.sortedVec.take st.sortedCount = firstOccurrences xs
  hsl : st.sortedVec.length = n
  hic : st.indexCount = xs.length
  hiv : st.indexVec.take st.indexCount = xs.map (fun w => (firstOccurrences xs).indexOf w)
  hil : st.indexVec.length = n

/-- Invariant of the object over the calls of `Save` of a stream that is not a
pure point cache: once a sample has been stored, the member sample and every
stored sample carry face counts and face indices. -/
def TopologyKept (st : SaveState) : Prop :=
  (st.mNumSamples = 0 ∧ st.stored = []) ∨
  (0 < st.mNumSamples ∧ st.mMeshSample.faceCounts.isSome = true ∧
    st.mMeshSample.faceIndices.isSome = true ∧
    ∀ s ∈ st.stored, s.faceCounts.isSome = true ∧ s.faceIndices.isSome = true)

/-- No velocity array in the member sample nor in any stored sample. -/
def VelocityFree (st : SaveState) : Prop :=
  st.mMeshSample.velocities = none ∧ ∀ s ∈ st.stored, s.velocities = none

/-- Running minimum as `extendBy` keeps it on one axis. -/
def minF (m : Scalar) (xs : List Scalar) : Scalar :=
  xs.foldl (fun m x => if x < m then x else m) m

/-- Running maximum as `extendBy` keeps it on one axis. -/
def maxF (m : Scalar) (xs : List Scalar) : Scalar :=
  xs.foldl (fun m x => if x > m then x else m) m

/-- The components of a vector are finite single precision values: none lies
beyond `FLT_MAX`. -/
def V3f.inFloatRange (p : V3f) : Prop :=
  (-FLT_MAX ≤ p.x ∧ p.x ≤ FLT_MAX) ∧ (-FLT_MAX ≤ p.y ∧ p.y ≤ FLT_MAX) ∧
    (-FLT_MAX ≤ p.z ∧ p.z ≤ FLT_MAX)

/-- A list of vectors as the flat array of their components. -/
def flat3 : List V3f → List Scalar
  | [] => []
  | n :: ns => n.x :: n.y :: n.z :: flat3 ns

/-- A list cut into consecutive faces of the given sizes, each face reversed. -/
def reverseFaces {α : Type} : List Nat → List α → List α
  | [], _ => []
  | c :: cs, l => (l.take c).reverse ++ reverseFaces cs (l.drop c)

/-- The options array of a list of UV sets: the three entries of each set, set
after set. -/
def uvOptionsOf (props : List UvProp) : List Scalar :=
  (props.map Save.uvOptions).flatten

/-- The condition under which a call of `Save` runs the UV block. -/
def uvBlockReached (job : JobOptions) (uvJob : UvJobOptions) (st : SaveState)
    (snap : MeshSnapshot) : Prop :=
  ¬ (st.mNumSamples > 0 ∧ snap.animated = false) ∧ job.exportPurePointCache = false ∧
    (st.mNumSamples = 0 ∨ job.exportDynamicTopology = true) ∧ uvJob.exportUVs = true

/-- Invariant of a stream after its first call, for the UV options: the options
array and the one sample of the property `.uvOptions` are those of the UV sets
`firstProps` of the first call when that call ran the UV block on at least one
UV set; otherwise nothing has been set, and `mUvVec` is still empty. -/
def UvOptionsInv (job : JobOptions) (uvJob : UvJobOptions) (firstProps : List UvProp)
    (st : SaveState × UvState) : Prop :=
  st.1.mNumSamples ≠ 0 ∧
  (((uvJob.exportUVs = true ∧ job.exportPurePointCache = false ∧ firstProps ≠ []) ∧
      st.2.mUvOptionsVec = uvOptionsOf firstProps ∧
      st.2.uvOptionsSet = [uvOptionsOf firstProps]) ∨
    (¬ (uvJob.exportUVs = true ∧ job.exportPurePointCache = false ∧ firstProps ≠ []) ∧
      st.2.mUvOptionsVec = [] ∧ st.2.uvOptionsSet = [] ∧ st.2.mUvVec = []))

/-- Invariant of a stream after its first call, for the sizes of the UV vectors:
when the UV block runs at all, the sizes are those the first call, with `n0` UV
sets, established. -/
def UvBoundsInv (job : JobOptions) (uvJob : UvJobOptions) (n0 : Nat)
    (st : SaveState × UvState) : Prop :=
  st.1.mNumSamples ≠ 0 ∧
  (uvJob.exportUVs = true → job.exportPurePointCache = false →
    st.2.mUvVec.length = n0 ∧ (uvJob.indexedUVs = true → st.2.mUvIndexVec.length = n0) ∧
    st.2.mUvParams.length = n0 - 1)

/-- Reference for the proofs: the writes `table[x] = offset++` for the entries
`x` of a list in turn. -/
def lookupFold (st : List Int × Int) (xs : List Int) : List Int × Int :=
  xs.foldl (fun s x => (s.1.set x.toNat s.2, s.2 + 1)) st

/-! ## Theorems -/

section Indexing

variable {K : Type} [DecidableEq K]

theorem firstOccurrences_snoc (xs : List K) (v : K) :
    firstOccurrences (xs ++ [v]) =
      if v ∈ firstOccurrences xs then firstOccurrences xs else firstOccurrences xs ++ [v] := by
  simp [firstOccurrences, List.foldl_append]

theorem mem_firstOccurrences (xs : List K) (v : K) : v ∈ firstOccurrences xs ↔ v ∈ xs := by
  induction xs using List.reverseRecOn with
  | nil => simp [firstOccurrences]
  | append_singleton xs w ih =>
    rw [firstOccurrences_snoc]
    by_cases hw : w ∈ firstOccurrences xs
    · simp only [hw, if_true, List.mem_append, List.mem_singleton]
      constructor
      · intro h; exact Or.inl (ih.1 h)
      · rintro (h | h)
        · exact ih.2 h
        · exact h ▸ hw
    · simp only [hw, if_false, List.mem_append, List.mem_singleton, ih]

theorem nodup_firstOccurrences (xs : List K) : (firstOccurrences xs).Nodup := by
  induction xs using List.reverseRecOn with
  | nil => simp [firstOccurrences]
  | append_singleton xs w ih =>
    rw [firstOccurrences_snoc]
    by_cases hw : w ∈ firstOccurrences xs
    · simpa [hw] using ih
    · simp only [hw, if_false]
      exact List.Nodup.append ih (List.nodup_singleton w) (by simpa using hw)

theorem length_firstOccurrences_le (xs : List K) : (firstOccurrences xs).length ≤ xs.length := by
  induction xs using List.reverseRecOn with
  | nil => simp [firstOccurrences]
  | append_singleton xs w ih =>
    rw [firstOccurrences_snoc]
    by_cases hw : w ∈ firstOccurrences xs
    · simp only [hw, if_true, List.length_append, List.length_singleton]; omega
    · simp only [hw, if_false, List.length_append, List.length_singleton]; omega

theorem take_set_succ {α : Type} (l : List α) (k : Nat) (v : α) (h : k < l.length) :
    (l.set k v).take (k + 1) = l.take k ++ [v] := by
  rw [List.take_succ, List.set_take]
  simp [h, List.set_eq_of_length_le]

theorem length_vecResize {α : Type} (v : List α) (n : Nat) (fill : α) :
    (vecResize v n fill).length = n := by
  simp [vecResize]; omega

theorem toUInt32_of_le {a : Nat} (h : a ≤ LONG_MAX) : toUInt32 a = a := by
  unfold toUInt32 LONG_MAX at *
  exact Nat.mod_eq_of_lt (by omega)

theorem mapFind_append {K : Type} (lt : K → K → Bool) (m m' : List (K × Nat)) (w : K) :
    mapFind lt (m ++ m') w = (mapFind lt m w).or (mapFind lt m' w) := by
  unfold mapFind
  rw [List.find?_append]
  cases List.find? (fun e => !lt e.1 w && !lt w e.1) m <;> simp

theorem mapFind_singleton {K : Type} [DecidableEq K] {lt : K → K → Bool} (hlt : KeyOrder lt)
    (v w : K) (c : Nat) : mapFind lt [(v, c)] w = if w = v then some c else none := by
  unfold mapFind
  by_cases h : w = v
  · subst h
    have hww : (!lt w w && !lt w w) = true := (hlt w w).2 rfl
    simp only [List.find?_cons, hww, Option.map_some', if_true]
  · have hne : (!lt v w && !lt w v) = false := by
      cases hb : (!lt v w && !lt w v)
      · rfl
      · exact absurd ((hlt v w).1 hb).symm h
    simp only [List.find?_cons, hne, List.find?_nil, Option.map_none', h, if_false]

theorem LoopInv.init (lt : K → K → Bool) (uninit : K) (prev : List Nat) (n : Nat) :
    LoopInv lt n [] (indexInit uninit prev n) := by
  constructor <;> simp [indexInit, firstOccurrences, mapFind, length_vecResize]

theorem LoopInv.step {lt : K → K → Bool} (hlt : KeyOrder lt) {n : Nat} {xs : List K}
    {st : IndexState K} (h : LoopInv lt n xs st) (v : K) (hn : xs.length < n)
    (hmax : n ≤ LONG_MAX) : LoopInv lt n (xs ++ [v]) (indexStep lt st v) := by
  have hlen := length_firstOccurrences_le xs
  have hfind := h.hmap v
  by_cases hv : v ∈ firstOccurrences xs
  · -- the value is in the map already
    rw [if_pos hv] at hfind
    have hidx : List.indexOf v (firstOccurrences xs) < (firstOccurrences xs).length :=
      List.indexOf_lt_length.2 hv
    have hcast : toUInt32 (List.indexOf v (firstOccurrences xs)) =
        List.indexOf v (firstOccurrences xs) := toUInt32_of_le (by omega)
    have hocc : firstOccurrences (xs ++ [v]) = firstOccurrences xs := by
      rw [firstOccurrences_snoc, if_pos hv]
    unfold indexStep
    rw [hfind]
    refine ⟨?_, ?_, ?_, ?_, ?_, ?_, ?_⟩ <;> (try rw [hocc]) <;> (try simp only [hcast])
    · exact h.hmap
    · exact h.hsc
    · exact h.hsv
    · exact h.hsl
    · simp [h.hic]
    · show List.take (st.indexCount + 1) (st.indexVec.set st.indexCount _) = _
      rw [take_set_succ _ _ _ (by rw [h.hil, h.hic]; exact hn), h.hiv]
      simp
    · simp [h.hil]
  · -- a new value
    rw [if_neg hv] at hfind
    have hcast : toUInt32 st.sortedCount = st.sortedCount := toUInt32_of_le (by rw [h.hsc]; omega)
    have hocc : firstOccurrences (xs ++ [v]) = firstOccurrences xs ++ [v] := by
      rw [firstOccurrences_snoc, if_neg hv]
    unfold indexStep
    rw [hfind]
    refine ⟨?_, ?_, ?_, ?_, ?_, ?_, ?_⟩ <;> (try rw [hocc]) <;> (try simp only [hcast])
    · intro w
      show mapFind lt (mapInsert lt st.map v st.sortedCount) w = _
      unfold mapInsert
      rw [hfind]
      show mapFind lt (st.map ++ [(v, st.sortedCount)]) w = _
      rw [mapFind_append, h.hmap w, mapFind_singleton hlt]
      by_cases hw : w ∈ firstOccurrences xs
      · have hw2 : w ∈ firstOccurrences xs ++ [v] := List.mem_append_left _ hw
        rw [if_pos hw, if_pos hw2, List.indexOf_append_of_mem hw]
        rfl
      · rw [if_neg hw]
        by_cases hwv : w = v
        · subst hwv
          have hw2 : w ∈ firstOccurrences xs ++ [w] := by simp
          rw [if_pos rfl, if_pos hw2, List.indexOf_append_of_not_mem hw, h.hsc]
          simp
        · have hw2 : w ∉ firstOccurrences xs ++ [v] := by simp [hw, hwv]
          rw [if_neg hwv, if_neg hw2]
          rfl
    · simp [h.hsc]
    · show List.take (st.sortedCount + 1) (st.sortedVec.set st.sortedCount v) = _
      rw [take_set_succ _ _ _ (by rw [h.hsl, h.hsc]; omega), h.hsv]
    · simp [h.hsl]
    · simp [h.hic]
    · show List.take (st.indexCount + 1) (st.indexVec.set st.indexCount st.sortedCount) = _
      rw [take_set_succ _ _ _ (by rw [h.hil, h.hic]; exact hn), h.hiv, List.map_append]
      congr 1
      · apply List.map_congr_left
        intro w hw
        exact (List.indexOf_append_of_mem ((mem_firstOccurrences xs w).2 hw)).symm
      · simp [List.indexOf_append_of_not_mem hv, h.hsc]
    · simp [h.hil]

theorem LoopInv.foldl {lt : K → K → Bool} (hlt : KeyOrder lt) {n : Nat} (hmax : n ≤ LONG_MAX)
    (ys : List K) : ∀ (xs : List K) (st : IndexState K), LoopInv lt n xs st →
      xs.length + ys.length ≤ n → LoopInv lt n (xs ++ ys) (ys.foldl (indexStep lt) st) := by
  induction ys with
  | nil => intro xs st h _; simpa using h
  | cons y ys ih =>
    intro xs st h hle
    have hstep := h.step hlt y (by simp at hle; omega) hmax
    have := ih (xs ++ [y]) (indexStep lt st y) hstep (by simp at hle ⊢; omega)
    simpa using this

/-- The loop computes the table of first occurrences and, for every input
position, the place of its value in that table. -/
theorem indexLoop_sample {lt : K → K → Bool} (hlt : KeyOrder lt) (uninit : K)
    (prev : List Nat) (input : List K) (hmax : input.length ≤ LONG_MAX) :
    (indexLoop lt uninit prev input).sample =
      { vals := firstOccurrences input
        indices := input.map (fun w => (firstOccurrences input).indexOf w) } := by
  have h := LoopInv.foldl hlt hmax input [] _ (LoopInv.init lt uninit prev input.length)
    (by simp)
  simp only [List.nil_append] at h
  unfold indexLoop IndexState.sample
  rw [h.hsv, h.hiv]

theorem keyOrder_SortableV3f : KeyOrder SortableV3f.lt := by
  rintro ⟨ax, ay, az⟩ ⟨bx, by_, bz⟩
  simp only [SortableV3f.lt, V3f.mk.injEq]
  constructor
  · intro h
    split_ifs at h <;> simp_all
    refine ⟨le_antisymm ?_ ?_, le_antisymm ?_ ?_, le_antisymm ?_ ?_⟩ <;> tauto
  · rintro ⟨rfl, rfl, rfl⟩
    simp

theorem keyOrder_SortableV2f : KeyOrder SortableV2f.lt := by
  rintro ⟨ax, ay⟩ ⟨bx, by_⟩
  simp only [SortableV2f.lt, V2f.mk.injEq]
  constructor
  · intro h
    split_ifs at h <;> simp_all
    refine ⟨le_antisymm ?_ ?_, le_antisymm ?_ ?_⟩ <;> tauto
  · rintro ⟨rfl, rfl⟩
    simp

theorem firstOccurrences_of_nodup (t : List K) (h : t.Nodup) : firstOccurrences t = t := by
  induction t using List.reverseRecOn with
  | nil => simp [firstOccurrences]
  | append_singleton xs v ih =>
    have hx : xs.Nodup := (List.nodup_append.1 h).1
    have hv : v ∉ xs := fun hm => (List.nodup_append.1 h).2.2 hm (List.mem_singleton_self v)
    rw [firstOccurrences_snoc, ih hx, if_neg hv]

theorem map_indexOf_of_nodup (t : List K) (h : t.Nodup) :
    t.map (fun w => t.indexOf w) = List.range t.length := by
  apply List.ext_getElem
  · simp
  · intro i h1 h2
    simp only [List.getElem_map, List.getElem_range]
    exact List.indexOf_getElem h i (by simpa using h1)

theorem pairwise_firstOccurrences (xs : List K) :
    List.Pairwise (fun a b => xs.indexOf a < xs.indexOf b) (firstOccurrences xs) := by
  induction xs using List.reverseRecOn with
  | nil => simp [firstOccurrences]
  | append_singleton xs v ih =>
    have hmono : List.Pairwise (fun a b => (xs ++ [v]).indexOf a < (xs ++ [v]).indexOf b)
        (firstOccurrences xs) := by
      refine List.Pairwise.imp_of_mem ?_ ih
      intro a b ha hb hab
      rw [List.indexOf_append_of_mem ((mem_firstOccurrences xs a).1 ha),
        List.indexOf_append_of_mem ((mem_firstOccurrences xs b).1 hb)]
      exact hab
    rw [firstOccurrences_snoc]
    by_cases hv : v ∈ firstOccurrences xs
    · rw [if_pos hv]; exact hmono
    · rw [if_neg hv]
      have hvx : v ∉ xs := fun hm => hv ((mem_firstOccurrences xs v).2 hm)
      refine List.pairwise_append.2 ⟨hmono, List.pairwise_singleton _ _, ?_⟩
      intro a ha b hb
      rw [List.mem_singleton] at hb
      subst hb
      have hax : a ∈ xs := (mem_firstOccurrences xs a).1 ha
      rw [List.indexOf_append_of_mem hax, List.indexOf_append_of_not_mem hvx]
      have := List.indexOf_lt_length.2 hax
      omega

theorem count_firstOccurrences (xs : List K) (v : K) :
    (firstOccurrences xs).count v = if v ∈ xs then 1 else 0 := by
  by_cases hv : v ∈ xs
  · rw [if_pos hv]
    exact List.count_eq_one_of_mem (nodup_firstOccurrences xs) ((mem_firstOccurrences xs v).2 hv)
  · rw [if_neg hv]
    exact List.count_eq_zero_of_not_mem (fun hm => hv ((mem_firstOccurrences xs v).1 hm))

/-- Expansion of the loop's output gives back the input value of every position. -/
theorem expand_indexLoop {lt : K → K → Bool} (hlt : KeyOrder lt) (uninit : K)
    (prev : List Nat) (input : List K) (hmax : input.length ≤ LONG_MAX) (i : Nat)
    (hi : i < input.length) :
    (indexLoop lt uninit prev input).sample.expand i = input[i]? := by
  rw [indexLoop_sample hlt uninit prev input hmax]
  have hmem : input[i] ∈ firstOccurrences input :=
    (mem_firstOccurrences input _).2 (List.getElem_mem hi)
  have hlt2 := List.indexOf_lt_length.2 hmem
  simp only [Indexed.expand, List.getElem?_map, List.getElem?_eq_getElem hi, Option.map_some']
  rw [List.getElem?_eq_getElem hlt2, List.getElem_indexOf hlt2]

/-- Two positions get the same index exactly when their values are equal. -/
theorem indices_indexLoop {lt : K → K → Bool} (hlt : KeyOrder lt) (uninit : K)
    (prev : List Nat) (input : List K) (hmax : input.length ≤ LONG_MAX) (i j : Nat)
    (hi : i < input.length) (hj : j < input.length) :
    ((indexLoop lt uninit prev input).sample.indices[i]? =
      (indexLoop lt uninit prev input).sample.indices[j]?) ↔ input[i]? = input[j]? := by
  rw [indexLoop_sample hlt uninit prev input hmax]
  simp only [List.getElem?_map, List.getElem?_eq_getElem hi, List.getElem?_eq_getElem hj,
    Option.map_some', Option.some.injEq]
  constructor
  · intro h
    have hmi : input[i] ∈ firstOccurrences input :=
      (mem_firstOccurrences input _).2 (List.getElem_mem hi)
    have hmj : input[j] ∈ firstOccurrences input :=
      (mem_firstOccurrences input _).2 (List.getElem_mem hj)
    exact (List.indexOf_inj hmi hmj).1 h
  · intro h; rw [h]

/-- Feeding a table without repetition to the loop gives the identity indices
and the same table. -/
theorem indexLoop_of_nodup {lt : K → K → Bool} (hlt : KeyOrder lt) (uninit : K)
    (prev : List Nat) (t : List K) (hmax : t.length ≤ LONG_MAX) (hnd : t.Nodup) :
    (indexLoop lt uninit prev t).sample = { vals := t, indices := List.range t.length } := by
  rw [indexLoop_sample hlt uninit prev t hmax, firstOccurrences_of_nodup t hnd,
    map_indexOf_of_nodup t hnd]

end Indexing

/-! ### The topology written by `Save` -/

section Topology

theorem wrapInt32_of_le {i : Int} (h0 : 0 ≤ i) (h1 : i ≤ (LONG_MAX : Nat)) : wrapInt32 i = i := by
  unfold wrapInt32
  unfold LONG_MAX at h1
  omega

theorem toSizeT_of_le {i : Int} (h0 : 0 ≤ i) (h1 : i ≤ (LONG_MAX : Nat)) :
    toSizeT i = i.toNat := by
  unfold toSizeT
  unfold LONG_MAX at h1
  rw [Int.emod_eq_of_lt h0 (by omega)]

theorem writeFaceIndices_spec (indices : List Int) :
    ∀ (j : Nat) (buf : List Int) (o : Nat), j ≤ indices.length → o + j ≤ buf.length →
      (writeFaceIndices indices j (buf, o)).2 = o + j ∧
      (writeFaceIndices indices j (buf, o)).1.length = buf.length ∧
      (writeFaceIndices indices j (buf, o)).1.take (o + j) =
        buf.take o ++ (indices.take j).reverse := by
  intro j
  induction j with
  | zero => intro buf o _ _; simp [writeFaceIndices]
  | succ j ih =>
    intro buf o hj ho
    have hj2 : j < indices.length := by omega
    obtain ⟨h1, h2, h3⟩ := ih (buf.set o (indices.getD j 0)) (o + 1) (by omega)
      (by rw [List.length_set]; omega)
    simp only [writeFaceIndices]
    refine ⟨by rw [h1]; omega, by rw [h2, List.length_set], ?_⟩
    have e : o + (j + 1) = o + 1 + j := by omega
    have hrev : (indices.take (j + 1)).reverse = indices[j] :: (indices.take j).reverse := by
      rw [List.take_succ, List.getElem?_eq_getElem hj2]
      simp
    rw [e, h3, take_set_succ _ _ _ (by omega), hrev]
    simp [List.getD_eq_getElem?_getD, List.getElem?_eq_getElem hj2]

theorem vertexTotal_cons (f : PolygonFace) (fs : List PolygonFace) :
    vertexTotal (f :: fs) = f.vertices.length + vertexTotal fs := by
  simp [vertexTotal]

theorem writeFace_foldl (fs : List PolygonFace) :
    ∀ (st : TopoWriteState), st.i + fs.length ≤ st.mFaceCountVec.length →
      st.offset + vertexTotal fs ≤ st.mFaceIndicesVec.length →
      (fs.foldl writeFace st).mFaceCountVec.length = st.mFaceCountVec.length ∧
      (fs.foldl writeFace st).mFaceIndicesVec.length = st.mFaceIndicesVec.length ∧
      (fs.foldl writeFace st).mFaceCountVec.take (st.i + fs.length) =
        st.mFaceCountVec.take st.i ++ fs.map (fun f => (f.vertices.length : Int)) ∧
      (fs.foldl writeFace st).mFaceIndicesVec.take (st.offset + vertexTotal fs) =
        st.mFaceIndicesVec.take st.offset ++ (fs.map (fun f => f.vertices.reverse)).flatten := by
  induction fs with
  | nil => intro st _ _; simp [vertexTotal]
  | cons f fs ih =>
    intro st hi ho
    rw [vertexTotal_cons] at ho
    simp only [List.length_cons] at hi
    obtain ⟨w1, w2, w3⟩ := writeFaceIndices_spec f.vertices f.vertices.length
      st.mFaceIndicesVec st.offset (le_refl _) (by omega)
    have hi1 : (writeFace st f).i = st.i + 1 := rfl
    have hc1 : (writeFace st f).mFaceCountVec = st.mFaceCountVec.set st.i (f.vertices.length : Int) :=
      rfl
    have hx1 : (writeFace st f).mFaceIndicesVec =
        (writeFaceIndices f.vertices f.vertices.length (st.mFaceIndicesVec, st.offset)).1 := rfl
    have ho1 : (writeFace st f).offset = st.offset + f.vertices.length := w1
    obtain ⟨r1, r2, r3, r4⟩ := ih (writeFace st f)
      (by rw [hi1, hc1, List.length_set]; omega) (by rw [ho1, hx1, w2]; omega)
    simp only [List.foldl_cons, List.length_cons, List.map_cons, List.flatten_cons,
      vertexTotal_cons]
    refine ⟨by rw [r1, hc1, List.length_set], by rw [r2, hx1, w2], ?_, ?_⟩
    · have e : st.i + (fs.length + 1) = (writeFace st f).i + fs.length := by rw [hi1]; omega
      rw [e, r3, hi1, hc1, take_set_succ _ _ _ (by omega)]
      simp
    · have e : st.offset + (f.vertices.length + vertexTotal fs) =
          (writeFace st f).offset + vertexTotal fs := by rw [ho1]; omega
      rw [e, r4, ho1, hx1, w3]
      simp

/-- The vectors `Save` hands to `setFaceCounts` and `setFaceIndices`, in closed form. -/
theorem Save.topology_eq (prev : TopoBuffers) (faces : List PolygonFace) (sampleCount : Nat)
    (hs : sampleCount = vertexTotal faces) :
    Save.topology prev faces sampleCount =
      if vertexTotal faces = 0 then
        { mFaceCountVec := faces.map (fun f => (f.vertices.length : Int)) ++ [0]
          mFaceIndicesVec := [0] }
      else
        { mFaceCountVec := faces.map (fun f => (f.vertices.length : Int))
          mFaceIndicesVec := (faces.map (fun f => f.vertices.reverse)).flatten } := by
  subst hs
  obtain ⟨r1, r2, r3, r4⟩ := writeFace_foldl faces
    { i := 0
      mFaceCountVec := vecResize prev.mFaceCountVec faces.length 0
      mFaceIndicesVec := vecResize prev.mFaceIndicesVec (vertexTotal faces) 0
      offset := 0 }
    (by simp [length_vecResize]) (by simp [length_vecResize])
  simp only [length_vecResize, Nat.zero_add, List.take_zero, List.nil_append] at r1 r2 r3 r4
  rw [List.take_of_length_le (by omega)] at r3 r4
  have hnil : vertexTotal faces = 0 → (faces.map (fun f => f.vertices.reverse)).flatten = [] := by
    intro h0
    apply List.eq_nil_of_length_eq_zero
    rw [← r4, r2, h0]
  unfold Save.topology
  simp only [r2]
  by_cases h0 : vertexTotal faces = 0
  · rw [if_pos h0, if_pos h0, r3, r4, hnil h0]
    rfl
  · rw [if_neg h0, if_neg h0, r3, r4]

/-! ### The topology rebuilt by `alembic_polymesh_topo_Update` -/

theorem rebuildFace_spec (faceIndices A f B : List Int)
    (hidx : faceIndices = A ++ f.reverse ++ B) (hA : A.length + f.length ≤ LONG_MAX) :
    ∀ (n k : Nat) (st : RebuildState), k + n = f.length →
      st.offset2 = ((A.length + f.length : Nat) : Int) →
      st.offset1 + n ≤ st.polies.length →
      ∃ st1, rebuildFace faceIndices n k st = some st1 ∧ st1.offset2 = st.offset2 ∧
        st1.offset1 = st.offset1 + n ∧ st1.polies.length = st.polies.length ∧
        st1.polies.take (st.offset1 + n) = st.polies.take st.offset1 ++ f.drop k := by
  intro n
  induction n with
  | zero =>
    intro k st hk _ _
    refine ⟨st, rfl, rfl, rfl, rfl, ?_⟩
    have : f.drop k = [] := List.drop_of_length_le (by omega)
    simp [this]
  | succ n ih =>
    intro k st hk ho2 ho1
    have hkf : k < f.length := by omega
    have hpos : (0 : Int) ≤ st.offset2 - 1 - (k : Int) := by rw [ho2]; push_cast; omega
    have hle : st.offset2 - 1 - (k : Int) ≤ (LONG_MAX : Nat) := by
      rw [ho2]; push_cast; omega
    have hnat : (st.offset2 - 1 - (k : Int)).toNat = A.length + (f.length - 1 - k) := by
      rw [ho2]; push_cast; omega
    have hread : faceIndices[toSizeT (st.offset2 - 1 - (k : Int))]? = some f[k] := by
      rw [toSizeT_of_le hpos hle, hnat, hidx, List.append_assoc,
        List.getElem?_append_right (by omega)]
      have e : A.length + (f.length - 1 - k) - A.length = f.length - 1 - k := by omega
      rw [e, List.getElem?_append_left (by rw [List.length_reverse]; omega),
        List.getElem?_reverse (by omega)]
      have e2 : f.length - 1 - (f.length - 1 - k) = k := by omega
      rw [e2, List.getElem?_eq_getElem hkf]
    have hw : writePoly st f[k] =
        some { st with polies := st.polies.set st.offset1 f[k], offset1 := st.offset1 + 1 } := by
      unfold writePoly
      rw [if_pos (by omega)]
    obtain ⟨st1, h1, h2, h3, h4, h5⟩ := ih (k + 1)
      { st with polies := st.polies.set st.offset1 f[k], offset1 := st.offset1 + 1 }
      (by omega) ho2 (by simp only [List.length_set]; omega)
    dsimp only at h2 h3 h4 h5
    refine ⟨st1, ?_, h2, ?_, ?_, ?_⟩
    · simp only [rebuildFace, hread, hw]
      exact h1
    · rw [h3]; omega
    · rw [h4, List.length_set]
    · have e : st.offset1 + (n + 1) = st.offset1 + 1 + n := by omega
      rw [e, h5, take_set_succ _ _ _ (by omega), List.append_assoc]
      simp

theorem rebuild_foldl (faceIndices : List Int) :
    ∀ (fs : List (List Int)) (A B : List Int) (st : RebuildState),
      faceIndices = A ++ (fs.map List.reverse).flatten ++ B →
      A.length + (fs.map List.length).sum ≤ LONG_MAX →
      st.offset2 = ((A.length : Nat) : Int) →
      st.offset1 + fs.length + (fs.map List.length).sum ≤ st.polies.length →
      ∃ st1, (fs.map (fun f => (f.length : Int))).foldl (rebuildStep faceIndices) (some st) =
          some st1 ∧
        st1.polies.length = st.polies.length ∧
        st1.polies.take (st.offset1 + fs.length + (fs.map List.length).sum) =
          st.polies.take st.offset1 ++ (fs.map (fun f => (f.length : Int) :: f)).flatten := by
  intro fs
  induction fs with
  | nil => intro A B st _ _ _ _; exact ⟨st, rfl, rfl, by simp⟩
  | cons f fs ih =>
    intro A B st hidx hmax ho2 ho1
    simp only [List.map_cons, List.sum_cons, List.length_cons, List.flatten_cons] at hidx hmax ho1
    have hw : writePoly st (f.length : Int) =
        some { st with polies := st.polies.set st.offset1 (f.length : Int),
                       offset1 := st.offset1 + 1 } := by
      unfold writePoly
      rw [if_pos (by omega)]
    have hwrap : wrapInt32 (st.offset2 + (f.length : Int)) = ((A.length + f.length : Nat) : Int) := by
      rw [wrapInt32_of_le (by rw [ho2]; omega) (by rw [ho2]; omega), ho2]
      push_cast; rfl
    obtain ⟨st3, g1, g2, g3, g4, g5⟩ := rebuildFace_spec faceIndices A f
      ((fs.map List.reverse).flatten ++ B) (by rw [hidx]; simp) (by omega) f.length 0
      { polies := st.polies.set st.offset1 (f.length : Int), offset1 := st.offset1 + 1,
        offset2 := ((A.length + f.length : Nat) : Int) }
      (by omega) rfl (by simp only [List.length_set]; omega)
    simp only [List.length_set, List.drop_zero] at g3 g4 g5
    obtain ⟨st4, k1, k2, k3⟩ := ih (A ++ f.reverse) B st3 (by rw [hidx]; simp)
      (by simp only [List.length_append, List.length_reverse]; omega)
      (by rw [g2]; simp) (by rw [g3, g4]; omega)
    refine ⟨st4, ?_, by rw [k2, g4], ?_⟩
    · simp only [List.map_cons, List.foldl_cons]
      have hstep : rebuildStep faceIndices (some st) (f.length : Int) = some st3 := by
        simp only [rebuildStep, hw, hwrap]
        rw [if_neg (by omega)]
        simpa using g1
      rw [hstep]
      exact k1
    · simp only [List.map_cons, List.sum_cons, List.length_cons, List.flatten_cons]
      have e : st.offset1 + (fs.length + 1) + (f.length + (fs.map List.length).sum) =
          st3.offset1 + fs.length + (fs.map List.length).sum := by rw [g3]; omega
      rw [e, k3, g3]
      rw [g5, take_set_succ _ _ _ (by omega)]
      simp

theorem flatten_slice {α : Type} :
    ∀ (L : List (List α)) (f : Nat) (hf : f < L.length),
      (L.flatten.drop ((L.take f).map List.length).sum).take (L[f].length) = L[f] := by
  intro L
  induction L with
  | nil => intro f hf; simp at hf
  | cons x xs ih =>
    intro f hf
    cases f with
    | zero => simp
    | succ f =>
      simp only [List.length_cons, Nat.add_lt_add_iff_right] at hf
      have := ih f hf
      simpa [List.drop_append] using this

theorem vertexTotal_pos_of_first {faces : List PolygonFace}
    (h : ∃ f rest, faces = f :: rest ∧ 0 < f.vertices.length) : vertexTotal faces ≠ 0 := by
  obtain ⟨f, rest, rfl, hf⟩ := h
  rw [vertexTotal_cons]
  omega

/-- The rebuild loop applied to the counts and the per-face reversed indices of
a list of faces gives, face by face, the count followed by the indices in their
original order. -/
theorem topoPolies_of_faces (fs : List (List Int)) (positions : List V3f)
    (velocities : Option (List V3f))
    (hfirst : ∃ f rest, fs = f :: rest ∧ 0 < f.length)
    (hmax : (fs.map List.length).sum ≤ LONG_MAX) :
    topoPolies
      { positions := positions
        velocities := velocities
        faceCounts := fs.map (fun f => (f.length : Int))
        faceIndices := (fs.map List.reverse).flatten } =
      Outcome.done (fs.map (fun f => (f.length : Int) :: f)).flatten := by
  have hsum : ((fs.map List.reverse).flatten).length = (fs.map List.length).sum := by
    simp [List.length_flatten, Function.comp_def]
  obtain ⟨st1, k1, k2, k3⟩ := rebuild_foldl (fs.map List.reverse).flatten fs [] []
    { polies := List.replicate (fs.length + (fs.map List.length).sum) 0, offset1 := 0, offset2 := 0 }
    (by simp) (by simpa using hmax) rfl (by simp)
  simp only [List.length_replicate, Nat.zero_add, List.take_zero, List.nil_append] at k2 k3
  rw [List.take_of_length_le (by omega)] at k3
  obtain ⟨f, rest, hfs, hf⟩ := hfirst
  subst hfs
  unfold topoPolies
  simp only [List.length_map, hsum]
  simp only [List.map_cons] at k1 k3 ⊢
  rw [if_neg (by omega), k1]
  simp only [k3]

end Topology

/-! ### Positions: `Save` and the decode operators -/

section Positions

theorem updateEach_spec (f : V3f → V3f → V3f) :
    ∀ (other : List V3f) (i : Nat) (pos : List V3f), i + other.length ≤ pos.length →
      updateEach f other i pos =
        some (pos.take i ++ List.zipWith f ((pos.drop i).take other.length) other ++
          pos.drop (i + other.length)) := by
  intro other
  induction other with
  | nil => intro i pos _; simp [updateEach]
  | cons q rest ih =>
    intro i pos h
    simp only [List.length_cons] at h
    have hi : i < pos.length := by omega
    have hrec := ih (i + 1) (pos.set i (f pos[i] q)) (by rw [List.length_set]; omega)
    simp only [updateEach, List.getElem?_eq_getElem hi]
    rw [hrec, take_set_succ _ _ _ hi, List.drop_set_of_lt _ _ (by omega),
      List.drop_set_of_lt _ _ (by omega)]
    have hd : pos.drop i = pos[i] :: pos.drop (i + 1) := List.drop_eq_getElem_cons hi
    have e : i + (rest.length + 1) = i + 1 + rest.length := by omega
    rw [hd, List.length_cons, List.take_succ_cons, List.zipWith_cons_cons, e]
    simp

/-- A loop over a second array of the same length updates every element. -/
theorem updateEach_same_length (f : V3f → V3f → V3f) (other pos : List V3f)
    (h : other.length = pos.length) :
    updateEach f other 0 pos = some (List.zipWith f pos other) := by
  rw [updateEach_spec f other 0 pos (by omega)]
  simp [h]

/-- The operator writes its output exactly when the topology part yields a
polygon description and the positional part stays inside its arrays. -/
theorem topo_Update_done_iff (inp : TopoInput) (pos : List V3f) (polies : List Int) :
    alembic_polymesh_topo_Update inp = Outcome.done (pos, polies) ↔
      topoPolies inp.floorSample = Outcome.done polies ∧ topoPositions inp = some pos := by
  unfold alembic_polymesh_topo_Update
  cases h1 : topoPolies inp.floorSample with
  | notSet => simp
  | fault => simp
  | done p =>
    cases h2 : topoPositions inp with
    | none => simp
    | some q => simp [and_comm]

/-- Positions of a PolyMesh stream without dynamic topology, equal counts. -/
theorem topoPositions_blend (inp : TopoInput) (hpm : inp.isPolyMesh = true)
    (hdyn : inp.hasDynamicTopo = false)
    (hlen : inp.ceilSample.positions.length = inp.floorSample.positions.length)
    (hα : inp.alpha ≠ 0) :
    topoPositions inp = some (List.zipWith
      (fun p q => (⟨p.x * (1 - inp.alpha) + q.x * inp.alpha,
        p.y * (1 - inp.alpha) + q.y * inp.alpha,
        p.z * (1 - inp.alpha) + q.z * inp.alpha⟩ : V3f))
      inp.floorSample.positions inp.ceilSample.positions) := by
  unfold topoPositions
  simp only [hα, ne_eq, not_false_eq_true, if_true, hpm, hlen, hdyn, and_self]
  rw [updateEach_same_length _ _ _ hlen]
  congr 2
  funext p q
  simp only [V3f.mk.injEq]
  refine ⟨by ring, by ring, by ring⟩

/-- Positions of a PolyMesh stream on the velocity branch. -/
theorem topoPositions_velocity_polyMesh (inp : TopoInput) (hpm : inp.isPolyMesh = true)
    (hα : inp.alpha ≠ 0)
    (hinc : inp.ceilSample.positions.length ≠ inp.floorSample.positions.length ∨
      inp.hasDynamicTopo = true)
    (vel : List V3f) (hvel : inp.floorSample.velocities = some vel)
    (hvlen : vel.length = inp.floorSample.positions.length) :
    topoPositions inp = some (List.zipWith
      (fun p v => (⟨p.x + v.x * (inp.ceilTime - inp.floorTime) * inp.alpha,
        p.y + v.y * (inp.ceilTime - inp.floorTime) * inp.alpha,
        p.z + v.z * (inp.ceilTime - inp.floorTime) * inp.alpha⟩ : V3f))
      inp.floorSample.positions vel) := by
  have hguard : ¬ (inp.ceilSample.positions.length = inp.floorSample.positions.length ∧
      inp.hasDynamicTopo = false) := by
    rintro ⟨h1, h2⟩
    rcases hinc with h | h
    · exact h h1
    · rw [h2] at h; exact Bool.noConfusion h
  unfold topoPositions
  simp only [hα, ne_eq, not_false_eq_true, if_true, hpm, hguard, if_false, hvel, hvlen]
  rw [updateEach_same_length _ _ _ hvlen]
  congr 2
  funext p v
  simp only [V3f.mk.injEq]
  refine ⟨by ring, by ring, by ring⟩

/-- Without rounding the operator of the rounded arithmetic is the operator of
the exact arithmetic. -/
theorem topoPositionsFl_id (inp : TopoInput) : topoPositionsFl id inp = topoPositions inp := rfl

/-- Positions when the bracket cannot be blended and no velocity array fits, on
the PolyMesh branch or under dynamic topology: untouched by any arithmetic. -/
theorem topoPositionsFl_incompatible (fl : Scalar → Scalar) (inp : TopoInput)
    (hα : inp.alpha ≠ 0)
    (hinc : inp.ceilSample.positions.length ≠ inp.floorSample.positions.length ∨
      inp.hasDynamicTopo = true)
    (hvel : inp.floorSample.velocities = none ∨
      ∃ vel, inp.floorSample.velocities = some vel ∧
        vel.length ≠ inp.floorSample.positions.length)
    (hpath : inp.isPolyMesh = true ∨ inp.hasDynamicTopo = true) :
    topoPositionsFl fl inp = some inp.floorSample.positions := by
  have hguard : ¬ ((if inp.isPolyMesh = true then inp.ceilSample.positions
      else inp.floorSample.positions).length = inp.floorSample.positions.length ∧
      inp.hasDynamicTopo = false) := by
    rintro ⟨h1, h2⟩
    rcases hpath with h | h
    · rw [if_pos h] at h1
      rcases hinc with h3 | h3
      · exact h3 h1
      · rw [h3] at h2; cases h2
    · rw [h] at h2; cases h2
  unfold topoPositionsFl
  simp only [hα, ne_eq, not_false_eq_true, if_true]
  rw [if_neg hguard]
  rcases hvel with h | ⟨vel, h, hl⟩
  · rw [h]
  · rw [h]
    simp only [hl, if_false]

/-- Positions on the SubD branch without dynamic topology: every position is
blended with itself, in rounded arithmetic. -/
theorem topoPositionsFl_subd_static (fl : Scalar → Scalar) (inp : TopoInput)
    (hα : inp.alpha ≠ 0) (hpm : inp.isPolyMesh = false) (hdyn : inp.hasDynamicTopo = false) :
    topoPositionsFl fl inp = some (inp.floorSample.positions.map (fun p =>
      (⟨fl (fl (fl (1 - inp.alpha) * p.x) + fl (inp.alpha * p.x)),
        fl (fl (fl (1 - inp.alpha) * p.y) + fl (inp.alpha * p.y)),
        fl (fl (fl (1 - inp.alpha) * p.z) + fl (inp.alpha * p.z))⟩ : V3f))) := by
  unfold topoPositionsFl
  simp only [hα, ne_eq, not_false_eq_true, if_true, hpm, hdyn, Bool.false_eq_true, if_false,
    and_self]
  rw [updateEach_same_length _ _ _ rfl, List.zipWith_same]

theorem roundHalfEven_intCast (n : Int) : roundHalfEven (n : Scalar) = n := by
  unfold roundHalfEven
  rw [Int.floor_intCast, sub_self, if_pos (by norm_num)]

theorem roundHalfEven_tie_even (x : Scalar) (f : Int) (h : x = (f : Scalar) + 1 / 2)
    (he : f % 2 = 0) : roundHalfEven x = f := by
  have hf : ⌊x⌋ = f := Int.floor_eq_iff.2 ⟨by rw [h]; linarith, by rw [h]; linarith⟩
  unfold roundHalfEven
  rw [hf, if_neg (by rw [h]; norm_num), if_neg (by rw [h]; norm_num), if_pos he]

theorem roundDouble_zero : roundDouble 0 = 0 := by
  unfold roundDouble
  rw [if_pos rfl]

/-- The rounding of a positive real whose leading bit has the exponent `e`. -/
theorem roundDouble_eq (x : Scalar) (e n : Int) (he : -1022 ≤ e) (h1 : (2 : Scalar) ^ e ≤ x)
    (h2 : x < (2 : Scalar) ^ (e + 1)) (h3 : roundHalfEven (x / 2 ^ (e - 52)) = n) :
    roundDouble x = (n : Scalar) * 2 ^ (e - 52) := by
  have hx : 0 < x := lt_of_lt_of_le (by positivity) h1
  have habs : |x| = x := abs_of_pos hx
  have hlog : Int.log 2 |x| = e := by
    rw [habs]
    have a : e ≤ Int.log 2 x :=
      (Int.zpow_le_iff_le_log (by norm_num) hx).1 (by exact_mod_cast h1)
    have b : Int.log 2 x < e + 1 :=
      (Int.lt_zpow_iff_log_lt (by norm_num) hx).1 (by exact_mod_cast h2)
    omega
  unfold roundDouble
  rw [if_neg (ne_of_gt hx), hlog]
  simp only [max_eq_left he, h3]

/-- The positional part of the operator never leaves its arrays: both loops are
guarded by a length test. -/
theorem topoPositions_total (inp : TopoInput) : ∃ pos, topoPositions inp = some pos := by
  unfold topoPositions
  by_cases hα : inp.alpha = 0
  · exact ⟨inp.floorSample.positions, by simp [hα]⟩
  · simp only [ne_eq, hα, not_false_eq_true, if_true]
    by_cases hg : (if inp.isPolyMesh = true then inp.ceilSample.positions
        else inp.floorSample.positions).length = inp.floorSample.positions.length ∧
        inp.hasDynamicTopo = false
    · rw [if_pos hg]
      exact ⟨_, updateEach_same_length _ _ _ hg.1⟩
    · rw [if_neg hg]
      cases hv : inp.floorSample.velocities with
      | none => exact ⟨_, rfl⟩
      | some vel =>
        by_cases hl : vel.length = inp.floorSample.positions.length
        · simp only [hl, if_true]
          exact ⟨_, updateEach_same_length _ _ _ hl⟩
        · simp only [hl, if_false]
          exact ⟨_, rfl⟩

end Positions

/-! ### `Save` as a whole -/

section SaveCall

theorem DBL_MAX_pos : (0 : Scalar) < DBL_MAX := by
  unfold DBL_MAX; norm_num

theorem FLT_MAX_pos : (0 : Scalar) < FLT_MAX := by
  unfold FLT_MAX; norm_num

theorem FLT_MAX_le_DBL_MAX : FLT_MAX ≤ DBL_MAX := by
  unfold FLT_MAX DBL_MAX; norm_num

theorem Save.selfBounds_nil (globalSpace : Bool) (toWorld : V3f → V3f)
    (narrow : Scalar → Scalar) :
    Save.selfBounds globalSpace toWorld narrow [] = { min := ⟨0, 0, 0⟩, max := ⟨0, 0, 0⟩ } := by
  have h1 := DBL_MAX_pos
  have h2 : ¬ (0 : Scalar) < -DBL_MAX := by linarith
  have h3 : -DBL_MAX < (0 : Scalar) := by linarith
  simp [Save.selfBounds, Box3d.makeEmpty, Box3d.extendBy, h1, h3]

theorem Save.posVec_nil (globalSpace : Bool) (toWorld : V3f → V3f) (narrow : Scalar → Scalar) :
    Save.posVec globalSpace toWorld narrow [] = [⟨FLT_MAX, FLT_MAX, FLT_MAX⟩] := by
  simp [Save.posVec]

theorem Save.setNormals_fields (v : NormalVars) (s : OSample) :
    (Save.setNormals v s).positions = s.positions ∧
    (Save.setNormals v s).selfBounds = s.selfBounds ∧
    (Save.setNormals v s).faceCounts = s.faceCounts ∧
    (Save.setNormals v s).faceIndices = s.faceIndices ∧
    (Save.setNormals v s).velocities = s.velocities := by
  unfold Save.setNormals
  split_ifs <;> exact ⟨rfl, rfl, rfl, rfl, rfl⟩

/-- A call that gets past the animation test stores one sample, the member
sample as the call leaves it, with the positions and the box of this call. -/
theorem Save_stores (m : Machine) (job : JobOptions) (st : SaveState) (snap : MeshSnapshot)
    (hbuild : st.mNumSamples = 0 ∨ snap.animated = true) :
    (Save m job st snap).stored = st.stored ++ [(Save m job st snap).mMeshSample] ∧
    (Save m job st snap).mNumSamples = st.mNumSamples + 1 ∧
    (Save m job st snap).mMeshSample.positions =
      some (Save.posVec job.globalSpace snap.toWorld m.narrow snap.pos) ∧
    (Save m job st snap).mMeshSample.selfBounds =
      some (Save.selfBounds job.globalSpace snap.toWorld m.narrow snap.pos) := by
  have hskip : ¬ (st.mNumSamples > 0 ∧ snap.animated = false) := by
    rintro ⟨h1, h2⟩
    rcases hbuild with h | h
    · omega
    · rw [h] at h2; exact Bool.noConfusion h2
  unfold Save
  rw [if_neg hskip]
  by_cases hpc : job.exportPurePointCache = true
  · simp only [hpc, if_true]
    by_cases h0 : st.mNumSamples = 0 <;> simp [h0]
  · simp only [hpc, Bool.false_eq_true, if_false]
    by_cases htopo : st.mNumSamples = 0 ∨ job.exportDynamicTopology = true
    · simp only [htopo, if_true]
      refine ⟨trivial, trivial, ?_, ?_⟩
      · rw [(Save.setNormals_fields _ _).1]
        cases job.exportDynamicTopology <;> cases snap.velocitiesData <;> rfl
      · rw [(Save.setNormals_fields _ _).2.1]
        cases job.exportDynamicTopology <;> cases snap.velocitiesData <;> rfl
    · simp only [htopo, if_false]
      refine ⟨trivial, trivial, ?_, ?_⟩
      · rw [(Save.setNormals_fields _ _).1]
        cases job.exportDynamicTopology <;> cases snap.velocitiesData <;> rfl
      · rw [(Save.setNormals_fields _ _).2.1]
        cases job.exportDynamicTopology <;> cases snap.velocitiesData <;> rfl

/-- The topology fields of the member sample after a call that is not a pure
point cache call: newly derived on the first sample and under dynamic topology,
untouched otherwise. -/
theorem Save_topology_fields (m : Machine) (job : JobOptions) (st : SaveState)
    (snap : MeshSnapshot) (hpc : job.exportPurePointCache = false)
    (hbuild : st.mNumSamples = 0 ∨ snap.animated = true) :
    ((st.mNumSamples = 0 ∨ job.exportDynamicTopology = true) →
      (Save m job st snap).mMeshSample.faceCounts =
        some (Save.topology ⟨st.mFaceCountVec, st.mFaceIndicesVec⟩ snap.faces
          snap.sampleCount).mFaceCountVec ∧
      (Save m job st snap).mMeshSample.faceIndices =
        some (Save.topology ⟨st.mFaceCountVec, st.mFaceIndicesVec⟩ snap.faces
          snap.sampleCount).mFaceIndicesVec ∧
      (Save m job st snap).mFaceCountVec =
        (Save.topology ⟨st.mFaceCountVec, st.mFaceIndicesVec⟩ snap.faces
          snap.sampleCount).mFaceCountVec ∧
      (Save m job st snap).mFaceIndicesVec =
        (Save.topology ⟨st.mFaceCountVec, st.mFaceIndicesVec⟩ snap.faces
          snap.sampleCount).mFaceIndicesVec) ∧
    (¬ (st.mNumSamples = 0 ∨ job.exportDynamicTopology = true) →
      (Save m job st snap).mMeshSample.faceCounts = st.mMeshSample.faceCounts ∧
      (Save m job st snap).mMeshSample.faceIndices = st.mMeshSample.faceIndices ∧
      (Save m job st snap).mFaceCountVec = st.mFaceCountVec ∧
      (Save m job st snap).mFaceIndicesVec = st.mFaceIndicesVec) := by
  have hskip : ¬ (st.mNumSamples > 0 ∧ snap.animated = false) := by
    rintro ⟨h1, h2⟩
    rcases hbuild with h | h
    · omega
    · rw [h] at h2; exact Bool.noConfusion h2
  constructor
  · intro htopo
    unfold Save
    rw [if_neg hskip]
    simp only [hpc, Bool.false_eq_true, if_false, htopo, if_true]
    refine ⟨?_, ?_, trivial, trivial⟩
    · rw [(Save.setNormals_fields _ _).2.2.1]
    · rw [(Save.setNormals_fields _ _).2.2.2.1]
  · intro htopo
    unfold Save
    rw [if_neg hskip]
    simp only [hpc, Bool.false_eq_true, if_false, htopo]
    refine ⟨?_, ?_, trivial, trivial⟩
    · rw [(Save.setNormals_fields _ _).2.2.1]
      cases job.exportDynamicTopology <;> cases snap.velocitiesData <;> rfl
    · rw [(Save.setNormals_fields _ _).2.2.2.1]
      cases job.exportDynamicTopology <;> cases snap.velocitiesData <;> rfl

theorem Save_skips (m : Machine) (job : JobOptions) (st : SaveState) (snap : MeshSnapshot)
    (h : ¬ (st.mNumSamples = 0 ∨ snap.animated = true)) : Save m job st snap = st := by
  have hskip : st.mNumSamples > 0 ∧ snap.animated = false := by
    constructor
    · by_contra h0; exact h (Or.inl (by omega))
    · cases ha : snap.animated
      · rfl
      · exact absurd (Or.inr ha) h
  unfold Save
  rw [if_pos hskip]

theorem topologyKept_step (m : Machine) (job : JobOptions) (st : SaveState)
    (snap : MeshSnapshot) (hpc : job.exportPurePointCache = false) (h : TopologyKept st) :
    TopologyKept (Save m job st snap) := by
  by_cases hbuild : st.mNumSamples = 0 ∨ snap.animated = true
  · obtain ⟨s1, s2, _, _⟩ := Save_stores m job st snap hbuild
    obtain ⟨t1, t2⟩ := Save_topology_fields m job st snap hpc hbuild
    have hnew : (Save m job st snap).mMeshSample.faceCounts.isSome = true ∧
        (Save m job st snap).mMeshSample.faceIndices.isSome = true := by
      by_cases htopo : st.mNumSamples = 0 ∨ job.exportDynamicTopology = true
      · obtain ⟨a, b, _, _⟩ := t1 htopo
        rw [a, b]; exact ⟨rfl, rfl⟩
      · obtain ⟨a, b, _, _⟩ := t2 htopo
        rw [a, b]
        rcases h with ⟨h0, _⟩ | ⟨_, hc, hi, _⟩
        · exact absurd (Or.inl h0) htopo
        · exact ⟨hc, hi⟩
    refine Or.inr ⟨by rw [s2]; omega, hnew.1, hnew.2, ?_⟩
    intro s hs
    rw [s1, List.mem_append, List.mem_singleton] at hs
    rcases hs with hs | hs
    · rcases h with ⟨_, hnil⟩ | ⟨_, _, _, hall⟩
      · rw [hnil] at hs; exact absurd hs (List.not_mem_nil s)
      · exact hall s hs
    · rw [hs]; exact hnew
  · rw [Save_skips m job st snap hbuild]
    exact h

theorem topologyKept_seq (m : Machine) (job : JobOptions)
    (hpc : job.exportPurePointCache = false) (snaps : List MeshSnapshot) :
    ∀ st, TopologyKept st → TopologyKept (SaveSeq m job st snaps) := by
  induction snaps with
  | nil => intro st h; exact h
  | cons snap rest ih =>
    intro st h
    exact ih _ (topologyKept_step m job st snap hpc h)

theorem length_foldl_set {α : Type} (f : Nat → α) (l : List Nat) :
    ∀ buf : List α, (l.foldl (fun b i => b.set i (f i)) buf).length = buf.length := by
  induction l with
  | nil => intro buf; rfl
  | cons i l ih => intro buf; rw [List.foldl_cons, ih, List.length_set]

theorem length_fillLoop {α : Type} (n : Nat) (f : Nat → α) (buf : List α) :
    (fillLoop n f buf).length = buf.length :=
  length_foldl_set f (List.range n) buf

/-- The normal variables of a call whose shading normals hold no full triple. -/
theorem Save.normalVars_empty (m : Machine) (job : JobOptions) (snap : MeshSnapshot)
    (hempty : snap.shadingNormals.length / 3 = 0) :
    (Save.normalVars m job snap).normalVec = [] ∧
    (Save.normalVars m job snap).normalCount = 0 ∧
    (Save.normalVars m job snap).normalIndexVec = [] := by
  have hnv : Save.normalVec m job snap = [] := by
    apply List.eq_nil_of_length_eq_zero
    unfold Save.normalVec
    rw [length_fillLoop, length_vecResize, hempty]
  unfold Save.normalVars
  cases job.exportNormals
  · exact ⟨rfl, rfl, rfl⟩
  · cases job.indexedNormals
    · simp [hnv]
    · simp [hnv, indexLoop, indexInit, vecResize]

/-- The normal sample a topology-writing call puts on the member sample. -/
theorem Save_normals_topology (m : Machine) (job : JobOptions) (st : SaveState)
    (snap : MeshSnapshot) (hpc : job.exportPurePointCache = false)
    (hbuild : st.mNumSamples = 0 ∨ snap.animated = true)
    (htopo : st.mNumSamples = 0 ∨ job.exportDynamicTopology = true)
    (hv : 0 < (Save.normalSentinel job (Save.normalVars m job snap)).normalVec.length ∧
      0 < (Save.normalSentinel job (Save.normalVars m job snap)).normalCount) :
    (Save m job st snap).mMeshSample.normals = some
      { vals := (Save.normalSentinel job (Save.normalVars m job snap)).normalVec.take
          (Save.normalSentinel job (Save.normalVars m job snap)).normalCount
        indices :=
          if (Save.normalSentinel job (Save.normalVars m job snap)).normalIndexCount > 0 then
            some ((Save.normalSentinel job (Save.normalVars m job snap)).normalIndexVec.take
              (Save.normalSentinel job (Save.normalVars m job snap)).normalIndexCount)
          else none } := by
  have hskip : ¬ (st.mNumSamples > 0 ∧ snap.animated = false) := by
    rintro ⟨h1, h2⟩
    rcases hbuild with h | h
    · omega
    · rw [h] at h2; exact Bool.noConfusion h2
  unfold Save
  rw [if_neg hskip]
  simp only [hpc, Bool.false_eq_true, if_false, htopo, if_true]
  unfold Save.setNormals
  rw [if_pos hv]

theorem foldl_set_range {α : Type} (f : Nat → α) :
    ∀ (k : Nat) (buf : List α), k ≤ buf.length →
      ((List.range k).foldl (fun b i => b.set i (f i)) buf).take k = (List.range k).map f ∧
      ((List.range k).foldl (fun b i => b.set i (f i)) buf).drop k = buf.drop k := by
  intro k
  induction k with
  | zero => intro buf _; simp
  | succ k ih =>
    intro buf hk
    obtain ⟨h1, h2⟩ := ih buf (by omega)
    have hlen := length_foldl_set f (List.range k) buf
    rw [List.range_succ, List.foldl_append, List.foldl_cons, List.foldl_nil]
    constructor
    · rw [take_set_succ _ _ _ (by rw [hlen]; omega), h1]
      simp
    · rw [List.drop_set_of_lt _ _ (by omega), ← List.drop_drop, h2, List.drop_drop]

/-- A fill loop over a buffer of its own length writes every entry. -/
theorem fillLoop_eq {α : Type} (n : Nat) (f : Nat → α) (buf : List α) (h : buf.length = n) :
    fillLoop n f buf = (List.range n).map f := by
  have h1 := (foldl_set_range f n buf (by omega)).1
  have hlen : (fillLoop n f buf).length = n := by rw [length_fillLoop, h]
  unfold fillLoop at hlen ⊢
  rw [List.take_of_length_le (by omega)] at h1
  exact h1

/-- The vector `mVelocitiesVec` in closed form. -/
theorem Save.velocitiesVec_eq (m : Machine) (job : JobOptions) (snap : MeshSnapshot)
    (prev data : List V3f) :
    Save.velocitiesVec m job snap prev data =
      if snap.pos.length = 0 then [⟨0, 0, 0⟩]
      else (List.range snap.pos.length).map (fun i =>
        narrowV3 m.narrow
          (if job.globalSpace then snap.rotate (data.getD i ⟨0, 0, 0⟩)
           else data.getD i ⟨0, 0, 0⟩)) := by
  unfold Save.velocitiesVec
  simp only
  rw [fillLoop_eq _ _ _ (length_vecResize _ _ _)]
  by_cases h0 : snap.pos.length = 0
  · simp [h0]
  · simp [h0]

/-- The velocity field of the member sample after a call that builds a sample:
set from the source in a call under dynamic topology that is not a pure point
cache call and has a defined source, untouched otherwise. -/
theorem Save_velocity_field (m : Machine) (job : JobOptions) (st : SaveState)
    (snap : MeshSnapshot) (hbuild : st.mNumSamples = 0 ∨ snap.animated = true) :
    (job.exportPurePointCache = false → job.exportDynamicTopology = true →
      ∀ data, snap.velocitiesData = some data →
        (Save m job st snap).mMeshSample.velocities =
          some (Save.velocitiesVec m job snap st.mVelocitiesVec data)) ∧
    ((job.exportPurePointCache = true ∨ job.exportDynamicTopology = false ∨
        snap.velocitiesData = none) →
      (Save m job st snap).mMeshSample.velocities = st.mMeshSample.velocities) := by
  have hskip : ¬ (st.mNumSamples > 0 ∧ snap.animated = false) := by
    rintro ⟨h1, h2⟩
    rcases hbuild with h | h
    · omega
    · rw [h] at h2; exact Bool.noConfusion h2
  constructor
  · intro hpc hdyn data hdata
    unfold Save
    rw [if_neg hskip]
    simp only [hpc, Bool.false_eq_true, if_false, hdyn, or_true, if_true, hdata]
    rw [(Save.setNormals_fields _ _).2.2.2.2]
  · intro h
    unfold Save
    rw [if_neg hskip]
    by_cases hpc : job.exportPurePointCache = true
    · simp only [hpc, if_true]
      by_cases h0 : st.mNumSamples = 0 <;> simp [h0]
    · simp only [hpc, Bool.false_eq_true, if_false]
      have hsame : (match job.exportDynamicTopology, snap.velocitiesData with
          | true, some _ =>
            ({ st.mMeshSample with
                positions := some (Save.posVec job.globalSpace snap.toWorld m.narrow snap.pos)
                selfBounds := some (Save.selfBounds job.globalSpace snap.toWorld m.narrow snap.pos)
                velocities := some (match job.exportDynamicTopology, snap.velocitiesData with
                  | true, some data => Save.velocitiesVec m job snap st.mVelocitiesVec data
                  | _, _ => st.mVelocitiesVec) } : OSample)
          | _, _ =>
            { st.mMeshSample with
                positions := some (Save.posVec job.globalSpace snap.toWorld m.narrow snap.pos)
                selfBounds := some
                  (Save.selfBounds job.globalSpace snap.toWorld m.narrow snap.pos) }).velocities =
          st.mMeshSample.velocities := by
        rcases h with h | h | h
        · exact absurd h hpc
        · rw [h]
        · rw [h]; cases job.exportDynamicTopology <;> rfl
      by_cases htopo : st.mNumSamples = 0 ∨ job.exportDynamicTopology = true
      · simp only [htopo, if_true]
        rw [(Save.setNormals_fields _ _).2.2.2.2]
        exact hsame
      · simp only [htopo, if_false]
        rw [(Save.setNormals_fields _ _).2.2.2.2]
        exact hsame

theorem velocityFree_step (m : Machine) (job : JobOptions) (st : SaveState)
    (snap : MeshSnapshot)
    (hjob : job.exportPurePointCache = true ∨ job.exportDynamicTopology = false)
    (h : VelocityFree st) : VelocityFree (Save m job st snap) := by
  by_cases hbuild : st.mNumSamples = 0 ∨ snap.animated = true
  · have hv := (Save_velocity_field m job st snap hbuild).2
      (hjob.elim Or.inl (fun h2 => Or.inr (Or.inl h2)))
    have hs := (Save_stores m job st snap hbuild).1
    refine ⟨by rw [hv]; exact h.1, ?_⟩
    intro s hmem
    rw [hs, List.mem_append, List.mem_singleton] at hmem
    rcases hmem with hmem | hmem
    · exact h.2 s hmem
    · rw [hmem, hv]; exact h.1
  · rw [Save_skips m job st snap hbuild]
    exact h

theorem velocityFree_seq (m : Machine) (job : JobOptions)
    (hjob : job.exportPurePointCache = true ∨ job.exportDynamicTopology = false)
    (snaps : List MeshSnapshot) :
    ∀ st, VelocityFree st → VelocityFree (SaveSeq m job st snaps) := by
  induction snaps with
  | nil => intro st h; exact h
  | cons snap rest ih =>
    intro st h
    exact ih _ (velocityFree_step m job st snap hjob h)

end SaveCall

/-! ### The zero count read back by `alembic_polymesh_topo_Update` -/

theorem topoPolies_first_zero (s : MeshSample) (rest : List Int)
    (hfirst : s.faceCounts = 0 :: rest) :
    topoPolies s =
      match s.velocities with
      | none => Outcome.notSet
      | some vel =>
        if vel.length ≠ s.positions.length then Outcome.notSet else Outcome.done [3, 0, 0, 0] := by
  unfold topoPolies
  rw [hfirst]
  simp

/-! ### The self bounds -/

section Bounds

theorem minF_cons (m x : Scalar) (xs : List Scalar) :
    minF m (x :: xs) = minF (if x < m then x else m) xs := rfl

theorem maxF_cons (m x : Scalar) (xs : List Scalar) :
    maxF m (x :: xs) = maxF (if x > m then x else m) xs := rfl

theorem minF_le_init (xs : List Scalar) : ∀ m, minF m xs ≤ m := by
  induction xs with
  | nil => intro m; exact le_refl m
  | cons x xs ih =>
    intro m
    rw [minF_cons]
    refine le_trans (ih _) ?_
    split_ifs with h
    · exact le_of_lt h
    · exact le_refl m

theorem init_le_maxF (xs : List Scalar) : ∀ m, m ≤ maxF m xs := by
  induction xs with
  | nil => intro m; exact le_refl m
  | cons x xs ih =>
    intro m
    rw [maxF_cons]
    refine le_trans ?_ (ih _)
    split_ifs with h
    · exact le_of_lt h
    · exact le_refl m

theorem minF_le_mem (xs : List Scalar) : ∀ m, ∀ x ∈ xs, minF m xs ≤ x := by
  induction xs with
  | nil => intro m x hx; exact absurd hx (List.not_mem_nil x)
  | cons y ys ih =>
    intro m x hx
    rw [minF_cons]
    rcases List.mem_cons.1 hx with h | h
    · subst h
      refine le_trans (minF_le_init ys _) ?_
      split_ifs with h2
      · exact le_refl x
      · exact not_lt.1 h2
    · exact ih _ x h

theorem mem_le_maxF (xs : List Scalar) : ∀ m, ∀ x ∈ xs, x ≤ maxF m xs := by
  induction xs with
  | nil => intro m x hx; exact absurd hx (List.not_mem_nil x)
  | cons y ys ih =>
    intro m x hx
    rw [maxF_cons]
    rcases List.mem_cons.1 hx with h | h
    · subst h
      refine le_trans ?_ (init_le_maxF ys _)
      split_ifs with h2
      · exact le_refl x
      · exact not_lt.1 h2
    · exact ih _ x h

theorem minF_eq_or_mem (xs : List Scalar) : ∀ m, minF m xs = m ∨ minF m xs ∈ xs := by
  induction xs with
  | nil => intro m; exact Or.inl rfl
  | cons y ys ih =>
    intro m
    rw [minF_cons]
    rcases ih (if y < m then y else m) with h | h
    · rw [h]
      split_ifs
      · exact Or.inr (List.mem_cons_self y ys)
      · exact Or.inl rfl
    · exact Or.inr (List.mem_cons_of_mem y h)

theorem maxF_eq_or_mem (xs : List Scalar) : ∀ m, maxF m xs = m ∨ maxF m xs ∈ xs := by
  induction xs with
  | nil => intro m; exact Or.inl rfl
  | cons y ys ih =>
    intro m
    rw [maxF_cons]
    rcases ih (if y > m then y else m) with h | h
    · rw [h]
      split_ifs
      · exact Or.inr (List.mem_cons_self y ys)
      · exact Or.inl rfl
    · exact Or.inr (List.mem_cons_of_mem y h)

/-- The running minimum of a non-empty list whose values do not exceed the
initial value is a value of the list. -/
theorem minF_mem (xs : List Scalar) (m : Scalar) (hne : xs ≠ []) (hle : ∀ x ∈ xs, x ≤ m) :
    minF m xs ∈ xs := by
  rcases minF_eq_or_mem xs m with h | h
  · obtain ⟨x, hx⟩ := List.exists_mem_of_ne_nil xs hne
    have h1 := minF_le_mem xs m x hx
    have h2 := hle x hx
    have : x = minF m xs := le_antisymm (by rw [h]; exact h2) h1
    rw [← this]; exact hx
  · exact h

theorem maxF_mem (xs : List Scalar) (m : Scalar) (hne : xs ≠ []) (hle : ∀ x ∈ xs, m ≤ x) :
    maxF m xs ∈ xs := by
  rcases maxF_eq_or_mem xs m with h | h
  · obtain ⟨x, hx⟩ := List.exists_mem_of_ne_nil xs hne
    have h1 := mem_le_maxF xs m x hx
    have h2 := hle x hx
    have : x = maxF m xs := le_antisymm h1 (by rw [h]; exact h2)
    rw [← this]; exact hx
  · exact h

/-- A box extended by a list of points, axis by axis. -/
theorem foldl_extendBy (pts : List V3f) : ∀ b : Box3d,
    pts.foldl Box3d.extendBy b =
      { min := ⟨minF b.min.x (pts.map (fun p => p.x)), minF b.min.y (pts.map (fun p => p.y)),
                minF b.min.z (pts.map (fun p => p.z))⟩
        max := ⟨maxF b.max.x (pts.map (fun p => p.x)), maxF b.max.y (pts.map (fun p => p.y)),
                maxF b.max.z (pts.map (fun p => p.z))⟩ } := by
  induction pts with
  | nil => intro b; rfl
  | cons p ps ih =>
    intro b
    rw [List.foldl_cons, ih]
    rfl

theorem extendBy_comm (b : Box3d) (p q : V3f) :
    (b.extendBy p).extendBy q = (b.extendBy q).extendBy p := by
  have hmin : ∀ m x y : Scalar,
      (if y < (if x < m then x else m) then y else (if x < m then x else m)) =
      (if x < (if y < m then y else m) then x else (if y < m then y else m)) := by
    intro m x y
    split_ifs <;> first | rfl | (apply le_antisymm <;> linarith)
  have hmax : ∀ m x y : Scalar,
      (if y > (if x > m then x else m) then y else (if x > m then x else m)) =
      (if x > (if y > m then y else m) then x else (if y > m then y else m)) := by
    intro m x y
    split_ifs <;> first | rfl | (apply le_antisymm <;> linarith)
  simp only [Box3d.extendBy, Box3d.mk.injEq, V3f.mk.injEq]
  exact ⟨⟨hmin _ _ _, hmin _ _ _, hmin _ _ _⟩, ⟨hmax _ _ _, hmax _ _ _, hmax _ _ _⟩⟩

end Bounds

/-! ### The normals operator -/

section NormalsUpdate

theorem length_flat3 (l : List V3f) : (flat3 l).length = 3 * l.length := by
  induction l with
  | nil => rfl
  | cons n ns ih => simp only [flat3, List.length_cons, ih]; omega

theorem flat3_append (l1 l2 : List V3f) : flat3 (l1 ++ l2) = flat3 l1 ++ flat3 l2 := by
  induction l1 with
  | nil => rfl
  | cons n ns ih => simp [flat3, ih]

theorem exists_flat3 : ∀ (k : Nat) (buf : List Scalar), buf.length = 3 * k →
    ∃ curs : List V3f, curs.length = k ∧ buf = flat3 curs := by
  intro k
  induction k with
  | zero =>
    intro buf h
    exact ⟨[], rfl, List.eq_nil_of_length_eq_zero (by omega)⟩
  | succ k ih =>
    intro buf h
    match buf, h with
    | x :: y :: z :: rest, h =>
      obtain ⟨curs, hc, hr⟩ := ih rest (by simp only [List.length_cons] at h; omega)
      exact ⟨⟨x, y, z⟩ :: curs, by simp [hc], by simp [flat3, hr]⟩
    | [], h => simp at h
    | [_], h => simp at h; omega
    | [_, _], h => simp at h; omega

theorem getD_append_length (pre l : List Scalar) (k : Nat) :
    (pre ++ l).getD (pre.length + k) 0 = l.getD k 0 := by
  induction pre with
  | nil => simp
  | cons a pre ih =>
    have e : (a :: pre).length + k = (pre.length + k) + 1 := by simp; omega
    rw [e, List.cons_append, List.getD_cons_succ, ih]

theorem set3_append (pre rest : List Scalar) (x y z a b c : Scalar) :
    (((pre ++ x :: y :: z :: rest).set pre.length a).set (pre.length + 1) b).set
      (pre.length + 2) c = pre ++ a :: b :: c :: rest := by
  induction pre with
  | nil => rfl
  | cons d pre ih =>
    have e1 : (d :: pre).length = pre.length + 1 := rfl
    have e2 : pre.length + 1 + 1 = (pre.length + 1) + 1 := rfl
    have e3 : pre.length + 1 + 2 = (pre.length + 2) + 1 := by omega
    rw [e1, e3, List.cons_append, List.set_cons_succ, List.set_cons_succ, List.set_cons_succ, ih]
    rfl

theorem readTriple_append (pre rest : List Scalar) (x y z : Scalar) :
    readTriple (pre ++ x :: y :: z :: rest) pre.length = some ⟨x, y, z⟩ := by
  unfold readTriple
  have hlen : pre.length + 2 < (pre ++ x :: y :: z :: rest).length := by simp
  rw [if_pos hlen]
  have h0 := getD_append_length pre (x :: y :: z :: rest) 0
  have h1 := getD_append_length pre (x :: y :: z :: rest) 1
  have h2 := getD_append_length pre (x :: y :: z :: rest) 2
  rw [Nat.add_zero] at h0
  rw [h0, h1, h2]
  rfl

theorem writeTriple_append (pre rest : List Scalar) (x y z : Scalar) (v : V3f) :
    writeTriple (pre ++ x :: y :: z :: rest) pre.length v =
      some (pre ++ v.x :: v.y :: v.z :: rest) := by
  unfold writeTriple
  have hlen : pre.length + 2 < (pre ++ x :: y :: z :: rest).length := by simp
  rw [if_pos hlen, set3_append]

theorem normalsFace_spec (g : V3f → V3f → V3f) (src : List V3f) (a : Nat) :
    ∀ (j : Nat) (pre : List Scalar) (curs : List V3f) (post : List Scalar),
      curs.length = j → a + j ≤ src.length →
      normalsFace g src (a : Int) j (pre ++ flat3 curs ++ post, pre.length) =
        some (pre ++ flat3 (List.zipWith g curs ((src.drop a).take j).reverse) ++ post,
          pre.length + 3 * j) := by
  intro j
  induction j with
  | zero =>
    intro pre curs post hc _
    have : curs = [] := List.eq_nil_of_length_eq_zero hc
    subst this
    simp [normalsFace, flat3]
  | succ j ih =>
    intro pre curs post hc hsrc
    match curs, hc with
    | cur :: curs1, hc =>
      have hc1 : curs1.length = j := by simpa using hc
      have hidx : ((a : Int) + (j : Int)).toNat = a + j := by omega
      have hlt : a + j < src.length := by omega
      have hnn : ¬ ((a : Int) + (j : Int) < 0) := by omega
      have hbuf : pre ++ flat3 (cur :: curs1) ++ post =
          pre ++ cur.x :: cur.y :: cur.z :: (flat3 curs1 ++ post) := by
        simp [flat3]
      have hrev : ((src.drop a).take (j + 1)).reverse =
          src[a + j] :: ((src.drop a).take j).reverse := by
        rw [List.take_succ, List.getElem?_drop, List.getElem?_eq_getElem hlt]
        simp
      have hih := ih (pre ++ [(g cur src[a + j]).x, (g cur src[a + j]).y, (g cur src[a + j]).z])
        curs1 post hc1 (by omega)
      simp only [normalsFace, if_neg hnn, hidx, List.getElem?_eq_getElem hlt, hbuf,
        readTriple_append, writeTriple_append]
      have e1 : pre ++ (g cur src[a + j]).x :: (g cur src[a + j]).y :: (g cur src[a + j]).z ::
          (flat3 curs1 ++ post) =
          pre ++ [(g cur src[a + j]).x, (g cur src[a + j]).y, (g cur src[a + j]).z] ++
            flat3 curs1 ++ post := by simp
      have e2 : pre.length + 3 =
          (pre ++ [(g cur src[a + j]).x, (g cur src[a + j]).y, (g cur src[a + j]).z]).length := by
        simp
      rw [e1, e2, hih, hrev]
      simp [flat3]
      omega

theorem zipWith_append_of_length {α β γ : Type} (g : α → β → γ) (l1 l2 : List α)
    (r1 r2 : List β) (h : l1.length = r1.length) :
    List.zipWith g (l1 ++ l2) (r1 ++ r2) = List.zipWith g l1 r1 ++ List.zipWith g l2 r2 := by
  induction l1 generalizing r1 with
  | nil =>
    have : r1 = [] := List.eq_nil_of_length_eq_zero h.symm
    subst this; rfl
  | cons a l1 ih =>
    match r1, h with
    | b :: r1, h =>
      simp only [List.cons_append, List.zipWith_cons_cons]
      rw [ih r1 (by simpa using h)]

theorem length_reverseFaces {α : Type} (ns : List Nat) :
    ∀ l : List α, ns.sum ≤ l.length → (reverseFaces ns l).length = ns.sum := by
  induction ns with
  | nil => intro l _; rfl
  | cons c cs ih =>
    intro l h
    simp only [List.sum_cons] at h
    simp only [reverseFaces, List.length_append, List.length_reverse, List.length_take,
      List.sum_cons]
    rw [ih (l.drop c) (by rw [List.length_drop]; omega)]
    omega

/-- One pass over the polygons, in closed form. -/
theorem normalsLoop_spec (g : V3f → V3f → V3f) (src : List V3f) :
    ∀ (ns : List Nat) (a : Nat) (pre : List Scalar) (curs : List V3f) (post : List Scalar),
      curs.length = ns.sum → a + ns.sum ≤ src.length →
      ((ns.map Int.ofNat).foldl (normalsStep g src)
        (some { normalValues := pre ++ flat3 curs ++ post, offsetOut := pre.length
                offsetIn := (a : Int) })).map (fun s => s.normalValues) =
        some (pre ++ flat3 (List.zipWith g curs (reverseFaces ns (src.drop a))) ++ post) := by
  intro ns
  induction ns with
  | nil =>
    intro a pre curs post hc _
    have : curs = [] := List.eq_nil_of_length_eq_zero hc
    subst this
    simp [reverseFaces, flat3]
  | cons c cs ih =>
    intro a pre curs post hc hsrc
    simp only [List.sum_cons] at hc hsrc
    have hsplit : curs = curs.take c ++ curs.drop c := (List.take_append_drop c curs).symm
    have hl1 : (curs.take c).length = c := by rw [List.length_take]; omega
    have hl2 : (curs.drop c).length = cs.sum := by rw [List.length_drop]; omega
    have hface := normalsFace_spec g src a c pre (curs.take c)
      (flat3 (curs.drop c) ++ post) hl1 (by omega)
    have hbuf : pre ++ flat3 curs ++ post =
        pre ++ flat3 (curs.take c) ++ (flat3 (curs.drop c) ++ post) := by
      conv_lhs => rw [hsplit, flat3_append]
      simp
    have hstep : normalsStep g src
        (some { normalValues := pre ++ flat3 curs ++ post, offsetOut := pre.length
                offsetIn := (a : Int) }) (Int.ofNat c) =
        some { normalValues :=
                 (pre ++ flat3 (List.zipWith g (curs.take c) ((src.drop a).take c).reverse)) ++
                   flat3 (curs.drop c) ++ post
               offsetOut :=
                 (pre ++ flat3 (List.zipWith g (curs.take c)
                   ((src.drop a).take c).reverse)).length
               offsetIn := ((a + c : Nat) : Int) } := by
      have hzl : (List.zipWith g (curs.take c) ((src.drop a).take c).reverse).length = c := by
        simp [List.length_zipWith, hl1]
        omega
      have ht : (Int.ofNat c).toNat = c := rfl
      unfold normalsStep
      simp only [ht]
      rw [hbuf, hface]
      simp only [List.length_append, length_flat3, hzl, List.append_assoc, Int.ofNat_eq_coe,
        Nat.cast_add]
    simp only [List.map_cons, List.foldl_cons]
    rw [hstep, ih (a + c) _ (curs.drop c) post hl2 (by omega)]
    have hz : List.zipWith g curs (reverseFaces (c :: cs) (src.drop a)) =
        List.zipWith g (curs.take c) ((src.drop a).take c).reverse ++
          List.zipWith g (curs.drop c) (reverseFaces cs (src.drop (a + c))) := by
      conv_lhs => rw [hsplit]
      simp only [reverseFaces, List.drop_drop]
      rw [zipWith_append_of_length g _ _ _ _
        (by simp [hl1]; omega)]
    rw [hz, flat3_append]
    simp

theorem zipWith_snd_of_length {α β : Type} (l : List α) (r : List β)
    (h : l.length = r.length) : List.zipWith (fun _ s => s) l r = r := by
  induction l generalizing r with
  | nil =>
    have : r = [] := List.eq_nil_of_length_eq_zero h.symm
    subst this; rfl
  | cons a l ih =>
    match r, h with
    | b :: r, h => simp only [List.zipWith_cons_cons]; rw [ih r (by simpa using h)]

/-- One pass over a whole array of normals. -/
theorem normalsLoop_whole (g : V3f → V3f → V3f) (src : List V3f) (ns : List Nat)
    (curs : List V3f) (hc : curs.length = ns.sum) (hsrc : ns.sum ≤ src.length) :
    normalsLoop g src (ns.map Int.ofNat) (flat3 curs) =
      some (flat3 (List.zipWith g curs (reverseFaces ns src))) := by
  have h := normalsLoop_spec g src ns 0 [] curs [] hc (by omega)
  simpa [normalsLoop] using h

end NormalsUpdate

/-! ### The sample lookup -/

section SampleLookup

/-- In a strictly ascending list the values up to `times[k]` are the first
`k + 1` entries. -/
theorem length_takeWhile_le (times : List Scalar) (hs : times.Pairwise (fun a b => a < b))
    (k : Nat) (hk : k < times.length) :
    (times.takeWhile (fun t => decide (t ≤ times[k]))).length = k + 1 := by
  have hpair := List.pairwise_iff_getElem.1 hs
  have hsplit : times = times.take (k + 1) ++ times.drop (k + 1) :=
    (List.take_append_drop (k + 1) times).symm
  have hpre : ∀ a ∈ times.take (k + 1), (fun t => decide (t ≤ times[k])) a = true := by
    intro a ha
    obtain ⟨i, hi, rfl⟩ := List.getElem_of_mem ha
    have hi2 : i < k + 1 := by
      rw [List.length_take] at hi; omega
    rw [List.getElem_take]
    simp only [decide_eq_true_eq]
    rcases Nat.lt_or_ge i k with h | h
    · exact le_of_lt (hpair i k (by omega) hk h)
    · have : i = k := by omega
      subst this; exact le_refl _
  have hpost : (times.drop (k + 1)).takeWhile (fun t => decide (t ≤ times[k])) = [] := by
    cases hd : times.drop (k + 1) with
    | nil => rfl
    | cons b rest =>
      have hlen : k + 1 < times.length := by
        by_contra hc
        rw [List.drop_of_length_le (by omega)] at hd
        exact List.noConfusion hd
      have hb : b = times[k + 1] := by
        have h1 : (times.drop (k + 1))[0]? = some b := by rw [hd]; simp
        rw [List.getElem?_drop, List.getElem?_eq_getElem (by omega)] at h1
        exact (Option.some.inj h1).symm
      have hlt := hpair k (k + 1) hk hlen (by omega)
      rw [List.takeWhile_cons_of_neg]
      rw [hb]
      simp only [decide_eq_true_eq, not_le]
      exact hlt
  have key : ∀ l : List Scalar, l = times.take (k + 1) ++ times.drop (k + 1) →
      (l.takeWhile (fun t => decide (t ≤ times[k]))).length = k + 1 := by
    intro l hl
    rw [hl, List.takeWhile_append_of_pos hpre, hpost, List.append_nil, List.length_take]
    omega
  exact key times hsplit

end SampleLookup

/-! ### Ranges of the indexing loop -/

section IndexRange

variable {K : Type} [DecidableEq K]

/-- Counts and buffer sizes when the loop has ended. -/
theorem indexLoop_counts {lt : K → K → Bool} (hlt : KeyOrder lt) (uninit : K)
    (prev : List Nat) (input : List K) (hmax : input.length ≤ LONG_MAX) :
    (indexLoop lt uninit prev input).indexCount = input.length ∧
    (indexLoop lt uninit prev input).sortedCount ≤ input.length ∧
    (1 ≤ input.length → 1 ≤ (indexLoop lt uninit prev input).sortedCount) ∧
    (indexLoop lt uninit prev input).indexVec.length = input.length ∧
    (indexLoop lt uninit prev input).sortedVec.length = input.length ∧
    (∀ a ∈ (indexLoop lt uninit prev input).sample.indices,
      a < (indexLoop lt uninit prev input).sortedCount) := by
  have h := LoopInv.foldl hlt hmax input [] _ (LoopInv.init lt uninit prev input.length)
    (by simp)
  simp only [List.nil_append] at h
  have hs := indexLoop_sample hlt uninit prev input hmax
  refine ⟨h.hic, ?_, ?_, h.hil, h.hsl, ?_⟩
  · unfold indexLoop
    rw [h.hsc]
    exact length_firstOccurrences_le input
  · intro h1
    unfold indexLoop
    rw [h.hsc]
    cases hinp : input with
    | nil => rw [hinp] at h1; simp at h1
    | cons x xs =>
      have hm : x ∈ firstOccurrences (x :: xs) := (mem_firstOccurrences _ _).2 (by simp)
      exact List.length_pos_of_mem hm
  · intro a ha
    rw [hs] at ha
    simp only [List.mem_map] at ha
    obtain ⟨w, hw, rfl⟩ := ha
    unfold indexLoop
    rw [h.hsc]
    exact List.indexOf_lt_length.2 ((mem_firstOccurrences input w).2 hw)

/-- Before the pass for any entry of the input, both write positions of the
pass lie inside their buffers. -/
theorem indexLoop_write_positions {lt : K → K → Bool} (hlt : KeyOrder lt) (uninit : K)
    (prev : List Nat) (xs : List K) (v : K) (rest : List K)
    (hmax : (xs ++ v :: rest).length ≤ LONG_MAX) :
    (xs.foldl (indexStep lt) (indexInit uninit prev (xs ++ v :: rest).length)).indexCount <
      (xs.foldl (indexStep lt) (indexInit uninit prev (xs ++ v :: rest).length)).indexVec.length ∧
    (xs.foldl (indexStep lt) (indexInit uninit prev (xs ++ v :: rest).length)).sortedCount <
      (xs.foldl (indexStep lt) (indexInit uninit prev (xs ++ v :: rest).length)).sortedVec.length := by
  have h := LoopInv.foldl hlt hmax xs [] _
    (LoopInv.init lt uninit prev (xs ++ v :: rest).length) (by simp)
  simp only [List.nil_append] at h
  have hle := length_firstOccurrences_le xs
  have hlen : (xs ++ v :: rest).length = xs.length + rest.length + 1 := by simp; omega
  rw [h.hic, h.hil, h.hsc, h.hsl, hlen]
  omega

end IndexRange

/-- A sample whose velocity array has the length of its position array never
makes the topology part of the operator return early. -/
theorem topoPolies_aligned (s : MeshSample) (vel : List V3f)
    (hv : s.velocities = some vel) (hl : vel.length = s.positions.length) :
    topoPolies s ≠ Outcome.notSet := by
  unfold topoPolies
  simp only [hv, hl, ne_eq, not_true_eq_false, if_false]
  split
  · simp
  · split
    · simp
    · split <;> simp

/-! ### Ranges of the topology rebuild -/

section RebuildRange

theorem writePoly_offset (st st1 : RebuildState) (v : Int) (h : writePoly st v = some st1) :
    st1.offset1 = st.offset1 + 1 := by
  unfold writePoly at h
  split at h
  · cases h; rfl
  · exact Option.noConfusion h

theorem rebuildFace_offset (faceIndices : List Int) :
    ∀ (n k : Nat) (st st1 : RebuildState), rebuildFace faceIndices n k st = some st1 →
      st1.offset1 = st.offset1 + n := by
  intro n
  induction n with
  | zero => intro k st st1 h; simp only [rebuildFace] at h; cases h; rfl
  | succ n ih =>
    intro k st st1 h
    simp only [rebuildFace] at h
    split at h
    · exact Option.noConfusion h
    · split at h
      · exact Option.noConfusion h
      · rename_i v _ st2 hw
        have h1 := writePoly_offset _ _ _ hw
        have h2 := ih _ _ _ h
        omega

theorem rebuildStep_none (faceIndices : List Int) (counts : List Int) :
    counts.foldl (rebuildStep faceIndices) none = none := by
  induction counts with
  | nil => rfl
  | cons c cs ih => simpa [rebuildStep] using ih

theorem rebuildStep_offset (faceIndices : List Int) (st st1 : RebuildState) (c : Int)
    (h : rebuildStep faceIndices (some st) c = some st1) :
    st1.offset1 = st.offset1 + 1 + c.toNat := by
  simp only [rebuildStep] at h
  split at h
  · exact Option.noConfusion h
  · rename_i st2 hw
    have h1 := writePoly_offset _ _ _ hw
    split at h
    · exact Option.noConfusion h
    · have h2 := rebuildFace_offset _ _ _ _ _ h
      simp only at h2
      omega

/-- The write offset when the rebuild loop has ended. -/
theorem rebuild_foldl_offset (faceIndices : List Int) :
    ∀ (counts : List Int) (st st1 : RebuildState),
      counts.foldl (rebuildStep faceIndices) (some st) = some st1 →
      st1.offset1 = st.offset1 + counts.length + (counts.map Int.toNat).sum := by
  intro counts
  induction counts with
  | nil => intro st st1 h; simp only [List.foldl_nil, Option.some.injEq] at h; subst h; simp
  | cons c cs ih =>
    intro st st1 h
    simp only [List.foldl_cons] at h
    cases hs : rebuildStep faceIndices (some st) c with
    | none => rw [hs, rebuildStep_none] at h; exact Option.noConfusion h
    | some st2 =>
      rw [hs] at h
      have h1 := rebuildStep_offset _ _ _ _ hs
      have h2 := ih _ _ h
      simp only [List.length_cons, List.map_cons, List.sum_cons]
      omega

/-- An index array as long as the sum of non-negative counts is cut by them into
faces. -/
theorem exists_faces_of_counts :
    ∀ (counts : List Int) (indices : List Int), (∀ c ∈ counts, 0 ≤ c) →
      (counts.map Int.toNat).sum = indices.length →
      ∃ fs : List (List Int), counts = fs.map (fun f => (f.length : Int)) ∧
        indices = (fs.map List.reverse).flatten := by
  intro counts
  induction counts with
  | nil =>
    intro indices _ hsum
    refine ⟨[], rfl, ?_⟩
    simp only [List.map_nil, List.sum_nil] at hsum
    simpa using (List.eq_nil_of_length_eq_zero hsum.symm)
  | cons c cs ih =>
    intro indices hnn hsum
    simp only [List.map_cons, List.sum_cons] at hsum
    have hc : 0 ≤ c := hnn c (by simp)
    obtain ⟨fs, h1, h2⟩ := ih (indices.drop c.toNat) (fun d hd => hnn d (by simp [hd]))
      (by rw [List.length_drop]; omega)
    refine ⟨(indices.take c.toNat).reverse :: fs, ?_, ?_⟩
    · simp only [List.map_cons, List.length_reverse, List.length_take]
      rw [← h1, min_eq_left (by omega)]
      congr 1
      exact (Int.toNat_of_nonneg hc).symm
    · simp only [List.map_cons, List.reverse_reverse, List.flatten_cons]
      rw [← h2, List.take_append_drop]

end RebuildRange

/-! ### The sample look table of `Save` and the face-wise reversal -/

section SampleLookup2

theorem sampleLookup_foldl (fs : List PolygonFace) :
    ∀ (buf : List Int) (o : Nat),
      o + (fs.map (fun f => f.samples.length)).sum ≤ buf.length →
      ((fs.foldl (fun st face => writeFaceIndices face.samples face.samples.length st)
        (buf, o)).1).length = buf.length ∧
      ((fs.foldl (fun st face => writeFaceIndices face.samples face.samples.length st)
        (buf, o)).1).take (o + (fs.map (fun f => f.samples.length)).sum) =
        buf.take o ++ (fs.map (fun f => f.samples.reverse)).flatten := by
  induction fs with
  | nil => intro buf o _; simp
  | cons f fs ih =>
    intro buf o h
    simp only [List.map_cons, List.sum_cons] at h
    obtain ⟨w1, w2, w3⟩ := writeFaceIndices_spec f.samples f.samples.length buf o (le_refl _)
      (by omega)
    have hpair : writeFaceIndices f.samples f.samples.length (buf, o) =
        ((writeFaceIndices f.samples f.samples.length (buf, o)).1, o + f.samples.length) := by
      rw [← w1]
    obtain ⟨r1, r2⟩ := ih (writeFaceIndices f.samples f.samples.length (buf, o)).1
      (o + f.samples.length) (by rw [w2]; omega)
    simp only [List.foldl_cons, List.map_cons, List.sum_cons, List.flatten_cons]
    rw [hpair]
    refine ⟨by rw [r1, w2], ?_⟩
    have e : o + (f.samples.length + (fs.map (fun f => f.samples.length)).sum) =
        o + f.samples.length + (fs.map (fun f => f.samples.length)).sum := by omega
    rw [e, r2, w3]
    simp

/-- The sample look table of `Save` in closed form: the samples of each face in
reverse, face after face. -/
theorem Save.sampleLookup_eq (faces : List PolygonFace) (sampleCount : Nat)
    (h : sampleCount = (faces.map (fun f => f.samples.length)).sum) :
    Save.sampleLookup faces sampleCount = (faces.map (fun f => f.samples.reverse)).flatten := by
  obtain ⟨r1, r2⟩ := sampleLookup_foldl faces (List.replicate sampleCount 0) 0
    (by simp only [List.length_replicate]; omega)
  simp only [List.length_replicate, Nat.zero_add, List.take_zero, List.nil_append] at r1 r2
  unfold Save.sampleLookup
  rw [← r2, List.take_of_length_le (by omega)]

theorem flatten_reverse_eq_reverseFaces {α : Type} (fs : List (List α)) :
    (fs.map List.reverse).flatten = reverseFaces (fs.map List.length) fs.flatten := by
  induction fs with
  | nil => rfl
  | cons f fs ih =>
    simp only [List.map_cons, List.flatten_cons, reverseFaces, List.take_left',
      List.drop_left', ih]

theorem reverseFaces_map {α β : Type} (g : α → β) (ns : List Nat) :
    ∀ l : List α, reverseFaces ns (l.map g) = (reverseFaces ns l).map g := by
  induction ns with
  | nil => intro l; rfl
  | cons c cs ih =>
    intro l
    simp only [reverseFaces, ← List.map_take, ← List.map_drop, ih, List.map_append,
      List.map_reverse]

theorem reverseFaces_reverseFaces {α : Type} (ns : List Nat) :
    ∀ l : List α, ns.sum = l.length → reverseFaces ns (reverseFaces ns l) = l := by
  induction ns with
  | nil =>
    intro l h
    simp only [List.sum_nil] at h
    simp [reverseFaces, List.eq_nil_of_length_eq_zero h.symm]
  | cons c cs ih =>
    intro l h
    simp only [List.sum_cons] at h
    have hc : ((l.take c).reverse).length = c := by
      rw [List.length_reverse, List.length_take]; omega
    have h1 : reverseFaces (c :: cs) l = (l.take c).reverse ++ reverseFaces cs (l.drop c) := rfl
    rw [h1]
    have h2 : reverseFaces (c :: cs) ((l.take c).reverse ++ reverseFaces cs (l.drop c)) =
        (((l.take c).reverse ++ reverseFaces cs (l.drop c)).take c).reverse ++
          reverseFaces cs (((l.take c).reverse ++ reverseFaces cs (l.drop c)).drop c) := rfl
    rw [h2, List.take_left' hc, List.drop_left' hc, List.reverse_reverse,
      ih (l.drop c) (by rw [List.length_drop]; omega), List.take_append_drop]

theorem getD_flat3 : ∀ (N : List V3f) (j : Nat), j < N.length →
    (flat3 N).getD (j * 3) 0 = (N.getD j ⟨0, 0, 0⟩).x ∧
    (flat3 N).getD (j * 3 + 1) 0 = (N.getD j ⟨0, 0, 0⟩).y ∧
    (flat3 N).getD (j * 3 + 2) 0 = (N.getD j ⟨0, 0, 0⟩).z := by
  intro N
  induction N with
  | nil => intro j hj; simp at hj
  | cons n ns ih =>
    intro j hj
    cases j with
    | zero => simp [flat3]
    | succ j =>
      simp only [List.length_cons, Nat.add_lt_add_iff_right] at hj
      obtain ⟨a, b, c⟩ := ih j hj
      have e0 : (j + 1) * 3 = j * 3 + 1 + 1 + 1 := by omega
      have e1 : (j + 1) * 3 + 1 = j * 3 + 1 + 1 + 1 + 1 := by omega
      have e2 : (j + 1) * 3 + 2 = j * 3 + 2 + 1 + 1 + 1 := by omega
      rw [e2, e1, e0]
      simp only [flat3, List.getD_cons_succ]
      exact ⟨a, b, c⟩

theorem map_getD_range {α β : Type} (L : List α) (d : α) (h : α → β) :
    (List.range L.length).map (fun i => h (L.getD i d)) = L.map h := by
  apply List.ext_getElem
  · simp
  · intro i h1 h2
    simp only [List.getElem_map, List.getElem_range]
    rw [List.getD_eq_getElem _ _ (by simpa using h2)]

end SampleLookup2

/-! ### The normals written by `Save` -/

section SaveNormals

theorem floatAt_flat3 (N : List V3f) (j : Nat) (hj : j < N.length) :
    (⟨floatAt (flat3 N) (Int.ofNat j * 3 + 0), floatAt (flat3 N) (Int.ofNat j * 3 + 1),
      floatAt (flat3 N) (Int.ofNat j * 3 + 2)⟩ : V3f) = N.getD j ⟨0, 0, 0⟩ := by
  obtain ⟨a, b, c⟩ := getD_flat3 N j hj
  have p0 : (0 : Int) ≤ Int.ofNat j * 3 + 0 := by simp only [Int.ofNat_eq_coe]; omega
  have p1 : (0 : Int) ≤ Int.ofNat j * 3 + 1 := by simp only [Int.ofNat_eq_coe]; omega
  have p2 : (0 : Int) ≤ Int.ofNat j * 3 + 2 := by simp only [Int.ofNat_eq_coe]; omega
  have t0 : (Int.ofNat j * 3 + 0).toNat = j * 3 := by simp only [Int.ofNat_eq_coe]; omega
  have t1 : (Int.ofNat j * 3 + 1).toNat = j * 3 + 1 := by simp only [Int.ofNat_eq_coe]; omega
  have t2 : (Int.ofNat j * 3 + 2).toNat = j * 3 + 2 := by simp only [Int.ofNat_eq_coe]; omega
  simp only [floatAt, p0, p1, p2, if_true, t0, t1, t2, a, b, c]

/-- The vector `normalVec` of `Save` without `globalSpace`, for a mesh whose
faces take the nodes in consecutive blocks: the node normals, narrowed, each
face in reverse. -/
theorem Save.normalVec_blocks (m : Machine) (job : JobOptions) (snap : MeshSnapshot)
    (N : List V3f) (hgs : job.globalSpace = false)
    (hsamples : (snap.faces.map (fun f => f.samples)).flatten =
      (List.range N.length).map Int.ofNat)
    (hcount : snap.sampleCount = N.length) (hN : snap.shadingNormals = flat3 N) :
    Save.normalVec m job snap =
      reverseFaces (snap.faces.map (fun f => f.samples.length)) (N.map (narrowV3 m.narrow)) := by
  have htotal : (snap.faces.map (fun f => f.samples.length)).sum = N.length := by
    have := congrArg List.length hsamples
    simpa [List.length_flatten, Function.comp_def] using this
  have hL : Save.sampleLookup snap.faces snap.sampleCount =
      (reverseFaces (snap.faces.map (fun f => f.samples.length)) (List.range N.length)).map
        Int.ofNat := by
    rw [Save.sampleLookup_eq _ _ (by rw [hcount, htotal])]
    have h1 := flatten_reverse_eq_reverseFaces (snap.faces.map (fun f => f.samples))
    simp only [List.map_map, Function.comp_def] at h1
    rw [h1, hsamples, reverseFaces_map]
  have hLlen : (reverseFaces (snap.faces.map (fun f => f.samples.length))
      (List.range N.length)).length = N.length := by
    rw [length_reverseFaces _ _ (by rw [htotal, List.length_range]), htotal]
  have hmem : ∀ j ∈ reverseFaces (snap.faces.map (fun f => f.samples.length))
      (List.range N.length), j < N.length := by
    intro j hj
    have hperm : ∀ (ns : List Nat) (l : List Nat), ∀ x ∈ reverseFaces ns l, x ∈ l := by
      intro ns
      induction ns with
      | nil => intro l x hx; simp [reverseFaces] at hx
      | cons c cs ih =>
        intro l x hx
        simp only [reverseFaces, List.mem_append, List.mem_reverse] at hx
        rcases hx with hx | hx
        · exact List.mem_of_mem_take hx
        · exact List.mem_of_mem_drop (ih _ _ hx)
    exact List.mem_range.1 (hperm _ _ j hj)
  unfold Save.normalVec
  simp only [hgs, Bool.false_eq_true, if_false]
  rw [fillLoop_eq _ _ _ (by rw [length_vecResize, hN, length_flat3, hcount]; omega), hL, hN,
    hcount]
  have e1 := map_getD_range
    ((reverseFaces (snap.faces.map (fun f => f.samples.length)) (List.range N.length)).map
      Int.ofNat) 0
    (fun lookedup => narrowV3 m.narrow
      (⟨floatAt (flat3 N) (lookedup * 3 + 0), floatAt (flat3 N) (lookedup * 3 + 1),
        floatAt (flat3 N) (lookedup * 3 + 2)⟩ : V3f))
  rw [List.length_map, hLlen] at e1
  rw [e1, List.map_map]
  have e2 : (reverseFaces (snap.faces.map (fun f => f.samples.length))
      (List.range N.length)).map
        ((fun lookedup => narrowV3 m.narrow
          (⟨floatAt (flat3 N) (lookedup * 3 + 0), floatAt (flat3 N) (lookedup * 3 + 1),
            floatAt (flat3 N) (lookedup * 3 + 2)⟩ : V3f)) ∘ Int.ofNat) =
      (reverseFaces (snap.faces.map (fun f => f.samples.length)) (List.range N.length)).map
        (fun j => narrowV3 m.narrow (N.getD j ⟨0, 0, 0⟩)) := by
    apply List.map_congr_left
    intro j hj
    simp only [Function.comp_apply]
    rw [floatAt_flat3 N j (hmem j hj)]
  rw [e2, ← reverseFaces_map, map_getD_range N ⟨0, 0, 0⟩ (narrowV3 m.narrow)]

/-- Expanding the normal sample built from the variables of `Save` gives back
`normalVec` as it was before the indexing loop, with indexed normals or without. -/
theorem Save.normalVars_expanded (m : Machine) (job : JobOptions) (snap : MeshSnapshot)
    (hn : job.exportNormals = true) (hpos : 0 < (Save.normalVec m job snap).length)
    (hmax : (Save.normalVec m job snap).length ≤ LONG_MAX) :
    0 < (Save.normalVars m job snap).normalVec.length ∧
    0 < (Save.normalVars m job snap).normalCount ∧
    NormalSample.expanded
      { vals := (Save.normalVars m job snap).normalVec.take
          (Save.normalVars m job snap).normalCount
        indices :=
          if (Save.normalVars m job snap).normalIndexCount > 0 then
            some ((Save.normalVars m job snap).normalIndexVec.take
              (Save.normalVars m job snap).normalIndexCount)
          else none } = Save.normalVec m job snap := by
  unfold Save.normalVars
  simp only [hn, if_true]
  by_cases hidx : job.indexedNormals = true
  · simp only [hidx, if_true]
    obtain ⟨c1, _, c3, _, c5, _⟩ :=
      indexLoop_counts keyOrder_SortableV3f m.uninit [] (Save.normalVec m job snap) hmax
    have hs := indexLoop_sample keyOrder_SortableV3f m.uninit [] (Save.normalVec m job snap) hmax
    simp only [IndexState.sample, Indexed.mk.injEq] at hs
    refine ⟨by rw [c5]; exact hpos, c3 hpos, ?_⟩
    rw [if_pos (by rw [c1]; exact hpos), hs.1, hs.2]
    simp only [NormalSample.expanded, List.map_map]
    conv_rhs => rw [← List.map_id (Save.normalVec m job snap)]
    apply List.map_congr_left
    intro w hw
    have hmem : w ∈ firstOccurrences (Save.normalVec m job snap) :=
      (mem_firstOccurrences _ w).2 hw
    have hlt := List.indexOf_lt_length.2 hmem
    simp only [Function.comp_apply, id_eq]
    rw [List.getD_eq_getElem _ _ hlt, List.getElem_indexOf hlt]
  · simp only [hidx, Bool.false_eq_true, if_false]
    refine ⟨hpos, hpos, ?_⟩
    simp [NormalSample.expanded]

/-- The normal sample on the member sample after a call that builds a sample,
is not a pure point cache call and has a non-empty normal attribute. -/
theorem Save_normals_nonempty (m : Machine) (job : JobOptions) (st : SaveState)
    (snap : MeshSnapshot) (hpc : job.exportPurePointCache = false)
    (hbuild : st.mNumSamples = 0 ∨ snap.animated = true)
    (hv : 0 < (Save.normalVars m job snap).normalVec.length ∧
      0 < (Save.normalVars m job snap).normalCount) :
    (Save m job st snap).mMeshSample.normals = some
      { vals := (Save.normalVars m job snap).normalVec.take
          (Save.normalVars m job snap).normalCount
        indices :=
          if (Save.normalVars m job snap).normalIndexCount > 0 then
            some ((Save.normalVars m job snap).normalIndexVec.take
              (Save.normalVars m job snap).normalIndexCount)
          else none } := by
  have hskip : ¬ (st.mNumSamples > 0 ∧ snap.animated = false) := by
    rintro ⟨h1, h2⟩
    rcases hbuild with h | h
    · omega
    · rw [h] at h2; exact Bool.noConfusion h2
  have hsent : Save.normalSentinel job (Save.normalVars m job snap) =
      Save.normalVars m job snap := by
    unfold Save.normalSentinel
    rw [if_neg]
    rintro ⟨h1 | h1, _⟩ <;> omega
  unfold Save
  rw [if_neg hskip]
  simp only [hpc, Bool.false_eq_true, if_false]
  by_cases htopo : st.mNumSamples = 0 ∨ job.exportDynamicTopology = true
  · simp only [htopo, if_true, hsent]
    unfold Save.setNormals
    rw [if_pos hv]
  · simp only [htopo, if_false]
    unfold Save.setNormals
    rw [if_pos hv]

end SaveNormals

/-! ### The UV block of `Save` -/

section SaveUVs

/-- What a pass of `Save.uvStore` that stays inside `mUvParams` leaves alone. -/
theorem Save.uvStore_kept (n : Nat) (st st1 : UvState) (uvI : Nat) (smp : UvSample)
    (h : Save.uvStore n st uvI smp = some st1) :
    st1.mUvVec = st.mUvVec ∧ st1.mUvIndexVec = st.mUvIndexVec ∧
    st1.mUvOptionsVec = st.mUvOptionsVec ∧ st1.uvOptionsSet = st.uvOptionsSet ∧
    st1.mUvParams.length =
      (if uvI ≠ 0 ∧ n = 0 then st.mUvParams.length + 1 else st.mUvParams.length) := by
  unfold Save.uvStore at h
  by_cases h0 : uvI = 0
  · rw [if_pos h0] at h
    cases h
    simp [h0]
  · rw [if_neg h0] at h
    simp only at h
    split at h
    · exact Option.noConfusion h
    · cases h
      refine ⟨rfl, rfl, rfl, rfl, ?_⟩
      by_cases hn : n = 0
      · simp [h0, hn]
      · simp [hn]

/-- When `Save.uvStore` stays inside `mUvParams`. -/
theorem Save.uvStore_some (n : Nat) (st : UvState) (uvI : Nat) (smp : UvSample)
    (h : uvI = 0 ∨ (n = 0 ∧ uvI - 1 ≤ st.mUvParams.length) ∨
      (n ≠ 0 ∧ uvI - 1 < st.mUvParams.length)) :
    ∃ st1, Save.uvStore n st uvI smp = some st1 := by
  unfold Save.uvStore
  by_cases h0 : uvI = 0
  · rw [if_pos h0]; exact ⟨_, rfl⟩
  · rw [if_neg h0]
    have hlt : uvI - 1 < (if n = 0 then st.mUvParams ++ [[]] else st.mUvParams).length := by
      rcases h with h | ⟨hn, h⟩ | ⟨hn, h⟩
      · exact absurd h h0
      · rw [if_pos hn, List.length_append, List.length_singleton]; omega
      · rw [if_neg hn]; exact h
    simp only [List.getElem?_eq_getElem hlt]
    exact ⟨_, rfl⟩

/-- What a pass of the loop over the UV sets that stays inside its vectors
leaves alone. -/
theorem Save.uvSet_kept (m : Machine) (indexedUVs : Bool) (n : Nat) (sampleLookup : List Int)
    (sampleCount : Nat) (st st1 : UvState) (uvI : Nat) (prop : UvProp)
    (h : Save.uvSet m indexedUVs n sampleLookup sampleCount st uvI prop = some st1) :
    uvI < st.mUvVec.length ∧
    st1.mUvVec.length = st.mUvVec.length ∧ st1.mUvIndexVec.length = st.mUvIndexVec.length ∧
    st1.mUvOptionsVec = st.mUvOptionsVec ∧ st1.uvOptionsSet = st.uvOptionsSet ∧
    st1.mUvParams.length =
      (if uvI ≠ 0 ∧ n = 0 then st.mUvParams.length + 1 else st.mUvParams.length) := by
  unfold Save.uvSet at h
  cases hv : st.mUvVec[uvI]? with
  | none => rw [hv] at h; exact Option.noConfusion h
  | some prev =>
    have hlt : uvI < st.mUvVec.length := by
      by_contra hc
      rw [List.getElem?_eq_none (by omega)] at hv
      exact Option.noConfusion hv
    rw [hv] at h
    simp only at h
    by_cases hi : indexedUVs = true
    · rw [if_pos hi] at h
      cases hx : st.mUvIndexVec[uvI]? with
      | none => rw [hx] at h; exact Option.noConfusion h
      | some prevIndex =>
        rw [hx] at h
        obtain ⟨k1, k2, k3, k4, k5⟩ := Save.uvStore_kept _ _ _ _ _ h
        simp only at k1 k2 k3 k4 k5
        refine ⟨hlt, by rw [k1, List.length_set], by rw [k2, List.length_set], k3, k4, k5⟩
    · rw [if_neg hi] at h
      obtain ⟨k1, k2, k3, k4, k5⟩ := Save.uvStore_kept _ _ _ _ _ h
      simp only at k1 k2 k3 k4 k5
      refine ⟨hlt, by rw [k1, List.length_set], by rw [k2], k3, k4, k5⟩

/-- When a pass of the loop over the UV sets stays inside its vectors. -/
theorem Save.uvSet_some (m : Machine) (indexedUVs : Bool) (n : Nat) (sampleLookup : List Int)
    (sampleCount : Nat) (st : UvState) (uvI : Nat) (prop : UvProp)
    (h1 : uvI < st.mUvVec.length) (h2 : indexedUVs = true → uvI < st.mUvIndexVec.length)
    (h3 : uvI = 0 ∨ (n = 0 ∧ uvI - 1 ≤ st.mUvParams.length) ∨
      (n ≠ 0 ∧ uvI - 1 < st.mUvParams.length)) :
    ∃ st1, Save.uvSet m indexedUVs n sampleLookup sampleCount st uvI prop = some st1 := by
  unfold Save.uvSet
  simp only [List.getElem?_eq_getElem h1]
  by_cases hi : indexedUVs = true
  · rw [if_pos hi]
    simp only [List.getElem?_eq_getElem (h2 hi)]
    exact Save.uvStore_some _ _ _ _ h3
  · rw [if_neg hi]
    exact Save.uvStore_some _ _ _ _ h3

/-- What the loop over the UV sets leaves alone when it stays inside its
vectors; it cannot do so on a non-empty list of UV sets while `mUvVec` is empty. -/
theorem Save.uvLoop_kept (m : Machine) (indexedUVs : Bool) (n : Nat) (sampleLookup : List Int)
    (sampleCount : Nat) :
    ∀ (props : List UvProp) (uvI : Nat) (st st1 : UvState),
      Save.uvLoop m indexedUVs n sampleLookup sampleCount props uvI st = some st1 →
      (props ≠ [] → uvI < st.mUvVec.length) ∧
      st1.mUvVec.length = st.mUvVec.length ∧ st1.mUvIndexVec.length = st.mUvIndexVec.length ∧
      st1.mUvOptionsVec = st.mUvOptionsVec ∧ st1.uvOptionsSet = st.uvOptionsSet := by
  intro props
  induction props with
  | nil =>
    intro uvI st st1 h
    simp only [Save.uvLoop, Option.some.injEq] at h
    subst h
    exact ⟨fun hc => absurd rfl hc, rfl, rfl, rfl, rfl⟩
  | cons prop rest ih =>
    intro uvI st st1 h
    simp only [Save.uvLoop] at h
    cases hs : Save.uvSet m indexedUVs n sampleLookup sampleCount st uvI prop with
    | none => rw [hs] at h; exact Option.noConfusion h
    | some st2 =>
      rw [hs] at h
      obtain ⟨a0, a1, a2, a3, a4, _⟩ := Save.uvSet_kept _ _ _ _ _ _ _ _ _ hs
      obtain ⟨_, b1, b2, b3, b4⟩ := ih _ _ _ h
      exact ⟨fun _ => a0, by rw [b1, a1], by rw [b2, a2], by rw [b3, a3], by rw [b4, a4]⟩

/-- On the first sample of a stream the loop over the UV sets stays inside the
vectors resized for it and pushes one parameter for every UV set but the first. -/
theorem Save.uvLoop_first (m : Machine) (indexedUVs : Bool) (sampleLookup : List Int)
    (sampleCount : Nat) :
    ∀ (props : List UvProp) (uvI : Nat) (st : UvState),
      uvI + props.length ≤ st.mUvVec.length →
      (indexedUVs = true → uvI + props.length ≤ st.mUvIndexVec.length) →
      st.mUvParams.length = uvI - 1 →
      ∃ st1, Save.uvLoop m indexedUVs 0 sampleLookup sampleCount props uvI st = some st1 ∧
        st1.mUvParams.length = uvI + props.length - 1 := by
  intro props
  induction props with
  | nil => intro uvI st _ _ h3; exact ⟨st, rfl, by simpa using h3⟩
  | cons prop rest ih =>
    intro uvI st h1 h2 h3
    simp only [List.length_cons] at h1 h2
    obtain ⟨st2, hs⟩ := Save.uvSet_some m indexedUVs 0 sampleLookup sampleCount st uvI prop
      (by omega) (fun hi => by have := h2 hi; omega) (Or.inr (Or.inl ⟨rfl, by omega⟩))
    obtain ⟨_, a1, a2, _, _, a5⟩ := Save.uvSet_kept _ _ _ _ _ _ _ _ _ hs
    have hlen : st2.mUvParams.length = uvI + 1 - 1 := by
      rw [a5]
      by_cases h0 : uvI = 0
      · simp [h0, h3]
      · simp only [h0, ne_eq, not_false_eq_true, and_self, if_true]; omega
    obtain ⟨st3, hl, hp⟩ := ih (uvI + 1) st2 (by rw [a1]; omega)
      (fun hi => by rw [a2]; have := h2 hi; omega) hlen
    refine ⟨st3, ?_, ?_⟩
    · simp only [Save.uvLoop, hs]
      exact hl
    · rw [hp, List.length_cons]; omega

/-- On a later sample the loop over the UV sets stays inside the vectors when
they hold at least as many UV sets as the call presents. -/
theorem Save.uvLoop_later (m : Machine) (indexedUVs : Bool) (n : Nat) (hn : n ≠ 0)
    (sampleLookup : List Int) (sampleCount : Nat) :
    ∀ (props : List UvProp) (uvI : Nat) (st : UvState),
      uvI + props.length ≤ st.mUvVec.length →
      (indexedUVs = true → uvI + props.length ≤ st.mUvIndexVec.length) →
      uvI + props.length ≤ st.mUvParams.length + 1 →
      ∃ st1, Save.uvLoop m indexedUVs n sampleLookup sampleCount props uvI st = some st1 ∧
        st1.mUvParams.length = st.mUvParams.length := by
  intro props
  induction props with
  | nil => intro uvI st _ _ _; exact ⟨st, rfl, rfl⟩
  | cons prop rest ih =>
    intro uvI st h1 h2 h3
    simp only [List.length_cons] at h1 h2 h3
    obtain ⟨st2, hs⟩ := Save.uvSet_some m indexedUVs n sampleLookup sampleCount st uvI prop
      (by omega) (fun hi => by have := h2 hi; omega)
      (by
        by_cases h0 : uvI = 0
        · exact Or.inl h0
        · exact Or.inr (Or.inr ⟨hn, by omega⟩))
    obtain ⟨_, a1, a2, _, _, a5⟩ := Save.uvSet_kept _ _ _ _ _ _ _ _ _ hs
    have hlen : st2.mUvParams.length = st.mUvParams.length := by
      rw [a5]; simp [hn]
    obtain ⟨st3, hl, hp⟩ := ih (uvI + 1) st2 (by rw [a1]; omega)
      (fun hi => by rw [a2]; have := h2 hi; omega) (by rw [hlen]; omega)
    refine ⟨st3, ?_, by rw [hp, hlen]⟩
    simp only [Save.uvLoop, hs]
    exact hl

theorem foldl_uvOptions (props : List UvProp) :
    ∀ init : List Scalar,
      props.foldl (fun v prop => v ++ Save.uvOptions prop) init = init ++ uvOptionsOf props := by
  induction props with
  | nil => intro init; simp [uvOptionsOf]
  | cons p ps ih =>
    intro init
    simp only [List.foldl_cons, ih, uvOptionsOf, List.map_cons, List.flatten_cons,
      List.append_assoc]

/-- The UV block on the first sample of a stream that presents UV sets: it stays
inside the vectors it resizes, and sets the options array once. -/
theorem Save.uvSets_first (m : Machine) (uvJob : UvJobOptions) (sampleLookup : List Int)
    (sampleCount : Nat) (props : List UvProp) (st : UvState) (hp : props ≠ [])
    (hparams : st.mUvParams = []) (hopt : st.mUvOptionsVec = []) :
    ∃ st1, Save.uvSets m uvJob 0 sampleLookup sampleCount props st = some st1 ∧
      st1.mUvOptionsVec = uvOptionsOf props ∧
      st1.uvOptionsSet = st.uvOptionsSet ++ [uvOptionsOf props] ∧
      st1.mUvVec.length = props.length ∧
      (uvJob.indexedUVs = true → st1.mUvIndexVec.length = props.length) ∧
      st1.mUvParams.length = props.length - 1 := by
  have hlen : props.length > 0 := List.length_pos.2 hp
  obtain ⟨st2, hl, hpar⟩ := Save.uvLoop_first m uvJob.indexedUVs sampleLookup sampleCount props 0
    { st with
      mUvVec := vecResize st.mUvVec props.length []
      mUvIndexVec :=
        if uvJob.indexedUVs then vecResize st.mUvIndexVec props.length [] else st.mUvIndexVec }
    (by simp only [length_vecResize]; omega)
    (fun hi => by simp only [hi, if_true, length_vecResize]; omega)
    (by simp only [hparams, List.length_nil])
  obtain ⟨_, a1, a2, a3, a4⟩ := Save.uvLoop_kept _ _ _ _ _ _ _ _ _ hl
  simp only [length_vecResize] at a1 a2 a3 a4
  refine ⟨{ st2 with
      mUvOptionsVec := uvOptionsOf props
      uvOptionsSet := st.uvOptionsSet ++ [uvOptionsOf props] }, ?_, rfl, rfl, a1, ?_, ?_⟩
  · unfold Save.uvSets
    rw [if_pos hlen, if_pos rfl]
    simp only [hl]
    simp only [foldl_uvOptions, a3, hopt, List.nil_append, a4, List.length_nil, if_true]
  · intro hi
    show st2.mUvIndexVec.length = props.length
    rw [a2]
    simp only [hi, if_true, length_vecResize]
  · show st2.mUvParams.length = props.length - 1
    rw [hpar]; omega

/-- The UV block on a later sample that presents no more UV sets than the
vectors hold: it stays inside the vectors and keeps their sizes. -/
theorem Save.uvSets_later (m : Machine) (uvJob : UvJobOptions) (n : Nat) (hn : n ≠ 0)
    (sampleLookup : List Int) (sampleCount : Nat) (props : List UvProp) (st : UvState)
    (h1 : props.length ≤ st.mUvVec.length)
    (h2 : uvJob.indexedUVs = true → props.length ≤ st.mUvIndexVec.length)
    (h3 : props.length ≤ st.mUvParams.length + 1) :
    ∃ st1, Save.uvSets m uvJob n sampleLookup sampleCount props st = some st1 ∧
      st1.mUvVec.length = st.mUvVec.length ∧
      st1.mUvIndexVec.length = st.mUvIndexVec.length ∧
      st1.mUvParams.length = st.mUvParams.length := by
  unfold Save.uvSets
  by_cases hp : props.length > 0
  · rw [if_pos hp, if_neg hn]
    obtain ⟨st2, hl, hpar⟩ := Save.uvLoop_later m uvJob.indexedUVs n hn sampleLookup sampleCount
      props 0 st (by omega) (fun hi => by have := h2 hi; omega) (by omega)
    obtain ⟨_, a1, a2, _, _⟩ := Save.uvLoop_kept _ _ _ _ _ _ _ _ _ hl
    simp only [hl]
    by_cases ho : st2.mUvOptionsVec.length = 0
    · rw [if_pos ho]; exact ⟨_, rfl, a1, a2, hpar⟩
    · rw [if_neg ho]; exact ⟨_, rfl, a1, a2, hpar⟩
  · rw [if_neg hp]; exact ⟨st, rfl, rfl, rfl, rfl⟩

/-- The sample counter is not zero after a call of `Save`. -/
theorem Save_mNumSamples_ne_zero (m : Machine) (job : JobOptions) (st : SaveState)
    (snap : MeshSnapshot) : (Save m job st snap).mNumSamples ≠ 0 := by
  by_cases hbuild : st.mNumSamples = 0 ∨ snap.animated = true
  · rw [(Save_stores m job st snap hbuild).2.1]; omega
  · rw [Save_skips m job st snap hbuild]
    intro h0
    exact hbuild (Or.inl h0)

/-- A call that runs the UV block. -/
theorem SaveUV_reached (m : Machine) (job : JobOptions) (uvJob : UvJobOptions)
    (st : SaveState × UvState) (call : MeshSnapshot × List UvProp)
    (h : uvBlockReached job uvJob st.1 call.1) :
    SaveUV m job uvJob st call =
      (Save.uvSets m uvJob st.1.mNumSamples (Save.sampleLookup call.1.faces call.1.sampleCount)
        call.1.sampleCount call.2 st.2).map (fun uv => (Save m job st.1 call.1, uv)) := by
  obtain ⟨h1, h2, h3, h4⟩ := h
  unfold SaveUV
  simp only [h1, h2, h3, h4, not_false_eq_true, decide_True, Bool.not_false, Bool.and_self,
    if_true]
  cases Save.uvSets m uvJob st.1.mNumSamples
    (Save.sampleLookup call.1.faces call.1.sampleCount) call.1.sampleCount call.2 st.2 <;> rfl

/-- A call that does not run the UV block leaves the UV members as they are. -/
theorem SaveUV_not_reached (m : Machine) (job : JobOptions) (uvJob : UvJobOptions)
    (st : SaveState × UvState) (call : MeshSnapshot × List UvProp)
    (h : ¬ uvBlockReached job uvJob st.1 call.1) :
    SaveUV m job uvJob st call = some (Save m job st.1 call.1, st.2) := by
  unfold SaveUV
  have hr : (decide (¬ (st.1.mNumSamples > 0 ∧ call.1.animated = false)) &&
      !job.exportPurePointCache &&
      decide (st.1.mNumSamples = 0 ∨ job.exportDynamicTopology = true) && uvJob.exportUVs) =
      false := by
    by_contra hc
    apply h
    simp only [Bool.not_eq_false, Bool.and_eq_true, decide_eq_true_eq, Bool.not_eq_true'] at hc
    exact ⟨hc.1.1.1, hc.1.1.2, hc.1.2, hc.2⟩
  simp only [hr, Bool.false_eq_true, if_false]

theorem uvBlockReached_first (job : JobOptions) (uvJob : UvJobOptions) (snap : MeshSnapshot) :
    uvBlockReached job uvJob SaveState.init snap ↔
      (uvJob.exportUVs = true ∧ job.exportPurePointCache = false) := by
  unfold uvBlockReached
  constructor
  · rintro ⟨_, h2, _, h4⟩; exact ⟨h4, h2⟩
  · rintro ⟨h4, h2⟩
    refine ⟨?_, h2, Or.inl rfl, h4⟩
    rintro ⟨h, _⟩
    exact absurd h (by decide)

/-- The first call of a stream stays inside the UV vectors and establishes both
invariants. -/
theorem SaveUV_first (m : Machine) (job : JobOptions) (uvJob : UvJobOptions)
    (first : MeshSnapshot × List UvProp) :
    ∃ st, SaveUV m job uvJob (SaveState.init, UvState.init) first = some st ∧
      UvOptionsInv job uvJob first.2 st ∧ (first.2 ≠ [] → UvBoundsInv job uvJob first.2.length st) := by
  by_cases hr : uvBlockReached job uvJob SaveState.init first.1
  · have hr2 := (uvBlockReached_first job uvJob first.1).1 hr
    have he := SaveUV_reached m job uvJob (SaveState.init, UvState.init) first hr
    by_cases hp : first.2 = []
    · have hu : Save.uvSets m uvJob SaveState.init.mNumSamples
          (Save.sampleLookup first.1.faces first.1.sampleCount) first.1.sampleCount first.2
          UvState.init = some UvState.init := by
        unfold Save.uvSets
        rw [hp]; rfl
      rw [hu] at he
      refine ⟨_, he, ⟨Save_mNumSamples_ne_zero _ _ _ _, Or.inr ⟨?_, rfl, rfl, rfl⟩⟩,
        fun hc => absurd hp hc⟩
      rintro ⟨_, _, h3⟩
      exact h3 hp
    · obtain ⟨u, k0, k1, k2, k3, k4, k5⟩ := Save.uvSets_first m uvJob
        (Save.sampleLookup first.1.faces first.1.sampleCount) first.1.sampleCount first.2
        UvState.init hp rfl rfl
      have hu : Save.uvSets m uvJob SaveState.init.mNumSamples
          (Save.sampleLookup first.1.faces first.1.sampleCount) first.1.sampleCount first.2
          UvState.init = some u := k0
      rw [hu] at he
      refine ⟨_, he, ⟨Save_mNumSamples_ne_zero _ _ _ _,
        Or.inl ⟨⟨hr2.1, hr2.2, hp⟩, k1, by rw [k2]; rfl⟩⟩,
        fun _ => ⟨Save_mNumSamples_ne_zero _ _ _ _, fun _ _ => ⟨k3, k4, k5⟩⟩⟩
  · have he := SaveUV_not_reached m job uvJob (SaveState.init, UvState.init) first hr
    have hr2 : ¬ (uvJob.exportUVs = true ∧ job.exportPurePointCache = false) :=
      fun hc => hr ((uvBlockReached_first job uvJob first.1).2 hc)
    refine ⟨_, he, ⟨Save_mNumSamples_ne_zero _ _ _ _, Or.inr ⟨?_, rfl, rfl, rfl⟩⟩,
      fun _ => ⟨Save_mNumSamples_ne_zero _ _ _ _, fun h1 h2 => absurd ⟨h1, h2⟩ hr2⟩⟩
    rintro ⟨h1, h2, _⟩
    exact hr2 ⟨h1, h2⟩

/-- A later call that presents no more UV sets than the first one stays inside
the UV vectors and keeps their sizes. -/
theorem UvBoundsInv_step (m : Machine) (job : JobOptions) (uvJob : UvJobOptions) (n0 : Nat)
    (hn0 : 1 ≤ n0) (st : SaveState × UvState) (call : MeshSnapshot × List UvProp)
    (hinv : UvBoundsInv job uvJob n0 st) (hle : call.2.length ≤ n0) :
    ∃ st1, SaveUV m job uvJob st call = some st1 ∧ UvBoundsInv job uvJob n0 st1 := by
  obtain ⟨hn, hk⟩ := hinv
  by_cases hr : uvBlockReached job uvJob st.1 call.1
  · obtain ⟨k1, k2, k3⟩ := hk hr.2.2.2 hr.2.1
    obtain ⟨u, hu, a1, a2, a3⟩ := Save.uvSets_later m uvJob st.1.mNumSamples hn
      (Save.sampleLookup call.1.faces call.1.sampleCount) call.1.sampleCount call.2 st.2
      (by omega) (fun hi => by have := k2 hi; omega) (by omega)
    refine ⟨(Save m job st.1 call.1, u), ?_, Save_mNumSamples_ne_zero _ _ _ _, ?_⟩
    · rw [SaveUV_reached m job uvJob st call hr, hu]; rfl
    · intro _ _
      exact ⟨by rw [a1, k1], fun hi => by rw [a2, k2 hi], by rw [a3, k3]⟩
  · exact ⟨_, SaveUV_not_reached m job uvJob st call hr, Save_mNumSamples_ne_zero _ _ _ _, hk⟩

theorem UvBoundsInv_seq (m : Machine) (job : JobOptions) (uvJob : UvJobOptions) (n0 : Nat)
    (hn0 : 1 ≤ n0) :
    ∀ (calls : List (MeshSnapshot × List UvProp)) (st : SaveState × UvState),
      UvBoundsInv job uvJob n0 st → (∀ call ∈ calls, call.2.length ≤ n0) →
      ∃ st1, SaveUVSeq m job uvJob (some st) calls = some st1 ∧
        UvBoundsInv job uvJob n0 st1 := by
  intro calls
  induction calls with
  | nil => intro st hinv _; exact ⟨st, rfl, hinv⟩
  | cons call rest ih =>
    intro st hinv hle
    obtain ⟨st2, hs, hinv2⟩ := UvBoundsInv_step m job uvJob n0 hn0 st call hinv
      (hle call (by simp))
    obtain ⟨st3, h3, hinv3⟩ := ih st2 hinv2 (fun c hc => hle c (by simp [hc]))
    refine ⟨st3, ?_, hinv3⟩
    simp only [SaveUVSeq, hs]
    exact h3

end SaveUVs

/-! ### The sample look table of `alembic_uvs_Update` -/

section UvsLookup

theorem length_lookupFold (xs : List Int) :
    ∀ st : List Int × Int, (lookupFold st xs).1.length = st.1.length := by
  induction xs with
  | nil => intro st; rfl
  | cons x xs ih =>
    intro st
    simp only [lookupFold, List.foldl_cons] at ih ⊢
    rw [ih]
    simp

theorem lookupFold_append (xs ys : List Int) (st : List Int × Int) :
    lookupFold st (xs ++ ys) = lookupFold (lookupFold st xs) ys := by
  simp [lookupFold, List.foldl_append]

theorem uvsLookupFace_spec (samples : List Int) :
    ∀ (j : Nat) (T : List Int) (o : Int), j ≤ samples.length →
      (∀ x ∈ samples, 0 ≤ x ∧ x.toNat < T.length) →
      uvsLookupFace samples j (T, o) = some (lookupFold (T, o) (samples.take j).reverse) := by
  intro j
  induction j with
  | zero => intro T o _ _; simp [uvsLookupFace, lookupFold]
  | succ j ih =>
    intro T o hj hr
    have hj2 : j < samples.length := by omega
    have hget : samples.getD j 0 = samples[j] := List.getD_eq_getElem _ _ hj2
    have hin := hr samples[j] (List.getElem_mem hj2)
    have hrev : (samples.take (j + 1)).reverse = samples[j] :: (samples.take j).reverse := by
      rw [List.take_succ, List.getElem?_eq_getElem hj2]
      simp
    simp only [uvsLookupFace, hget, hin, and_self, if_true]
    rw [ih (T.set samples[j].toNat o) (o + 1) (by omega)
      (fun x hx => by rw [List.length_set]; exact hr x hx), hrev]
    rfl

/-- The sample look table of the operator in closed form. -/
theorem uvsSampleLookup_eq (n : Nat) :
    ∀ (faces : List PolygonFace) (st : List Int × Int), st.1.length = n →
      (∀ f ∈ faces, ∀ x ∈ f.samples, 0 ≤ x ∧ x.toNat < n) →
      faces.foldl
        (fun st face =>
          match st with
          | none => none
          | some s => uvsLookupFace face.samples face.samples.length s)
        (some st) =
      some (lookupFold st (faces.map (fun f => f.samples.reverse)).flatten) := by
  intro faces
  induction faces with
  | nil => intro st _ _; simp [lookupFold]
  | cons f fs ih =>
    intro st hlen hr
    have h1 := uvsLookupFace_spec f.samples f.samples.length st.1 st.2 (le_refl _)
      (fun x hx => by rw [hlen]; exact hr f (by simp) x hx)
    rw [List.take_length] at h1
    simp only [List.foldl_cons, List.map_cons, List.flatten_cons, lookupFold_append]
    rw [h1]
    exact ih _ (by rw [length_lookupFold]; exact hlen)
      (fun g hg x hx => hr g (by simp [hg]) x hx)

/-- After the writes for a list of distinct entries inside the table, the table
holds at each entry the offset of its write, and is unchanged elsewhere. -/
theorem lookupFold_spec (xs : List Int) :
    ∀ (T : List Int) (o : Int), xs.Nodup → (∀ x ∈ xs, 0 ≤ x ∧ x.toNat < T.length) →
      (∀ (p : Nat) (hp : p < xs.length),
        (lookupFold (T, o) xs).1.getD (xs[p]).toNat 0 = o + (p : Int)) ∧
      (∀ k : Nat, (∀ x ∈ xs, x.toNat ≠ k) → (lookupFold (T, o) xs).1.getD k 0 = T.getD k 0) := by
  induction xs with
  | nil =>
    intro T o _ _
    exact ⟨fun p hp => absurd hp (by simp), fun k _ => rfl⟩
  | cons x xs ih =>
    intro T o hnd hr
    have hnd2 := (List.nodup_cons.1 hnd)
    have hx := hr x (by simp)
    obtain ⟨i1, i2⟩ := ih (T.set x.toNat o) (o + 1) hnd2.2
      (fun y hy => by rw [List.length_set]; exact hr y (by simp [hy]))
    have hfold : lookupFold (T, o) (x :: xs) = lookupFold (T.set x.toNat o, o + 1) xs := rfl
    rw [hfold]
    constructor
    · intro p hp
      cases p with
      | zero =>
        simp only [List.getElem_cons_zero, Nat.cast_zero, add_zero]
        rw [i2 x.toNat]
        · rw [List.getD_eq_getElem _ _ (by rw [List.length_set]; exact hx.2)]
          simp
        · intro y hy heq
          have hy0 := (hr y (by simp [hy])).1
          have : y = x := by
            have h1 := Int.toNat_of_nonneg hy0
            have h2 := Int.toNat_of_nonneg hx.1
            omega
          rw [this] at hy
          exact hnd2.1 hy
      | succ p =>
        simp only [List.length_cons, Nat.add_lt_add_iff_right] at hp
        simp only [List.getElem_cons_succ]
        rw [i1 p hp]
        push_cast
        ring
    · intro k hk
      rw [i2 k (fun y hy => hk y (by simp [hy]))]
      have hne : x.toNat ≠ k := hk x (by simp)
      simp only [List.getD_eq_getElem?_getD, List.getElem?_set_ne hne]

/-- The apply loop of the UV operator, in closed form. -/
theorem uvsApply_spec (meshUVs : List V2f) :
    ∀ (D : List Int) (pre curs : List V3f), curs.length = D.length →
      (∀ d ∈ D, 0 ≤ d ∧ d.toNat < meshUVs.length) →
      uvsApply meshUVs D (3 * pre.length) (flat3 (pre ++ curs)) =
        some (flat3 (pre ++ D.map (fun d =>
          (⟨(meshUVs.getD d.toNat ⟨0, 0⟩).x, (meshUVs.getD d.toNat ⟨0, 0⟩).y, 0⟩ : V3f)))) := by
  intro D
  induction D with
  | nil =>
    intro pre curs hc _
    have : curs = [] := List.eq_nil_of_length_eq_zero hc
    subst this
    simp [uvsApply]
  | cons d D ih =>
    intro pre curs hc hr
    match curs, hc with
    | c :: cs, hc =>
      have hd := hr d (by simp)
      have huv : uvAt meshUVs d = some (meshUVs.getD d.toNat ⟨0, 0⟩) := by
        unfold uvAt
        rw [if_pos hd.1, List.getElem?_eq_getElem hd.2, List.getD_eq_getElem _ _ hd.2]
      have hw : writeTriple (flat3 (pre ++ c :: cs)) (3 * pre.length)
          ⟨(meshUVs.getD d.toNat ⟨0, 0⟩).x, (meshUVs.getD d.toNat ⟨0, 0⟩).y, 0⟩ =
          some (flat3 ((pre ++ [⟨(meshUVs.getD d.toNat ⟨0, 0⟩).x,
            (meshUVs.getD d.toNat ⟨0, 0⟩).y, 0⟩]) ++ cs)) := by
        have h := writeTriple_append (flat3 pre) (flat3 cs) c.x c.y c.z
          ⟨(meshUVs.getD d.toNat ⟨0, 0⟩).x, (meshUVs.getD d.toNat ⟨0, 0⟩).y, 0⟩
        rw [length_flat3] at h
        simp only [flat3_append, flat3, List.append_assoc, List.cons_append, List.nil_append]
        exact h
      have e : 3 * pre.length + 3 = 3 * (pre ++ [(⟨(meshUVs.getD d.toNat ⟨0, 0⟩).x,
          (meshUVs.getD d.toNat ⟨0, 0⟩).y, 0⟩ : V3f)]).length := by
        simp only [List.length_append, List.length_singleton]; omega
      simp only [uvsApply, huv, hw]
      rw [e, ih _ cs (by simpa using hc) (fun x hx => hr x (by simp [hx]))]
      simp

theorem getD_set_append_succ (pre rest : List Scalar) (x y a : Scalar) :
    ((pre ++ x :: y :: rest).set pre.length a).getD (pre.length + 1) 0 = y := by
  induction pre with
  | nil => rfl
  | cons d pre ih =>
    have e1 : (d :: pre).length = pre.length + 1 := rfl
    rw [e1, List.cons_append, List.set_cons_succ, List.getD_cons_succ]
    exact ih

/-- The blend loop of the UV operator, in closed form: every triple of the
buffer is blended with the ceil UV its node looks up. -/
theorem uvsBlend_spec (meshUVs : List V2f) (alpha : Scalar) :
    ∀ (D : List Int) (pre curs : List V3f), curs.length = D.length →
      (∀ d ∈ D, 0 ≤ d ∧ d.toNat < meshUVs.length) →
      uvsBlend meshUVs alpha D (3 * pre.length) (flat3 (pre ++ curs)) =
        some (flat3 (pre ++ List.zipWith (fun cur d =>
          (⟨cur.x * (1 - alpha) + (meshUVs.getD d.toNat ⟨0, 0⟩).x * alpha,
            cur.y * (1 - alpha) + (meshUVs.getD d.toNat ⟨0, 0⟩).y * alpha, 0⟩ : V3f))
          curs D)) := by
  intro D
  induction D with
  | nil =>
    intro pre curs hc _
    have : curs = [] := List.eq_nil_of_length_eq_zero hc
    subst this
    simp [uvsBlend]
  | cons d D ih =>
    intro pre curs hc hr
    match curs, hc with
    | c :: cs, hc =>
      have hd := hr d (by simp)
      have huv : uvAt meshUVs d = some (meshUVs.getD d.toNat ⟨0, 0⟩) := by
        unfold uvAt
        rw [if_pos hd.1, List.getElem?_eq_getElem hd.2, List.getD_eq_getElem _ _ hd.2]
      have hbuf : flat3 (pre ++ c :: cs) = flat3 pre ++ c.x :: c.y :: c.z :: flat3 cs := by
        simp only [flat3_append, flat3]
      have ho : 3 * pre.length = (flat3 pre).length := (length_flat3 pre).symm
      have hlen : (flat3 pre).length + 2 < (flat3 pre ++ c.x :: c.y :: c.z :: flat3 cs).length := by
        simp
      have hr0 : (flat3 pre ++ c.x :: c.y :: c.z :: flat3 cs).getD (flat3 pre).length 0 = c.x := by
        have h := getD_append_length (flat3 pre) (c.x :: c.y :: c.z :: flat3 cs) 0
        rw [Nat.add_zero] at h
        rw [h]; rfl
      have hstep := set3_append (flat3 pre) (flat3 cs) c.x c.y c.z
        (c.x * (1 - alpha) + (meshUVs.getD d.toNat ⟨0, 0⟩).x * alpha)
        (c.y * (1 - alpha) + (meshUVs.getD d.toNat ⟨0, 0⟩).y * alpha) 0
      have e : (flat3 pre).length + 3 = 3 * (pre ++ [(⟨c.x * (1 - alpha) +
          (meshUVs.getD d.toNat ⟨0, 0⟩).x * alpha,
          c.y * (1 - alpha) + (meshUVs.getD d.toNat ⟨0, 0⟩).y * alpha, 0⟩ : V3f)]).length := by
        rw [length_flat3]
        simp only [List.length_append, List.length_singleton]; omega
      rw [hbuf, ho]
      simp only [uvsBlend, huv, hlen, if_true, hr0, getD_set_append_succ, hstep]
      have hnext : flat3 pre ++ (c.x * (1 - alpha) + (meshUVs.getD d.toNat ⟨0, 0⟩).x * alpha) ::
          (c.y * (1 - alpha) + (meshUVs.getD d.toNat ⟨0, 0⟩).y * alpha) :: 0 :: flat3 cs =
          flat3 ((pre ++ [(⟨c.x * (1 - alpha) + (meshUVs.getD d.toNat ⟨0, 0⟩).x * alpha,
            c.y * (1 - alpha) + (meshUVs.getD d.toNat ⟨0, 0⟩).y * alpha, 0⟩ : V3f)]) ++ cs) := by
        simp only [flat3_append, flat3, List.append_assoc, List.cons_append, List.nil_append]
      rw [hnext, e, ih _ cs (by simpa using hc) (fun x hx => hr x (by simp [hx]))]
      simp

/-- The vector `mUvVec[uvI]` before the indexing loop, in closed form. -/
theorem Save.uvVec_eq (m : Machine) (sampleLookup : List Int) (sampleCount : Nat)
    (uvValues : List Scalar) (prev : List V2f) :
    Save.uvVec m sampleLookup sampleCount uvValues prev =
      (List.range sampleCount).map (fun i =>
        (⟨m.narrow (floatAt uvValues (sampleLookup.getD i 0 * 3 + 0)),
          m.narrow (floatAt uvValues (sampleLookup.getD i 0 * 3 + 1))⟩ : V2f)) := by
  unfold Save.uvVec
  rw [fillLoop_eq _ _ _ (length_vecResize _ _ _)]

theorem flatten_reverse_perm {α : Type} (fs : List (List α)) :
    ((fs.map List.reverse).flatten).Perm fs.flatten := by
  induction fs with
  | nil => exact List.Perm.refl _
  | cons f fs ih =>
    simp only [List.map_cons, List.flatten_cons]
    exact List.Perm.append (List.reverse_perm f) ih

/-- Where `Save.uvStore` puts the sample. -/
theorem Save.uvStore_written (n : Nat) (st st1 : UvState) (uvI : Nat) (smp : UvSample)
    (h : Save.uvStore n st uvI smp = some st1) :
    (uvI = 0 ∧ st1.meshUVs = some smp) ∨
    (uvI ≠ 0 ∧ ∃ p, st1.mUvParams[uvI - 1]? = some p ∧ p.getLast? = some smp) := by
  unfold Save.uvStore at h
  by_cases h0 : uvI = 0
  · rw [if_pos h0] at h
    cases h
    exact Or.inl ⟨h0, rfl⟩
  · rw [if_neg h0] at h
    simp only at h
    split at h
    · exact Option.noConfusion h
    · rename_i p hp
      cases h
      refine Or.inr ⟨h0, p ++ [smp], ?_, by simp⟩
      have hlt : uvI - 1 < (if n = 0 then st.mUvParams ++ [[]] else st.mUvParams).length := by
        by_contra hc
        rw [List.getElem?_eq_none (by omega)] at hp
        exact Option.noConfusion hp
      simp [hlt]

/-- Expanding the UV sample built from the indexing loop gives back the vector
the loop was run on. -/
theorem indexed_uv_expanded (uninit : V2f) (prevIndex : List Nat) (uvVec : List V2f)
    (hmax : uvVec.length ≤ LONG_MAX) (c : Prop) [Decidable c] (hc : c) :
    UvSample.expanded
      { vals := (indexLoop SortableV2f.lt uninit prevIndex uvVec).sortedVec.take
          (indexLoop SortableV2f.lt uninit prevIndex uvVec).sortedCount
        indices :=
          if c ∧ (indexLoop SortableV2f.lt uninit prevIndex uvVec).indexCount > 0 then
            some ((indexLoop SortableV2f.lt uninit prevIndex uvVec).indexVec.take
              (indexLoop SortableV2f.lt uninit prevIndex uvVec).indexCount)
          else none } = uvVec := by
  obtain ⟨c1, c2, _, _, _, _⟩ := indexLoop_counts keyOrder_SortableV2f uninit prevIndex uvVec hmax
  have hs := indexLoop_sample keyOrder_SortableV2f uninit prevIndex uvVec hmax
  simp only [IndexState.sample, Indexed.mk.injEq] at hs
  by_cases hpos : 0 < uvVec.length
  · rw [if_pos ⟨hc, by rw [c1]; exact hpos⟩, hs.1, hs.2]
    simp only [UvSample.expanded, List.map_map]
    conv_rhs => rw [← List.map_id uvVec]
    apply List.map_congr_left
    intro w hw
    have hmem : w ∈ firstOccurrences uvVec := (mem_firstOccurrences _ w).2 hw
    have hlt := List.indexOf_lt_length.2 hmem
    simp only [Function.comp_apply, id_eq]
    rw [List.getD_eq_getElem _ _ hlt, List.getElem_indexOf hlt]
  · have h0 : uvVec = [] := List.eq_nil_of_length_eq_zero (by omega)
    have hc0 : (indexLoop SortableV2f.lt uninit prevIndex uvVec).sortedCount = 0 := by
      rw [h0] at c2 ⊢
      simpa using c2
    rw [if_neg (by rw [c1]; rintro ⟨_, h⟩; exact hpos h), hc0]
    simp [UvSample.expanded, h0]

/-- The sample a pass of the loop over the UV sets writes expands to the UV
vector of the pass: entry `i` holds the narrowed `u` and `v` of the node
`sampleLookup[i]`. -/
theorem Save.uvSet_sample (m : Machine) (indexedUVs : Bool) (n : Nat) (sampleLookup : List Int)
    (sampleCount : Nat) (st st1 : UvState) (uvI : Nat) (prop : UvProp)
    (hmax : sampleCount ≤ LONG_MAX)
    (h : Save.uvSet m indexedUVs n sampleLookup sampleCount st uvI prop = some st1) :
    ∃ smp : UvSample,
      smp.expanded = (List.range sampleCount).map (fun i =>
        (⟨m.narrow (floatAt prop.uvValues (sampleLookup.getD i 0 * 3 + 0)),
          m.narrow (floatAt prop.uvValues (sampleLookup.getD i 0 * 3 + 1))⟩ : V2f)) ∧
      ((uvI = 0 ∧ st1.meshUVs = some smp) ∨
        (uvI ≠ 0 ∧ ∃ p, st1.mUvParams[uvI - 1]? = some p ∧ p.getLast? = some smp)) := by
  unfold Save.uvSet at h
  cases hv : st.mUvVec[uvI]? with
  | none => rw [hv] at h; exact Option.noConfusion h
  | some prev =>
    rw [hv] at h
    simp only at h
    have hlen : (Save.uvVec m sampleLookup sampleCount prop.uvValues prev).length =
        sampleCount := by
      rw [Save.uvVec_eq]; simp
    by_cases hi : indexedUVs = true
    · rw [if_pos hi] at h
      cases hx : st.mUvIndexVec[uvI]? with
      | none => rw [hx] at h; exact Option.noConfusion h
      | some prevIndex =>
        rw [hx] at h
        simp only at h
        have hlt : uvI < st.mUvIndexVec.length := by
          by_contra hc
          rw [List.getElem?_eq_none (by omega)] at hx
          exact Option.noConfusion hx
        refine ⟨_, ?_, Save.uvStore_written _ _ _ _ _ h⟩
        rw [indexed_uv_expanded _ _ _ (by rw [hlen]; exact hmax) _
          (by rw [List.length_set]; omega), Save.uvVec_eq]
    · rw [if_neg hi] at h
      refine ⟨_, ?_, Save.uvStore_written _ _ _ _ _ h⟩
      simp only [UvSample.expanded, List.take_length]
      rw [Save.uvVec_eq]

theorem floatAt_node0 (a : List Scalar) (i : Nat) :
    floatAt a (Int.ofNat i * 3 + 0) = a.getD (i * 3) 0 := by
  have p0 : (0 : Int) ≤ Int.ofNat i * 3 + 0 := by simp only [Int.ofNat_eq_coe]; omega
  have t0 : (Int.ofNat i * 3 + 0).toNat = i * 3 := by simp only [Int.ofNat_eq_coe]; omega
  simp only [floatAt, p0, if_true, t0]

theorem floatAt_node1 (a : List Scalar) (i : Nat) :
    floatAt a (Int.ofNat i * 3 + 1) = a.getD (i * 3 + 1) 0 := by
  have p0 : (0 : Int) ≤ Int.ofNat i * 3 + 1 := by simp only [Int.ofNat_eq_coe]; omega
  have t0 : (Int.ofNat i * 3 + 1).toNat = i * 3 + 1 := by simp only [Int.ofNat_eq_coe]; omega
  simp only [floatAt, p0, if_true, t0]

/-- For a mesh whose sample indices are a permutation of the nodes: the look
table of the operator is the inverse of the look table of `Save`, and reading
the UV vector of `Save` through it gives the UVs node by node. -/
theorem uvs_round_trip (m : Machine) (faces : List PolygonFace) (n : Nat)
    (vals : List Scalar)
    (hperm : ((faces.map (fun f => f.samples)).flatten).Perm
      ((List.range n).map Int.ofNat)) :
    ∃ D, uvsSampleLookup faces n = some D ∧ D.length = n ∧
      (∀ d ∈ D, 0 ≤ d ∧ d.toNat < n) ∧
      (∀ i, i < n → (Save.sampleLookup faces n).getD (D.getD i 0).toNat 0 = Int.ofNat i) ∧
      (∀ p, p < n → D.getD ((Save.sampleLookup faces n).getD p 0).toNat 0 = Int.ofNat p) ∧
      D.map (fun d =>
        (⟨(((List.range n).map (fun i =>
            (⟨m.narrow (floatAt vals ((Save.sampleLookup faces n).getD i 0 * 3 + 0)),
              m.narrow (floatAt vals ((Save.sampleLookup faces n).getD i 0 * 3 + 1))⟩ :
              V2f))).getD d.toNat ⟨0, 0⟩).x,
          (((List.range n).map (fun i =>
            (⟨m.narrow (floatAt vals ((Save.sampleLookup faces n).getD i 0 * 3 + 0)),
              m.narrow (floatAt vals ((Save.sampleLookup faces n).getD i 0 * 3 + 1))⟩ :
              V2f))).getD d.toNat ⟨0, 0⟩).y, 0⟩ : V3f)) =
        (List.range n).map (fun i =>
          (⟨m.narrow (vals.getD (i * 3) 0), m.narrow (vals.getD (i * 3 + 1) 0), 0⟩ : V3f)) := by
  have hRlen : ((List.range n).map Int.ofNat).length = n := by simp
  have htotal : (faces.map (fun f => f.samples.length)).sum = n := by
    have := hperm.length_eq
    rw [hRlen] at this
    simpa [List.length_flatten, Function.comp_def] using this
  have hL : Save.sampleLookup faces n = (faces.map (fun f => f.samples.reverse)).flatten :=
    Save.sampleLookup_eq faces n htotal.symm
  have hLperm : ((faces.map (fun f => f.samples.reverse)).flatten).Perm
      ((List.range n).map Int.ofNat) := by
    have h1 := flatten_reverse_perm (faces.map (fun f => f.samples))
    simp only [List.map_map, Function.comp_def] at h1
    exact h1.trans hperm
  have hRnodup : ((List.range n).map Int.ofNat).Nodup :=
    List.Nodup.map (fun a b h => Int.ofNat.inj h) (List.nodup_range n)
  have hLnodup := (hLperm.nodup_iff).2 hRnodup
  have hLlen : ((faces.map (fun f => f.samples.reverse)).flatten).length = n := by
    rw [hLperm.length_eq, hRlen]
  have hRmem : ∀ x, x ∈ (List.range n).map Int.ofNat → 0 ≤ x ∧ x.toNat < n := by
    intro x hx
    simp only [List.mem_map, List.mem_range] at hx
    obtain ⟨k, hk, rfl⟩ := hx
    simp only [Int.ofNat_eq_coe]
    omega
  have hfaces : ∀ f ∈ faces, ∀ x ∈ f.samples, 0 ≤ x ∧ x.toNat < n := by
    intro f hf x hx
    apply hRmem
    apply hperm.subset
    simp only [List.mem_flatten, List.mem_map]
    exact ⟨f.samples, ⟨f, hf, rfl⟩, hx⟩
  have hD : uvsSampleLookup faces n =
      some (lookupFold (List.replicate n 0, 0)
        (faces.map (fun f => f.samples.reverse)).flatten).1 := by
    unfold uvsSampleLookup
    rw [uvsSampleLookup_eq n faces (List.replicate n 0, 0) (by simp) hfaces]
    rfl
  obtain ⟨s1, _⟩ := lookupFold_spec (faces.map (fun f => f.samples.reverse)).flatten
    (List.replicate n 0) 0 hLnodup
    (fun x hx => by rw [List.length_replicate]; exact hRmem x (hLperm.subset hx))
  have hDlen : (lookupFold (List.replicate n 0, 0)
      (faces.map (fun f => f.samples.reverse)).flatten).1.length = n := by
    rw [length_lookupFold]; simp
  -- every node is looked up at the place the encoder put it
  have hinv : ∀ i, i < n → ∃ p, p < n ∧
      ((faces.map (fun f => f.samples.reverse)).flatten).getD p 0 = Int.ofNat i ∧
      (lookupFold (List.replicate n 0, 0)
        (faces.map (fun f => f.samples.reverse)).flatten).1.getD i 0 = Int.ofNat p := by
    intro i hi
    have hmem : Int.ofNat i ∈ (faces.map (fun f => f.samples.reverse)).flatten := by
      apply hLperm.symm.subset
      simp only [List.mem_map, List.mem_range]
      exact ⟨i, hi, rfl⟩
    obtain ⟨p, hp, hpe⟩ := List.getElem_of_mem hmem
    have h1 := s1 p hp
    rw [hpe] at h1
    refine ⟨p, by omega, by rw [List.getD_eq_getElem _ _ hp, hpe], ?_⟩
    rw [zero_add] at h1
    exact h1
  refine ⟨_, hD, hDlen, ?_, ?_, ?_, ?_⟩
  · intro d hd
    obtain ⟨i, hi, rfl⟩ := List.getElem_of_mem hd
    rw [hDlen] at hi
    obtain ⟨p, hp, _, h2⟩ := hinv i hi
    rw [List.getD_eq_getElem _ _ (by rw [hDlen]; exact hi)] at h2
    rw [h2]
    simp only [Int.ofNat_eq_coe]
    omega
  · intro i hi
    obtain ⟨p, hp, h1, h2⟩ := hinv i hi
    rw [hL, h2]
    exact h1
  · intro p hp
    have hp2 : p < ((faces.map (fun f => f.samples.reverse)).flatten).length := by
      rw [hLlen]; exact hp
    have h1 := s1 p hp2
    have hg : ((faces.map (fun f => f.samples.reverse)).flatten).getD p 0 =
        ((faces.map (fun f => f.samples.reverse)).flatten)[p] := List.getD_eq_getElem _ _ hp2
    rw [hL, hg, h1, zero_add]
    rfl
  · apply List.ext_getElem
    · simp [hDlen]
    · intro i h1 h2
      have hi : i < n := by simpa using h2
      obtain ⟨p, hp, k1, k2⟩ := hinv i hi
      rw [List.getD_eq_getElem _ _ (by rw [hDlen]; exact hi)] at k2
      have ht : (Int.ofNat p).toNat = p := rfl
      simp only [List.getElem_map, List.getElem_range, k2, ht]
      rw [List.getD_eq_getElem _ _ (by simp; exact hp)]
      simp only [List.getElem_map, List.getElem_range, hL, k1, floatAt_node0, floatAt_node1]

end UvsLookup

/-! ## The claims -/

/-- C1 (dedup correctness). For every sequence of normals, and for every sequence
of UVs, that the indexing loop of `Save` receives (its length fits the host
count type `LONG`), and for all positions `i`, `j` of the input: the expansions
`table[indices[i]]` and `table[indices[j]]` exist, and they are equal if and
only if `input[i]` and `input[j]` are equal; moreover the two positions carry
the same index if and only if their values are equal. -/
theorem C1_dedup_correctness :
    (∀ (uninit : V3f) (normalVec : List V3f), normalVec.length ≤ LONG_MAX →
      ∀ i j : Nat, i < normalVec.length → j < normalVec.length →
        ((Save.indexedNormals uninit normalVec).expand i).isSome = true ∧
        ((Save.indexedNormals uninit normalVec).expand j).isSome = true ∧
        ((Save.indexedNormals uninit normalVec).expand i = (Save.indexedNormals uninit normalVec).expand j ↔
          normalVec[i]? = normalVec[j]?) ∧
        ((Save.indexedNormals uninit normalVec).indices[i]? = (Save.indexedNormals uninit normalVec).indices[j]? ↔
          normalVec[i]? = normalVec[j]?)) ∧
    (∀ (uninit : V2f) (prevIndex : List Nat) (uvVec : List V2f), uvVec.length ≤ LONG_MAX →
      ∀ i j : Nat, i < uvVec.length → j < uvVec.length →
        ((Save.indexedUVs uninit prevIndex uvVec).expand i).isSome = true ∧
        ((Save.indexedUVs uninit prevIndex uvVec).expand j).isSome = true ∧
        ((Save.indexedUVs uninit prevIndex uvVec).expand i = (Save.indexedUVs uninit prevIndex uvVec).expand j ↔
          uvVec[i]? = uvVec[j]?) ∧
        ((Save.indexedUVs uninit prevIndex uvVec).indices[i]? =
            (Save.indexedUVs uninit prevIndex uvVec).indices[j]? ↔
          uvVec[i]? = uvVec[j]?)) := by
  constructor
  · intro uninit normalVec hmax i j hi hj
    have ei := expand_indexLoop keyOrder_SortableV3f uninit [] normalVec hmax i hi
    have ej := expand_indexLoop keyOrder_SortableV3f uninit [] normalVec hmax j hj
    have hx := indices_indexLoop keyOrder_SortableV3f uninit [] normalVec hmax i j hi hj
    unfold Save.indexedNormals
    rw [ei, ej]
    exact ⟨by simp [hi], by simp [hj], Iff.rfl, hx⟩
  · intro uninit prevIndex uvVec hmax i j hi hj
    have ei := expand_indexLoop keyOrder_SortableV2f uninit prevIndex uvVec hmax i hi
    have ej := expand_indexLoop keyOrder_SortableV2f uninit prevIndex uvVec hmax j hj
    have hx := indices_indexLoop keyOrder_SortableV2f uninit prevIndex uvVec hmax i j hi hj
    unfold Save.indexedUVs
    rw [ei, ej]
    exact ⟨by simp [hi], by simp [hj], Iff.rfl, hx⟩

/-- Witness of C1: three normals with a repetition, positions 0 and 2, and three
UVs written over a stale index vector, positions 0 and 1. -/
theorem C1_dedup_correctness_witness :
    (([⟨1, 0, 0⟩, ⟨0, 1, 0⟩, ⟨1, 0, 0⟩] : List V3f).length ≤ LONG_MAX ∧
      ((Save.indexedNormals ⟨9, 9, 9⟩ [⟨1, 0, 0⟩, ⟨0, 1, 0⟩, ⟨1, 0, 0⟩]).expand 0).isSome = true ∧
      ((Save.indexedNormals ⟨9, 9, 9⟩ [⟨1, 0, 0⟩, ⟨0, 1, 0⟩, ⟨1, 0, 0⟩]).expand 2).isSome = true ∧
      ((Save.indexedNormals ⟨9, 9, 9⟩ [⟨1, 0, 0⟩, ⟨0, 1, 0⟩, ⟨1, 0, 0⟩]).expand 0 =
          (Save.indexedNormals ⟨9, 9, 9⟩ [⟨1, 0, 0⟩, ⟨0, 1, 0⟩, ⟨1, 0, 0⟩]).expand 2 ↔
        ([⟨1, 0, 0⟩, ⟨0, 1, 0⟩, ⟨1, 0, 0⟩] : List V3f)[0]? =
          ([⟨1, 0, 0⟩, ⟨0, 1, 0⟩, ⟨1, 0, 0⟩] : List V3f)[2]?) ∧
      ((Save.indexedNormals ⟨9, 9, 9⟩ [⟨1, 0, 0⟩, ⟨0, 1, 0⟩, ⟨1, 0, 0⟩]).indices[0]? =
          (Save.indexedNormals ⟨9, 9, 9⟩ [⟨1, 0, 0⟩, ⟨0, 1, 0⟩, ⟨1, 0, 0⟩]).indices[2]? ↔
        ([⟨1, 0, 0⟩, ⟨0, 1, 0⟩, ⟨1, 0, 0⟩] : List V3f)[0]? =
          ([⟨1, 0, 0⟩, ⟨0, 1, 0⟩, ⟨1, 0, 0⟩] : List V3f)[2]?)) ∧
    (([⟨0, 1⟩, ⟨1, 1⟩, ⟨0, 1⟩] : List V2f).length ≤ LONG_MAX ∧
      ((Save.indexedUVs ⟨9, 9⟩ [7, 7, 7, 7] [⟨0, 1⟩, ⟨1, 1⟩, ⟨0, 1⟩]).expand 0).isSome = true ∧
      ((Save.indexedUVs ⟨9, 9⟩ [7, 7, 7, 7] [⟨0, 1⟩, ⟨1, 1⟩, ⟨0, 1⟩]).expand 1).isSome = true ∧
      ((Save.indexedUVs ⟨9, 9⟩ [7, 7, 7, 7] [⟨0, 1⟩, ⟨1, 1⟩, ⟨0, 1⟩]).expand 0 =
          (Save.indexedUVs ⟨9, 9⟩ [7, 7, 7, 7] [⟨0, 1⟩, ⟨1, 1⟩, ⟨0, 1⟩]).expand 1 ↔
        ([⟨0, 1⟩, ⟨1, 1⟩, ⟨0, 1⟩] : List V2f)[0]? = ([⟨0, 1⟩, ⟨1, 1⟩, ⟨0, 1⟩] : List V2f)[1]?) ∧
      ((Save.indexedUVs ⟨9, 9⟩ [7, 7, 7, 7] [⟨0, 1⟩, ⟨1, 1⟩, ⟨0, 1⟩]).indices[0]? =
          (Save.indexedUVs ⟨9, 9⟩ [7, 7, 7, 7] [⟨0, 1⟩, ⟨1, 1⟩, ⟨0, 1⟩]).indices[1]? ↔
        ([⟨0, 1⟩, ⟨1, 1⟩, ⟨0, 1⟩] : List V2f)[0]? = ([⟨0, 1⟩, ⟨1, 1⟩, ⟨0, 1⟩] : List V2f)[1]?)) :=
  ⟨⟨by decide, C1_dedup_correctness.1 ⟨9, 9, 9⟩ [⟨1, 0, 0⟩, ⟨0, 1, 0⟩, ⟨1, 0, 0⟩] (by decide) 0 2
      (by decide) (by decide)⟩,
    ⟨by decide, C1_dedup_correctness.2 ⟨9, 9⟩ [7, 7, 7, 7] [⟨0, 1⟩, ⟨1, 1⟩, ⟨0, 1⟩] (by decide) 0 1
      (by decide) (by decide)⟩⟩

/-- C2 (first-occurrence table order). For every input sequence of normals, and
of UVs, the table the loop produces (the first `sortedNormalCount` or
`sortedUVCount` entries of the sorted vector) holds every value of the input
exactly once and no other value, and lists the values in the order of their
first occurrence in the input. -/
theorem C2_first_occurrence_order :
    (∀ (uninit : V3f) (normalVec : List V3f), normalVec.length ≤ LONG_MAX →
      (∀ v : V3f, (Save.indexedNormals uninit normalVec).vals.count v = if v ∈ normalVec then 1 else 0) ∧
      List.Pairwise (fun a b => normalVec.indexOf a < normalVec.indexOf b)
        (Save.indexedNormals uninit normalVec).vals) ∧
    (∀ (uninit : V2f) (prevIndex : List Nat) (uvVec : List V2f), uvVec.length ≤ LONG_MAX →
      (∀ v : V2f, (Save.indexedUVs uninit prevIndex uvVec).vals.count v = if v ∈ uvVec then 1 else 0) ∧
      List.Pairwise (fun a b => uvVec.indexOf a < uvVec.indexOf b)
        (Save.indexedUVs uninit prevIndex uvVec).vals) := by
  constructor
  · intro uninit normalVec hmax
    unfold Save.indexedNormals
    rw [indexLoop_sample keyOrder_SortableV3f uninit [] normalVec hmax]
    exact ⟨count_firstOccurrences normalVec, pairwise_firstOccurrences normalVec⟩
  · intro uninit prevIndex uvVec hmax
    unfold Save.indexedUVs
    rw [indexLoop_sample keyOrder_SortableV2f uninit prevIndex uvVec hmax]
    exact ⟨count_firstOccurrences uvVec, pairwise_firstOccurrences uvVec⟩

/-- Witness of C2 on three normals and three UVs, each with a repetition. -/
theorem C2_first_occurrence_order_witness :
    (([⟨1, 0, 0⟩, ⟨0, 1, 0⟩, ⟨1, 0, 0⟩] : List V3f).length ≤ LONG_MAX ∧
      (∀ v : V3f, (Save.indexedNormals ⟨9, 9, 9⟩ [⟨1, 0, 0⟩, ⟨0, 1, 0⟩, ⟨1, 0, 0⟩]).vals.count v =
        if v ∈ ([⟨1, 0, 0⟩, ⟨0, 1, 0⟩, ⟨1, 0, 0⟩] : List V3f) then 1 else 0) ∧
      List.Pairwise
        (fun a b => ([⟨1, 0, 0⟩, ⟨0, 1, 0⟩, ⟨1, 0, 0⟩] : List V3f).indexOf a <
          ([⟨1, 0, 0⟩, ⟨0, 1, 0⟩, ⟨1, 0, 0⟩] : List V3f).indexOf b)
        (Save.indexedNormals ⟨9, 9, 9⟩ [⟨1, 0, 0⟩, ⟨0, 1, 0⟩, ⟨1, 0, 0⟩]).vals) ∧
    (([⟨0, 1⟩, ⟨1, 1⟩, ⟨0, 1⟩] : List V2f).length ≤ LONG_MAX ∧
      (∀ v : V2f, (Save.indexedUVs ⟨9, 9⟩ [7, 7, 7, 7] [⟨0, 1⟩, ⟨1, 1⟩, ⟨0, 1⟩]).vals.count v =
        if v ∈ ([⟨0, 1⟩, ⟨1, 1⟩, ⟨0, 1⟩] : List V2f) then 1 else 0) ∧
      List.Pairwise
        (fun a b => ([⟨0, 1⟩, ⟨1, 1⟩, ⟨0, 1⟩] : List V2f).indexOf a <
          ([⟨0, 1⟩, ⟨1, 1⟩, ⟨0, 1⟩] : List V2f).indexOf b)
        (Save.indexedUVs ⟨9, 9⟩ [7, 7, 7, 7] [⟨0, 1⟩, ⟨1, 1⟩, ⟨0, 1⟩]).vals) :=
  ⟨⟨by decide, C2_first_occurrence_order.1 ⟨9, 9, 9⟩ [⟨1, 0, 0⟩, ⟨0, 1, 0⟩, ⟨1, 0, 0⟩] (by decide)⟩,
    ⟨by decide, C2_first_occurrence_order.2 ⟨9, 9⟩ [7, 7, 7, 7] [⟨0, 1⟩, ⟨1, 1⟩, ⟨0, 1⟩]
      (by decide)⟩⟩

/-- C3 (indexing idempotence). For every input sequence of normals, and of UVs,
running the indexing loop a second time on the table it produced (`k` entries)
yields the identity index sequence `0, 1, ..., k-1` and a table equal to the one
fed in. -/
theorem C3_indexing_idempotence :
    (∀ (uninit uninit2 : V3f) (normalVec : List V3f), normalVec.length ≤ LONG_MAX →
      Save.indexedNormals uninit2 (Save.indexedNormals uninit normalVec).vals =
        { vals := (Save.indexedNormals uninit normalVec).vals
          indices := List.range (Save.indexedNormals uninit normalVec).vals.length }) ∧
    (∀ (uninit uninit2 : V2f) (prevIndex prevIndex2 : List Nat) (uvVec : List V2f),
      uvVec.length ≤ LONG_MAX →
      Save.indexedUVs uninit2 prevIndex2 (Save.indexedUVs uninit prevIndex uvVec).vals =
        { vals := (Save.indexedUVs uninit prevIndex uvVec).vals
          indices := List.range (Save.indexedUVs uninit prevIndex uvVec).vals.length }) := by
  constructor
  · intro uninit uninit2 normalVec hmax
    unfold Save.indexedNormals
    rw [indexLoop_sample keyOrder_SortableV3f uninit [] normalVec hmax]
    exact indexLoop_of_nodup keyOrder_SortableV3f uninit2 [] _
      (le_trans (length_firstOccurrences_le normalVec) hmax) (nodup_firstOccurrences normalVec)
  · intro uninit uninit2 prevIndex prevIndex2 uvVec hmax
    unfold Save.indexedUVs
    rw [indexLoop_sample keyOrder_SortableV2f uninit prevIndex uvVec hmax]
    exact indexLoop_of_nodup keyOrder_SortableV2f uninit2 prevIndex2 _
      (le_trans (length_firstOccurrences_le uvVec) hmax) (nodup_firstOccurrences uvVec)

/-- Witness of C3 on three normals and three UVs, each with a repetition. -/
theorem C3_indexing_idempotence_witness :
    (([⟨1, 0, 0⟩, ⟨0, 1, 0⟩, ⟨1, 0, 0⟩] : List V3f).length ≤ LONG_MAX ∧
      Save.indexedNormals ⟨8, 8, 8⟩ (Save.indexedNormals ⟨9, 9, 9⟩ [⟨1, 0, 0⟩, ⟨0, 1, 0⟩, ⟨1, 0, 0⟩]).vals =
        { vals := (Save.indexedNormals ⟨9, 9, 9⟩ [⟨1, 0, 0⟩, ⟨0, 1, 0⟩, ⟨1, 0, 0⟩]).vals
          indices :=
            List.range (Save.indexedNormals ⟨9, 9, 9⟩ [⟨1, 0, 0⟩, ⟨0, 1, 0⟩, ⟨1, 0, 0⟩]).vals.length }) ∧
    (([⟨0, 1⟩, ⟨1, 1⟩, ⟨0, 1⟩] : List V2f).length ≤ LONG_MAX ∧
      Save.indexedUVs ⟨8, 8⟩ [5] (Save.indexedUVs ⟨9, 9⟩ [7, 7, 7, 7] [⟨0, 1⟩, ⟨1, 1⟩, ⟨0, 1⟩]).vals =
        { vals := (Save.indexedUVs ⟨9, 9⟩ [7, 7, 7, 7] [⟨0, 1⟩, ⟨1, 1⟩, ⟨0, 1⟩]).vals
          indices :=
            List.range (Save.indexedUVs ⟨9, 9⟩ [7, 7, 7, 7] [⟨0, 1⟩, ⟨1, 1⟩, ⟨0, 1⟩]).vals.length }) :=
  ⟨⟨by decide, C3_indexing_idempotence.1 ⟨9, 9, 9⟩ ⟨8, 8, 8⟩ [⟨1, 0, 0⟩, ⟨0, 1, 0⟩, ⟨1, 0, 0⟩]
      (by decide)⟩,
    ⟨by decide, C3_indexing_idempotence.2 ⟨9, 9⟩ ⟨8, 8⟩ [7, 7, 7, 7] [5]
      [⟨0, 1⟩, ⟨1, 1⟩, ⟨0, 1⟩] (by decide)⟩⟩

/-- C4 (topology round trip). For every list of faces that is not empty and whose
first face has at least one vertex (the sample count is the host's count of face
vertices, a `LONG`): the face counts and face indices written by `Save`, fed to
the topology rebuild of `alembic_polymesh_topo_Update`, yield the polygon
description in which each face is its vertex count followed by its vertex
indices in the original input order; and the operator, reading a floor sample
with this topology, writes an output with this polygon description. -/
theorem C4_topology_round_trip (prev : TopoBuffers) (faces : List PolygonFace)
    (sampleCount : Nat) (positions : List V3f) (velocities : Option (List V3f))
    (hfirst : ∃ f rest, faces = f :: rest ∧ 0 < f.vertices.length)
    (hs : sampleCount = vertexTotal faces) (hmax : sampleCount ≤ LONG_MAX) :
    topoPolies
      { positions := positions
        velocities := velocities
        faceCounts := (Save.topology prev faces sampleCount).mFaceCountVec
        faceIndices := (Save.topology prev faces sampleCount).mFaceIndicesVec } =
      Outcome.done (faces.map (fun f => (f.vertices.length : Int) :: f.vertices)).flatten ∧
    ∀ inp : TopoInput,
      inp.floorSample =
        { positions := positions
          velocities := velocities
          faceCounts := (Save.topology prev faces sampleCount).mFaceCountVec
          faceIndices := (Save.topology prev faces sampleCount).mFaceIndicesVec } →
      ∃ pos, alembic_polymesh_topo_Update inp = Outcome.done
        (pos, (faces.map (fun f => (f.vertices.length : Int) :: f.vertices)).flatten) := by
  have hpolies : topoPolies
      { positions := positions
        velocities := velocities
        faceCounts := (Save.topology prev faces sampleCount).mFaceCountVec
        faceIndices := (Save.topology prev faces sampleCount).mFaceIndicesVec } =
      Outcome.done (faces.map (fun f => (f.vertices.length : Int) :: f.vertices)).flatten := by
    rw [Save.topology_eq prev faces sampleCount hs, if_neg (vertexTotal_pos_of_first hfirst)]
    have h := topoPolies_of_faces (faces.map (fun f => f.vertices)) positions velocities
      (by
        obtain ⟨f, rest, rfl, hf⟩ := hfirst
        exact ⟨f.vertices, rest.map (fun g => g.vertices), by simp, hf⟩)
      (by
        have e : ((faces.map (fun f => f.vertices)).map List.length).sum = vertexTotal faces := by
          simp [vertexTotal, Function.comp_def]
        rw [e, ← hs]; exact hmax)
    simpa [List.map_map, Function.comp_def] using h
  refine ⟨hpolies, ?_⟩
  intro inp hfloor
  obtain ⟨pos, hpos⟩ := topoPositions_total inp
  exact ⟨pos, (topo_Update_done_iff inp pos _).2 ⟨by rw [hfloor]; exact hpolies, hpos⟩⟩

/-- Witness of C4: a triangle and a quadrilateral written over stale member
vectors, read back at `alpha = 0`. -/
theorem C4_topology_round_trip_witness :
    topoPolies
      { positions := [⟨0, 0, 0⟩]
        velocities := none
        faceCounts := (Save.topology ⟨[9, 9, 9], [8]⟩
          [⟨[0, 1, 2], [0, 1, 2]⟩, ⟨[2, 1, 3, 4], [3, 4, 5, 6]⟩] 7).mFaceCountVec
        faceIndices := (Save.topology ⟨[9, 9, 9], [8]⟩
          [⟨[0, 1, 2], [0, 1, 2]⟩, ⟨[2, 1, 3, 4], [3, 4, 5, 6]⟩] 7).mFaceIndicesVec } =
      Outcome.done [3, 0, 1, 2, 4, 2, 1, 3, 4] :=
  (C4_topology_round_trip ⟨[9, 9, 9], [8]⟩
    [⟨[0, 1, 2], [0, 1, 2]⟩, ⟨[2, 1, 3, 4], [3, 4, 5, 6]⟩] 7
    [⟨0, 0, 0⟩] none ⟨⟨[0, 1, 2], [0, 1, 2]⟩, [⟨[2, 1, 3, 4], [3, 4, 5, 6]⟩], rfl, by decide⟩
    (by decide) (by decide)).1

/-- Counterexample to C6 as stated: for the empty list of faces the stored index
array is `[0]`, not the (empty) concatenation of the reversed faces, and the
stored face counts are `[0]`, not the (empty) list of the face sizes. -/
theorem C6_winding_reversal_counterexample :
    (Save.topology ⟨[], []⟩ [] 0).mFaceIndicesVec ≠
        (([] : List PolygonFace).map (fun f => f.vertices.reverse)).flatten ∧
      (Save.topology ⟨[], []⟩ [] 0).mFaceIndicesVec = [0] ∧
      (Save.topology ⟨[], []⟩ [] 0).mFaceCountVec = [0] := by
  decide

/-- C6 (winding reversal in the encoder), amended. For every list of faces, the
sample count being the host's count of face vertices: `Save` stores
`faceCounts[f] = n` for every face `f` of `n` vertices; when the faces have at
least one vertex in total, the stored counts are exactly the face sizes, the
stored index array is the concatenation over the faces of each face's reversed
index list, and the slice at the offset of face `f` is the reversed index list
of `f`; when they have none, the stored index array is the single entry 0 and
one count 0 is appended. -/
theorem C6_winding_reversal (prev : TopoBuffers) (faces : List PolygonFace) (sampleCount : Nat)
    (hs : sampleCount = vertexTotal faces) :
    (∀ (f : Nat) (hf : f < faces.length),
      (Save.topology prev faces sampleCount).mFaceCountVec[f]? =
        some (faces[f].vertices.length : Int)) ∧
    (vertexTotal faces ≠ 0 →
      (Save.topology prev faces sampleCount).mFaceCountVec =
        faces.map (fun f => (f.vertices.length : Int)) ∧
      (Save.topology prev faces sampleCount).mFaceIndicesVec =
        (faces.map (fun f => f.vertices.reverse)).flatten ∧
      ∀ (f : Nat) (hf : f < faces.length),
        ((Save.topology prev faces sampleCount).mFaceIndicesVec.drop
          (vertexTotal (faces.take f))).take faces[f].vertices.length =
          faces[f].vertices.reverse) ∧
    (vertexTotal faces = 0 →
      (Save.topology prev faces sampleCount).mFaceCountVec =
        faces.map (fun f => (f.vertices.length : Int)) ++ [0] ∧
      (Save.topology prev faces sampleCount).mFaceIndicesVec = [0]) := by
  rw [Save.topology_eq prev faces sampleCount hs]
  refine ⟨?_, ?_, ?_⟩
  · intro f hf
    by_cases h0 : vertexTotal faces = 0
    · rw [if_pos h0]
      simp [List.getElem?_append_left, hf]
    · rw [if_neg h0]
      simp [hf]
  · intro h0
    rw [if_neg h0]
    refine ⟨rfl, rfl, ?_⟩
    intro f hf
    have h := flatten_slice (faces.map (fun f => f.vertices.reverse)) f (by simpa using hf)
    have e : (((faces.map (fun f => f.vertices.reverse)).take f).map List.length).sum =
        vertexTotal (faces.take f) := by
      simp [vertexTotal, List.map_take, Function.comp_def]
    rw [e] at h
    simpa using h
  · intro h0
    rw [if_pos h0]
    exact ⟨rfl, rfl⟩

/-- Witness of C6: a triangle and a quadrilateral written over stale member
vectors; the counts, the index array, and the slice of the second face. -/
theorem C6_winding_reversal_witness :
    (Save.topology ⟨[9, 9, 9], [8]⟩
        [⟨[0, 1, 2], [0, 1, 2]⟩, ⟨[2, 1, 3, 4], [3, 4, 5, 6]⟩] 7).mFaceCountVec = [3, 4] ∧
      (Save.topology ⟨[9, 9, 9], [8]⟩
        [⟨[0, 1, 2], [0, 1, 2]⟩, ⟨[2, 1, 3, 4], [3, 4, 5, 6]⟩] 7).mFaceIndicesVec =
        [2, 1, 0, 4, 3, 1, 2] ∧
      ((Save.topology ⟨[9, 9, 9], [8]⟩
        [⟨[0, 1, 2], [0, 1, 2]⟩, ⟨[2, 1, 3, 4], [3, 4, 5, 6]⟩] 7).mFaceIndicesVec.drop 3).take 4 =
        [4, 3, 1, 2] :=
  have h := (C6_winding_reversal ⟨[9, 9, 9], [8]⟩
    [⟨[0, 1, 2], [0, 1, 2]⟩, ⟨[2, 1, 3, 4], [3, 4, 5, 6]⟩] 7 (by decide)).2.1 (by decide)
  ⟨h.1, h.2.1, h.2.2 1 (by decide)⟩

/-- C7 (interpolation linearity). In `alembic_polymesh_topo_Update`, for a
PolyMesh stream without dynamic topology whose floor and ceil samples have equal
position counts and `alpha ≠ 0`: every output position component is
`p_floor * (1 - alpha) + p_ceil * alpha` (the output is written whenever the
topology part yields a polygon description), and at `alpha = 1/2` it is the
arithmetic mean of the floor and ceil components. -/
theorem C7_interpolation_linearity (inp : TopoInput) (hpm : inp.isPolyMesh = true)
    (hdyn : inp.hasDynamicTopo = false)
    (hlen : inp.ceilSample.positions.length = inp.floorSample.positions.length)
    (hα : inp.alpha ≠ 0) :
    (∀ out, alembic_polymesh_topo_Update inp = Outcome.done out →
      out.1.length = inp.floorSample.positions.length ∧
      out.1 = List.zipWith
        (fun p q => (⟨p.x * (1 - inp.alpha) + q.x * inp.alpha,
          p.y * (1 - inp.alpha) + q.y * inp.alpha,
          p.z * (1 - inp.alpha) + q.z * inp.alpha⟩ : V3f))
        inp.floorSample.positions inp.ceilSample.positions) ∧
    (∀ polies, topoPolies inp.floorSample = Outcome.done polies →
      alembic_polymesh_topo_Update inp = Outcome.done
        (List.zipWith
          (fun p q => (⟨p.x * (1 - inp.alpha) + q.x * inp.alpha,
            p.y * (1 - inp.alpha) + q.y * inp.alpha,
            p.z * (1 - inp.alpha) + q.z * inp.alpha⟩ : V3f))
          inp.floorSample.positions inp.ceilSample.positions, polies)) ∧
    (inp.alpha = 1 / 2 → ∀ out, alembic_polymesh_topo_Update inp = Outcome.done out →
      out.1 = List.zipWith
        (fun p q => (⟨(p.x + q.x) / 2, (p.y + q.y) / 2, (p.z + q.z) / 2⟩ : V3f))
        inp.floorSample.positions inp.ceilSample.positions) := by
  have hpos := topoPositions_blend inp hpm hdyn hlen hα
  have hout : ∀ out, alembic_polymesh_topo_Update inp = Outcome.done out →
      out.1 = List.zipWith
        (fun p q => (⟨p.x * (1 - inp.alpha) + q.x * inp.alpha,
          p.y * (1 - inp.alpha) + q.y * inp.alpha,
          p.z * (1 - inp.alpha) + q.z * inp.alpha⟩ : V3f))
        inp.floorSample.positions inp.ceilSample.positions := by
    rintro ⟨pos, polies⟩ h
    have h2 := ((topo_Update_done_iff inp pos polies).1 h).2
    rw [hpos] at h2
    exact (Option.some.inj h2).symm
  refine ⟨?_, ?_, ?_⟩
  · intro out h
    refine ⟨?_, hout out h⟩
    rw [hout out h, List.length_zipWith, hlen, Nat.min_self]
  · intro polies hp
    exact (topo_Update_done_iff inp _ polies).2 ⟨hp, hpos⟩
  · intro hhalf out h
    rw [hout out h, hhalf]
    congr 1
    funext p q
    simp only [V3f.mk.injEq]
    refine ⟨by ring, by ring, by ring⟩

/-- Witness of C7: one triangle, blended half way between two samples. -/
theorem C7_interpolation_linearity_witness :
    alembic_polymesh_topo_Update
      { isPolyMesh := true, hasDynamicTopo := false
        floorSample :=
          { positions := [⟨0, 0, 0⟩, ⟨1, 0, 0⟩, ⟨0, 1, 0⟩], velocities := none
            faceCounts := [3], faceIndices := [2, 1, 0] }
        ceilSample :=
          { positions := [⟨2, 0, 0⟩, ⟨1, 4, 0⟩, ⟨0, 1, 1⟩], velocities := none
            faceCounts := [3], faceIndices := [2, 1, 0] }
        alpha := 1 / 2, floorTime := 0, ceilTime := 1 } =
      Outcome.done ([⟨1, 0, 0⟩, ⟨1, 2, 0⟩, ⟨0, 1, 1 / 2⟩], [3, 0, 1, 2]) := by
  rw [(C7_interpolation_linearity
    { isPolyMesh := true, hasDynamicTopo := false
      floorSample :=
        { positions := [⟨0, 0, 0⟩, ⟨1, 0, 0⟩, ⟨0, 1, 0⟩], velocities := none
          faceCounts := [3], faceIndices := [2, 1, 0] }
      ceilSample :=
        { positions := [⟨2, 0, 0⟩, ⟨1, 4, 0⟩, ⟨0, 1, 1⟩], velocities := none
          faceCounts := [3], faceIndices := [2, 1, 0] }
      alpha := 1 / 2, floorTime := 0, ceilTime := 1 }
    rfl rfl rfl (by norm_num)).2.1 [3, 0, 1, 2] (by decide)]
  norm_num

/-- C8 (velocity fallback) at its failing input. The stored samples of the
spec's example (floor position `(0,0,0)` with velocity `(1,0,0)`, a ceil sample
of two positions, sample times 0 and 2, `alpha = 1/2`, static topology): read
through the PolyMesh schema the operator extrapolates to `(1,0,0)`; read through
the SubD schema it compares the floor sample with itself (line 1005 reads
`floorIndex`), takes the blend branch and leaves `(0,0,0)`. -/
theorem C8_velocity_fallback_subd_divergence :
    alembic_polymesh_topo_Update
      { isPolyMesh := true, hasDynamicTopo := false
        floorSample :=
          { positions := [⟨0, 0, 0⟩], velocities := some [⟨1, 0, 0⟩]
            faceCounts := [0], faceIndices := [0] }
        ceilSample :=
          { positions := [⟨0, 0, 0⟩, ⟨5, 5, 5⟩], velocities := none
            faceCounts := [0], faceIndices := [0] }
        alpha := 1 / 2, floorTime := 0, ceilTime := 2 } =
      Outcome.done ([⟨1, 0, 0⟩], [3, 0, 0, 0]) ∧
    alembic_polymesh_topo_Update
      { isPolyMesh := false, hasDynamicTopo := false
        floorSample :=
          { positions := [⟨0, 0, 0⟩], velocities := some [⟨1, 0, 0⟩]
            faceCounts := [0], faceIndices := [0] }
        ceilSample :=
          { positions := [⟨0, 0, 0⟩, ⟨5, 5, 5⟩], velocities := none
            faceCounts := [0], faceIndices := [0] }
        alpha := 1 / 2, floorTime := 0, ceilTime := 2 } =
      Outcome.done ([⟨0, 0, 0⟩], [3, 0, 0, 0]) := by
  constructor <;>
    norm_num [alembic_polymesh_topo_Update, topoPolies, topoPositions, updateEach]

/-- C9 (incompatible bracket) at its failing input. On the PolyMesh branch and
under dynamic topology the claim holds whatever the rounding: with `alpha ≠ 0`,
the position counts of floor and ceil differing or the topology dynamic, and no
velocity array of the floor count, the positions are the floor positions as
read. On the SubD branch with static topology the operator compares the floor
sample with itself (line 1005 reads `floorIndex`), so the test of line 1009
succeeds although the ceil sample has another count, and lines 1013-1015 put
`ialpha * p + alpha * p` in `double`: for a triangle with the floor positions
`(3,0,0)`, `(0,3,0)`, `(0,0,3)`, a ceil sample of four positions, no velocities
and `alpha = 5404319552844595 / 2^54` (the `double` 0.3) every 3 comes out as
`6755399441055743 / 2^51` (2.9999999999999996). The same stored samples read
through the PolyMesh schema give the floor positions. -/
theorem C9_incompatible_bracket_divergence :
    (∀ (fl : Scalar → Scalar) (inp : TopoInput), inp.alpha ≠ 0 →
      (inp.ceilSample.positions.length ≠ inp.floorSample.positions.length ∨
        inp.hasDynamicTopo = true) →
      (inp.floorSample.velocities = none ∨
        ∃ vel, inp.floorSample.velocities = some vel ∧
          vel.length ≠ inp.floorSample.positions.length) →
      (inp.isPolyMesh = true ∨ inp.hasDynamicTopo = true) →
      topoPositionsFl fl inp = some inp.floorSample.positions) ∧
    alembic_polymesh_topo_UpdateFl roundDouble
      { isPolyMesh := true, hasDynamicTopo := false
        floorSample :=
          { positions := [⟨3, 0, 0⟩, ⟨0, 3, 0⟩, ⟨0, 0, 3⟩], velocities := none
            faceCounts := [3], faceIndices := [2, 1, 0] }
        ceilSample :=
          { positions := [⟨3, 0, 0⟩, ⟨0, 3, 0⟩, ⟨0, 0, 3⟩, ⟨1, 1, 1⟩], velocities := none
            faceCounts := [3], faceIndices := [2, 1, 0] }
        alpha := 5404319552844595 / 2 ^ 54, floorTime := 0, ceilTime := 1 } =
      Outcome.done ([⟨3, 0, 0⟩, ⟨0, 3, 0⟩, ⟨0, 0, 3⟩], [3, 0, 1, 2]) ∧
    alembic_polymesh_topo_UpdateFl roundDouble
      { isPolyMesh := false, hasDynamicTopo := false
        floorSample :=
          { positions := [⟨3, 0, 0⟩, ⟨0, 3, 0⟩, ⟨0, 0, 3⟩], velocities := none
            faceCounts := [3], faceIndices := [2, 1, 0] }
        ceilSample :=
          { positions := [⟨3, 0, 0⟩, ⟨0, 3, 0⟩, ⟨0, 0, 3⟩, ⟨1, 1, 1⟩], velocities := none
            faceCounts := [3], faceIndices := [2, 1, 0] }
        alpha := 5404319552844595 / 2 ^ 54, floorTime := 0, ceilTime := 1 } =
      Outcome.done
        ([⟨6755399441055743 / 2 ^ 51, 0, 0⟩, ⟨0, 6755399441055743 / 2 ^ 51, 0⟩,
          ⟨0, 0, 6755399441055743 / 2 ^ 51⟩], [3, 0, 1, 2]) ∧
    (6755399441055743 / 2 ^ 51 : Scalar) ≠ 3 := by
  have hia : roundDouble (1 - 5404319552844595 / 2 ^ 54) = 3152519739159347 / 2 ^ 52 := by
    rw [roundDouble_eq _ (-1) 6305039478318694 (by norm_num) (by norm_num) (by norm_num)
      (roundHalfEven_tie_even _ 6305039478318694 (by norm_num) (by norm_num))]
    norm_num
  have h1 : roundDouble (3152519739159347 / 2 ^ 52 * 3) = 1182194902184755 / 2 ^ 49 := by
    rw [roundDouble_eq _ 1 4728779608739020 (by norm_num) (by norm_num) (by norm_num)
      (roundHalfEven_tie_even _ 4728779608739020 (by norm_num) (by norm_num))]
    norm_num
  have h2 : roundDouble (5404319552844595 / 2 ^ 54 * 3) = 2026619832316723 / 2 ^ 51 := by
    rw [roundDouble_eq _ (-1) 8106479329266892 (by norm_num) (by norm_num) (by norm_num)
      (roundHalfEven_tie_even _ 8106479329266892 (by norm_num) (by norm_num))]
    norm_num
  have h3 : roundDouble (1182194902184755 / 2 ^ 49 + 2026619832316723 / 2 ^ 51) =
      6755399441055743 / 2 ^ 51 := by
    rw [roundDouble_eq _ 1 6755399441055743 (by norm_num) (by norm_num) (by norm_num)
      (by
        have e : ((1182194902184755 / 2 ^ 49 + 2026619832316723 / 2 ^ 51 : Scalar)) /
            2 ^ ((1 : Int) - 52) = ((6755399441055743 : Int) : Scalar) := by norm_num
        rw [e, roundHalfEven_intCast])]
    norm_num
  have hp : topoPolies
      { positions := [⟨3, 0, 0⟩, ⟨0, 3, 0⟩, ⟨0, 0, 3⟩], velocities := none
        faceCounts := [3], faceIndices := [2, 1, 0] } = Outcome.done [3, 0, 1, 2] := by
    decide
  refine ⟨topoPositionsFl_incompatible, ?_, ?_, by norm_num⟩
  · have hpos := topoPositionsFl_incompatible roundDouble
      { isPolyMesh := true, hasDynamicTopo := false
        floorSample :=
          { positions := [⟨3, 0, 0⟩, ⟨0, 3, 0⟩, ⟨0, 0, 3⟩], velocities := none
            faceCounts := [3], faceIndices := [2, 1, 0] }
        ceilSample :=
          { positions := [⟨3, 0, 0⟩, ⟨0, 3, 0⟩, ⟨0, 0, 3⟩, ⟨1, 1, 1⟩], velocities := none
            faceCounts := [3], faceIndices := [2, 1, 0] }
        alpha := 5404319552844595 / 2 ^ 54, floorTime := 0, ceilTime := 1 }
      (by norm_num) (Or.inl (by decide)) (Or.inl rfl) (Or.inl rfl)
    simp only [alembic_polymesh_topo_UpdateFl, hp, hpos]
  · have hpos := topoPositionsFl_subd_static roundDouble
      { isPolyMesh := false, hasDynamicTopo := false
        floorSample :=
          { positions := [⟨3, 0, 0⟩, ⟨0, 3, 0⟩, ⟨0, 0, 3⟩], velocities := none
            faceCounts := [3], faceIndices := [2, 1, 0] }
        ceilSample :=
          { positions := [⟨3, 0, 0⟩, ⟨0, 3, 0⟩, ⟨0, 0, 3⟩, ⟨1, 1, 1⟩], velocities := none
            faceCounts := [3], faceIndices := [2, 1, 0] }
        alpha := 5404319552844595 / 2 ^ 54, floorTime := 0, ceilTime := 1 }
      (by norm_num) rfl rfl
    simp only [List.map, mul_zero, roundDouble_zero, add_zero, zero_add, hia, h1, h2, h3] at hpos
    simp only [alembic_polymesh_topo_UpdateFl, hp, hpos]

/-- C10 (shape mismatch in the point cache decoder) at its failing inputs. With
`alpha = 1/2` and a ceil sample of one position against a floor sample (and an
input mesh) of two, the operator blends the first position and writes
`(1,0,0), (0,0,0)` instead of the floor positions; with a ceil sample of two
positions against a floor sample of one, the blend loop leaves the position
array. The loop of lines 622-623 runs over the ceil count without comparing it
with the floor count. -/
theorem C10_shape_mismatch_divergence :
    alembic_polymesh_Update
      { floorPositions := [⟨0, 0, 0⟩, ⟨0, 0, 0⟩], ceilPositions := [⟨2, 0, 0⟩]
        alpha := 1 / 2, inPositions := [⟨5, 5, 5⟩, ⟨5, 5, 5⟩] } =
      Outcome.done [⟨1, 0, 0⟩, ⟨0, 0, 0⟩] ∧
    alembic_polymesh_Update
      { floorPositions := [⟨0, 0, 0⟩], ceilPositions := [⟨2, 0, 0⟩, ⟨2, 0, 0⟩]
        alpha := 1 / 2, inPositions := [⟨5, 5, 5⟩] } =
      Outcome.fault := by
  constructor <;> norm_num [alembic_polymesh_Update, updateEach, LinearlyInterpolate]

/-- C11 (empty-input sentinel). For every snapshot with zero vertices, a call of
`Save` that builds a sample (the first sample, or an animated mesh) produces a
position array of exactly one element, `(FLT_MAX, FLT_MAX, FLT_MAX)`, and a
self-bounds box whose `min` and `max` are both the origin; the sample it stores
is the member sample carrying these two. -/
theorem C11_empty_input_sentinel (m : Machine) (job : JobOptions) (st : SaveState)
    (snap : MeshSnapshot) (hzero : snap.pos.length = 0)
    (hbuild : st.mNumSamples = 0 ∨ snap.animated = true) :
    (Save m job st snap).mMeshSample.positions = some [⟨FLT_MAX, FLT_MAX, FLT_MAX⟩] ∧
    (Save m job st snap).mMeshSample.selfBounds =
      some { min := ⟨0, 0, 0⟩, max := ⟨0, 0, 0⟩ } ∧
    (Save m job st snap).stored = st.stored ++ [(Save m job st snap).mMeshSample] := by
  obtain ⟨h1, _, h3, h4⟩ := Save_stores m job st snap hbuild
  have hnil : snap.pos = [] := List.eq_nil_of_length_eq_zero hzero
  rw [hnil, Save.posVec_nil] at h3
  rw [hnil, Save.selfBounds_nil] at h4
  exact ⟨h3, h4, h1⟩

/-- Witness of C11: the first sample of a mesh without vertices and faces,
under dynamic topology. -/
theorem C11_empty_input_sentinel_witness :
    (Save ⟨id, id, ⟨9, 9, 9⟩⟩ ⟨false, false, true, true, true⟩ SaveState.init
      { animated := false, pos := [], faces := [], sampleCount := 0, shadingNormals := []
        velocitiesData := none, toWorld := id, rotate := id }).mMeshSample.positions =
      some [⟨FLT_MAX, FLT_MAX, FLT_MAX⟩] ∧
    (Save ⟨id, id, ⟨9, 9, 9⟩⟩ ⟨false, false, true, true, true⟩ SaveState.init
      { animated := false, pos := [], faces := [], sampleCount := 0, shadingNormals := []
        velocitiesData := none, toWorld := id, rotate := id }).mMeshSample.selfBounds =
      some { min := ⟨0, 0, 0⟩, max := ⟨0, 0, 0⟩ } :=
  have h := C11_empty_input_sentinel ⟨id, id, ⟨9, 9, 9⟩⟩ ⟨false, false, true, true, true⟩
    SaveState.init
    { animated := false, pos := [], faces := [], sampleCount := 0, shadingNormals := []
      velocitiesData := none, toWorld := id, rotate := id }
    rfl (Or.inl rfl)
  ⟨h.1, h.2.1⟩

/-- C12 (empty-topology sentinel). For every call of `Save` that writes topology
(not a pure point cache call; the first sample or dynamic topology): on a mesh
whose derived face-count and face-index arrays would be empty (no face, no
sample) the stored arrays are exactly one face count 0 and one face index 0;
and in every such call, the sample count being the host's count of face
vertices, neither stored array has length zero. -/
theorem C12_empty_topology_sentinel (m : Machine) (job : JobOptions) (st : SaveState)
    (snap : MeshSnapshot) (hpc : job.exportPurePointCache = false)
    (hbuild : st.mNumSamples = 0 ∨ snap.animated = true)
    (htopo : st.mNumSamples = 0 ∨ job.exportDynamicTopology = true) :
    (snap.faces = [] → snap.sampleCount = 0 →
      (Save m job st snap).mMeshSample.faceCounts = some [0] ∧
      (Save m job st snap).mMeshSample.faceIndices = some [0]) ∧
    (snap.sampleCount = vertexTotal snap.faces →
      ∃ counts indices,
        (Save m job st snap).mMeshSample.faceCounts = some counts ∧
        (Save m job st snap).mMeshSample.faceIndices = some indices ∧
        0 < counts.length ∧ 0 < indices.length) ∧
    (Save m job st snap).stored = st.stored ++ [(Save m job st snap).mMeshSample] := by
  obtain ⟨hc, hi, _, _⟩ := (Save_topology_fields m job st snap hpc hbuild).1 htopo
  refine ⟨?_, ?_, (Save_stores m job st snap hbuild).1⟩
  · intro hfaces hzero
    have hs : snap.sampleCount = vertexTotal snap.faces := by rw [hfaces, hzero]; rfl
    have h0 : vertexTotal snap.faces = 0 := by rw [← hs, hzero]
    rw [hc, hi, Save.topology_eq _ _ _ hs, if_pos h0, hfaces]
    exact ⟨rfl, rfl⟩
  · intro hs
    refine ⟨_, _, hc, hi, ?_, ?_⟩
    · rw [Save.topology_eq _ _ _ hs]
      by_cases h0 : vertexTotal snap.faces = 0
      · rw [if_pos h0]; simp
      · rw [if_neg h0]
        cases hf : snap.faces with
        | nil => rw [hf] at h0; exact absurd rfl h0
        | cons f rest => simp
    · rw [Save.topology_eq _ _ _ hs]
      by_cases h0 : vertexTotal snap.faces = 0
      · rw [if_pos h0]; simp
      · rw [if_neg h0]
        have hlen : ((snap.faces.map (fun f => f.vertices.reverse)).flatten).length =
            vertexTotal snap.faces := by
          simp [vertexTotal, List.length_flatten, Function.comp_def]
        show 0 < ((snap.faces.map (fun f => f.vertices.reverse)).flatten).length
        rw [hlen]; omega

/-- Witness of C12: the first sample of a mesh without faces. -/
theorem C12_empty_topology_sentinel_witness :
    (Save ⟨id, id, ⟨9, 9, 9⟩⟩ ⟨false, false, false, false, false⟩ SaveState.init
      { animated := false, pos := [⟨1, 2, 3⟩], faces := [], sampleCount := 0
        shadingNormals := [], velocitiesData := none, toWorld := id
        rotate := id }).mMeshSample.faceCounts = some [0] ∧
    (Save ⟨id, id, ⟨9, 9, 9⟩⟩ ⟨false, false, false, false, false⟩ SaveState.init
      { animated := false, pos := [⟨1, 2, 3⟩], faces := [], sampleCount := 0
        shadingNormals := [], velocitiesData := none, toWorld := id
        rotate := id }).mMeshSample.faceIndices = some [0] :=
  (C12_empty_topology_sentinel ⟨id, id, ⟨9, 9, 9⟩⟩ ⟨false, false, false, false, false⟩
    SaveState.init
    { animated := false, pos := [⟨1, 2, 3⟩], faces := [], sampleCount := 0
      shadingNormals := [], velocitiesData := none, toWorld := id, rotate := id }
    rfl (Or.inl rfl) (Or.inl rfl)).1 rfl rfl

/-- Counterexample to C13 as stated: under static topology the second call, on a
quadrilateral, stores a sample that carries face counts and face indices, those
of the triangle of the first call, left in the member sample. -/
theorem C13_topology_written_counterexample :
    ((SaveSeq ⟨id, id, ⟨9, 9, 9⟩⟩ ⟨false, false, false, false, false⟩ SaveState.init
      [{ animated := true, pos := [⟨0, 0, 0⟩, ⟨1, 0, 0⟩, ⟨0, 1, 0⟩]
         faces := [⟨[0, 1, 2], [0, 1, 2]⟩], sampleCount := 3, shadingNormals := []
         velocitiesData := none, toWorld := id, rotate := id },
       { animated := true, pos := [⟨0, 0, 0⟩, ⟨1, 0, 0⟩, ⟨0, 1, 0⟩, ⟨1, 1, 0⟩]
         faces := [⟨[0, 1, 3, 2], [0, 1, 2, 3]⟩], sampleCount := 4, shadingNormals := []
         velocitiesData := none, toWorld := id, rotate := id }]).stored.map
      (fun s => (s.faceCounts, s.faceIndices))) =
      [(some [3], some [2, 1, 0]), (some [3], some [2, 1, 0])] := by
  decide

/-- C13 (when topology is written), amended. Over every sequence of calls of
`Save` that are not pure point cache calls: a call that builds a sample (the
first sample, or an animated mesh) puts the face counts and face indices derived
from its mesh into the sample if and only if it is the first sample of the
stream (`mNumSamples == 0`) or `dynamicTopology` is set; in every other such
call the topology fields are not touched, so the sample that is stored still
carries the face counts and face indices of the last call that wrote them; and
every sample a stream stores carries face counts and face indices. -/
theorem C13_topology_written (m : Machine) (job : JobOptions) (st : SaveState)
    (snap : MeshSnapshot) (hpc : job.exportPurePointCache = false)
    (hbuild : st.mNumSamples = 0 ∨ snap.animated = true) :
    ((st.mNumSamples = 0 ∨ job.exportDynamicTopology = true) →
      (Save m job st snap).mMeshSample.faceCounts =
        some (Save.topology ⟨st.mFaceCountVec, st.mFaceIndicesVec⟩ snap.faces
          snap.sampleCount).mFaceCountVec ∧
      (Save m job st snap).mMeshSample.faceIndices =
        some (Save.topology ⟨st.mFaceCountVec, st.mFaceIndicesVec⟩ snap.faces
          snap.sampleCount).mFaceIndicesVec) ∧
    (¬ (st.mNumSamples = 0 ∨ job.exportDynamicTopology = true) →
      (Save m job st snap).mMeshSample.faceCounts = st.mMeshSample.faceCounts ∧
      (Save m job st snap).mMeshSample.faceIndices = st.mMeshSample.faceIndices ∧
      (Save m job st snap).mFaceCountVec = st.mFaceCountVec ∧
      (Save m job st snap).mFaceIndicesVec = st.mFaceIndicesVec) ∧
    (Save m job st snap).stored = st.stored ++ [(Save m job st snap).mMeshSample] ∧
    (∀ snaps : List MeshSnapshot, ∀ s ∈ (SaveSeq m job SaveState.init snaps).stored,
      s.faceCounts.isSome = true ∧ s.faceIndices.isSome = true) := by
  obtain ⟨t1, t2⟩ := Save_topology_fields m job st snap hpc hbuild
  refine ⟨fun h => ⟨(t1 h).1, (t1 h).2.1⟩, t2, (Save_stores m job st snap hbuild).1, ?_⟩
  intro snaps s hs
  have hinit : TopologyKept SaveState.init := Or.inl ⟨rfl, rfl⟩
  rcases topologyKept_seq m job hpc snaps SaveState.init hinit with ⟨_, hnil⟩ | ⟨_, _, _, hall⟩
  · rw [hnil] at hs; exact absurd hs (List.not_mem_nil s)
  · exact hall s hs

/-- Witness of C13: the second call of a static stream, on an animated mesh,
leaves the topology fields of the member sample as the first call set them. -/
theorem C13_topology_written_witness :
    (Save ⟨id, id, ⟨9, 9, 9⟩⟩ ⟨false, false, false, false, false⟩
      (Save ⟨id, id, ⟨9, 9, 9⟩⟩ ⟨false, false, false, false, false⟩ SaveState.init
        { animated := true, pos := [⟨0, 0, 0⟩, ⟨1, 0, 0⟩, ⟨0, 1, 0⟩]
          faces := [⟨[0, 1, 2], [0, 1, 2]⟩], sampleCount := 3, shadingNormals := []
          velocitiesData := none, toWorld := id, rotate := id })
      { animated := true, pos := [⟨0, 0, 0⟩, ⟨1, 0, 0⟩, ⟨0, 1, 0⟩, ⟨1, 1, 0⟩]
        faces := [⟨[0, 1, 3, 2], [0, 1, 2, 3]⟩], sampleCount := 4, shadingNormals := []
        velocitiesData := none, toWorld := id, rotate := id }).mMeshSample.faceCounts =
    (Save ⟨id, id, ⟨9, 9, 9⟩⟩ ⟨false, false, false, false, false⟩ SaveState.init
      { animated := true, pos := [⟨0, 0, 0⟩, ⟨1, 0, 0⟩, ⟨0, 1, 0⟩]
        faces := [⟨[0, 1, 2], [0, 1, 2]⟩], sampleCount := 3, shadingNormals := []
        velocitiesData := none, toWorld := id, rotate := id }).mMeshSample.faceCounts :=
  ((C13_topology_written ⟨id, id, ⟨9, 9, 9⟩⟩ ⟨false, false, false, false, false⟩
    (Save ⟨id, id, ⟨9, 9, 9⟩⟩ ⟨false, false, false, false, false⟩ SaveState.init
      { animated := true, pos := [⟨0, 0, 0⟩, ⟨1, 0, 0⟩, ⟨0, 1, 0⟩]
        faces := [⟨[0, 1, 2], [0, 1, 2]⟩], sampleCount := 3, shadingNormals := []
        velocitiesData := none, toWorld := id, rotate := id })
    { animated := true, pos := [⟨0, 0, 0⟩, ⟨1, 0, 0⟩, ⟨0, 1, 0⟩, ⟨1, 1, 0⟩]
      faces := [⟨[0, 1, 3, 2], [0, 1, 2, 3]⟩], sampleCount := 4, shadingNormals := []
      velocitiesData := none, toWorld := id, rotate := id }
    rfl (Or.inr rfl)).2.1 (by decide)).1

/-- C14 (sentinel topology on read-back). In `alembic_polymesh_topo_Update`, when
the first face count of the floor sample is 0: the operator writes an output,
with the polygon description `[3,0,0,0]` of one degenerate triangle, if and only
if the floor sample has a velocity array whose length is the floor position
count; otherwise it returns without setting any output geometry. -/
theorem C14_sentinel_topology_readback (inp : TopoInput) (rest : List Int)
    (hfirst : inp.floorSample.faceCounts = 0 :: rest) :
    ((∃ vel, inp.floorSample.velocities = some vel ∧
        vel.length = inp.floorSample.positions.length) →
      ∃ pos, alembic_polymesh_topo_Update inp = Outcome.done (pos, [3, 0, 0, 0])) ∧
    (¬ (∃ vel, inp.floorSample.velocities = some vel ∧
        vel.length = inp.floorSample.positions.length) →
      alembic_polymesh_topo_Update inp = Outcome.notSet) ∧
    ((∃ pos, alembic_polymesh_topo_Update inp = Outcome.done (pos, [3, 0, 0, 0])) ↔
      ∃ vel, inp.floorSample.velocities = some vel ∧
        vel.length = inp.floorSample.positions.length) := by
  have hpol := topoPolies_first_zero inp.floorSample rest hfirst
  have hyes : (∃ vel, inp.floorSample.velocities = some vel ∧
        vel.length = inp.floorSample.positions.length) →
      ∃ pos, alembic_polymesh_topo_Update inp = Outcome.done (pos, [3, 0, 0, 0]) := by
    rintro ⟨vel, hv, hl⟩
    rw [hv] at hpol
    simp only [hl, ne_eq, not_true_eq_false, if_false] at hpol
    obtain ⟨pos, hpos⟩ := topoPositions_total inp
    exact ⟨pos, (topo_Update_done_iff inp pos _).2 ⟨hpol, hpos⟩⟩
  have hno : ¬ (∃ vel, inp.floorSample.velocities = some vel ∧
        vel.length = inp.floorSample.positions.length) →
      alembic_polymesh_topo_Update inp = Outcome.notSet := by
    intro h
    have hns : topoPolies inp.floorSample = Outcome.notSet := by
      rw [hpol]
      cases hv : inp.floorSample.velocities with
      | none => rfl
      | some vel =>
        have hl : vel.length ≠ inp.floorSample.positions.length := fun hl => h ⟨vel, hv, hl⟩
        simp only [hl, ne_eq, not_false_eq_true, if_true]
    unfold alembic_polymesh_topo_Update
    rw [hns]
  refine ⟨hyes, hno, ⟨?_, hyes⟩⟩
  rintro ⟨pos, hdone⟩
  by_contra h
  rw [hno h] at hdone
  exact Outcome.noConfusion hdone

/-- Witness of C14: the sentinel topology with a velocity array of the length of
the positions, read at `alpha = 0`. -/
theorem C14_sentinel_topology_readback_witness :
    ∃ pos, alembic_polymesh_topo_Update
      { isPolyMesh := true, hasDynamicTopo := true
        floorSample :=
          { positions := [⟨FLT_MAX, FLT_MAX, FLT_MAX⟩], velocities := some [⟨0, 0, 0⟩]
            faceCounts := [0], faceIndices := [0] }
        ceilSample :=
          { positions := [⟨FLT_MAX, FLT_MAX, FLT_MAX⟩], velocities := some [⟨0, 0, 0⟩]
            faceCounts := [0], faceIndices := [0] }
        alpha := 0, floorTime := 0, ceilTime := 1 } = Outcome.done (pos, [3, 0, 0, 0]) :=
  (C14_sentinel_topology_readback
    { isPolyMesh := true, hasDynamicTopo := true
      floorSample :=
        { positions := [⟨FLT_MAX, FLT_MAX, FLT_MAX⟩], velocities := some [⟨0, 0, 0⟩]
          faceCounts := [0], faceIndices := [0] }
      ceilSample :=
        { positions := [⟨FLT_MAX, FLT_MAX, FLT_MAX⟩], velocities := some [⟨0, 0, 0⟩]
          faceCounts := [0], faceIndices := [0] }
      alpha := 0, floorTime := 0, ceilTime := 1 }
    [] rfl).1 ⟨[⟨0, 0, 0⟩], rfl, rfl⟩

/-- C15 (normal sentinel). In a call of `Save` that builds a sample (not a pure
point cache call) with `dynamicTopology` and `exportNormals` both set, when the
normal values come out empty (the shading normals hold no full triple): the
normal attribute of the stored sample is exactly one value
`(FLT_MAX, FLT_MAX, FLT_MAX)` with exactly one index, of value 0. -/
theorem C15_normal_sentinel (m : Machine) (job : JobOptions) (st : SaveState)
    (snap : MeshSnapshot) (hpc : job.exportPurePointCache = false)
    (hbuild : st.mNumSamples = 0 ∨ snap.animated = true)
    (hdyn : job.exportDynamicTopology = true) (hn : job.exportNormals = true)
    (hempty : snap.shadingNormals.length / 3 = 0) :
    (Save m job st snap).mMeshSample.normals =
      some { vals := [⟨FLT_MAX, FLT_MAX, FLT_MAX⟩], indices := some [0] } ∧
    (Save m job st snap).stored = st.stored ++ [(Save m job st snap).mMeshSample] := by
  obtain ⟨e1, e2, e3⟩ := Save.normalVars_empty m job snap hempty
  have hs : Save.normalSentinel job (Save.normalVars m job snap) =
      { normalVec := [⟨FLT_MAX, FLT_MAX, FLT_MAX⟩], normalCount := 1
        normalIndexVec := [0], normalIndexCount := 1 } := by
    unfold Save.normalSentinel
    rw [if_pos ⟨Or.inr e2, hn, hdyn⟩, e1, e3]
    rfl
  have h := Save_normals_topology m job st snap hpc hbuild (Or.inr hdyn)
    (by rw [hs]; exact ⟨Nat.one_pos, Nat.one_pos⟩)
  rw [hs] at h
  exact ⟨h, (Save_stores m job st snap hbuild).1⟩

/-- Witness of C15: an animated mesh without vertices in the second call of a
stream with dynamic topology and indexed normals. -/
theorem C15_normal_sentinel_witness :
    (Save ⟨id, id, ⟨9, 9, 9⟩⟩ ⟨false, false, true, true, true⟩
      { SaveState.init with mNumSamples := 1 }
      { animated := true, pos := [], faces := [], sampleCount := 0, shadingNormals := []
        velocitiesData := none, toWorld := id, rotate := id }).mMeshSample.normals =
      some { vals := [⟨FLT_MAX, FLT_MAX, FLT_MAX⟩], indices := some [0] } :=
  (C15_normal_sentinel ⟨id, id, ⟨9, 9, 9⟩⟩ ⟨false, false, true, true, true⟩
    { SaveState.init with mNumSamples := 1 }
    { animated := true, pos := [], faces := [], sampleCount := 0, shadingNormals := []
      velocitiesData := none, toWorld := id, rotate := id }
    rfl (Or.inr rfl) rfl rfl rfl).1

/-- Counterexample to C16 as stated: with `dynamicTopology` set and a defined
velocity source, a pure point cache call stores a sample without any velocity
array (the call leaves at line 153, before the velocities are read); and under
`globalSpace` the stored vector is the narrowed copy of the rotated source
vector, here for the quarter turn about the z axis. -/
theorem C16_velocity_export_counterexample :
    (Save ⟨id, id, ⟨9, 9, 9⟩⟩ ⟨false, true, true, false, false⟩ SaveState.init
      { animated := true, pos := [⟨0, 0, 0⟩], faces := [], sampleCount := 0
        shadingNormals := [], velocitiesData := some [⟨1, 0, 0⟩], toWorld := id
        rotate := id }).stored.map (fun s => s.velocities) = [none] ∧
    (Save ⟨id, id, ⟨9, 9, 9⟩⟩ ⟨true, false, true, false, false⟩ SaveState.init
      { animated := true, pos := [⟨0, 0, 0⟩], faces := [], sampleCount := 0
        shadingNormals := [], velocitiesData := some [⟨1, 0, 0⟩], toWorld := id
        rotate := fun v => ⟨-v.y, v.x, v.z⟩ }).stored.map (fun s => s.velocities) =
      [some [⟨0, 1, 0⟩]] := by
  constructor
  · decide
  · simp [Save, Save.posVec, Save.selfBounds, Save.velocitiesVec, Save.normalVars,
      Save.normalSentinel, Save.setNormals, Save.topology, SaveState.init, fillLoop,
      vecResize, narrowV3, List.range_succ]

/-- C16 (velocity export), amended. In a call of `Save` that builds a sample and
is not a pure point cache call, with `dynamicTopology` set and a defined
velocity source: the stored velocity array holds one 3-vector per vertex, in
vertex order, each the narrowed copy of the source vector of that vertex,
rotated into world space first when `globalSpace` is set, and is the single
vector `(0,0,0)` when the mesh has zero vertices. In a pure point cache call and
without `dynamicTopology` the call sets no velocity array, and no sample of such
a stream carries one. -/
theorem C16_velocity_export (m : Machine) (job : JobOptions) (st : SaveState)
    (snap : MeshSnapshot) (hbuild : st.mNumSamples = 0 ∨ snap.animated = true) :
    (job.exportPurePointCache = false → job.exportDynamicTopology = true →
      ∀ data, snap.velocitiesData = some data →
        (snap.pos.length = 0 →
          (Save m job st snap).mMeshSample.velocities = some [⟨0, 0, 0⟩]) ∧
        (snap.pos.length ≠ 0 → ∃ vel,
          (Save m job st snap).mMeshSample.velocities = some vel ∧
          vel.length = snap.pos.length ∧
          ∀ i, i < snap.pos.length →
            vel[i]? = some (narrowV3 m.narrow
              (if job.globalSpace then snap.rotate (data.getD i ⟨0, 0, 0⟩)
               else data.getD i ⟨0, 0, 0⟩))) ∧
        (snap.pos.length ≠ 0 → data.length = snap.pos.length → job.globalSpace = false →
          (Save m job st snap).mMeshSample.velocities = some (data.map (narrowV3 m.narrow)))) ∧
    ((job.exportPurePointCache = true ∨ job.exportDynamicTopology = false) →
      (Save m job st snap).mMeshSample.velocities = st.mMeshSample.velocities ∧
      ∀ snaps : List MeshSnapshot, ∀ s ∈ (SaveSeq m job SaveState.init snaps).stored,
        s.velocities = none) ∧
    (Save m job st snap).stored = st.stored ++ [(Save m job st snap).mMeshSample] := by
  obtain ⟨v1, v2⟩ := Save_velocity_field m job st snap hbuild
  refine ⟨?_, ?_, (Save_stores m job st snap hbuild).1⟩
  · intro hpc hdyn data hdata
    have hv := v1 hpc hdyn data hdata
    rw [Save.velocitiesVec_eq] at hv
    refine ⟨?_, ?_, ?_⟩
    · intro h0
      rw [hv, if_pos h0]
    · intro h0
      rw [if_neg h0] at hv
      refine ⟨_, hv, by simp, ?_⟩
      intro i hi
      simp [List.getElem?_map, List.getElem?_range hi]
    · intro h0 hlen hgs
      rw [hv, if_neg h0]
      congr 1
      apply List.ext_getElem?
      intro i
      by_cases hi : i < snap.pos.length
      · simp [List.getElem?_map, List.getElem?_range hi, hgs, List.getD_eq_getElem?_getD,
          List.getElem?_eq_getElem (hlen ▸ hi)]
      · have h1 : ((List.range snap.pos.length).map (fun i =>
            narrowV3 m.narrow
              (if job.globalSpace = true then snap.rotate (data.getD i ⟨0, 0, 0⟩)
               else data.getD i ⟨0, 0, 0⟩)))[i]? = none := by
          apply List.getElem?_eq_none; simp; omega
        have h2 : (data.map (narrowV3 m.narrow))[i]? = none := by
          apply List.getElem?_eq_none; simp; omega
        rw [h1, h2]
  · intro hjob
    refine ⟨v2 (hjob.elim Or.inl (fun h2 => Or.inr (Or.inl h2))), ?_⟩
    intro snaps s hs
    have hinit : VelocityFree SaveState.init :=
      ⟨rfl, fun s hs => absurd hs (List.not_mem_nil s)⟩
    exact (velocityFree_seq m job hjob snaps SaveState.init hinit).2 s hs

/-- Witness of C16: two vertices with their velocities, first sample of a stream
with dynamic topology. -/
theorem C16_velocity_export_witness :
    (Save ⟨id, id, ⟨9, 9, 9⟩⟩ ⟨false, false, true, false, false⟩ SaveState.init
      { animated := true, pos := [⟨0, 0, 0⟩, ⟨1, 0, 0⟩], faces := [], sampleCount := 0
        shadingNormals := [], velocitiesData := some [⟨1, 0, 0⟩, ⟨0, 2, 0⟩], toWorld := id
        rotate := id }).mMeshSample.velocities =
      some (([⟨1, 0, 0⟩, ⟨0, 2, 0⟩] : List V3f).map (narrowV3 id)) :=
  ((C16_velocity_export ⟨id, id, ⟨9, 9, 9⟩⟩ ⟨false, false, true, false, false⟩ SaveState.init
    { animated := true, pos := [⟨0, 0, 0⟩, ⟨1, 0, 0⟩], faces := [], sampleCount := 0
      shadingNormals := [], velocitiesData := some [⟨1, 0, 0⟩, ⟨0, 2, 0⟩], toWorld := id
      rotate := id }
    (Or.inl rfl)).1 rfl rfl [⟨1, 0, 0⟩, ⟨0, 2, 0⟩] rfl).2.2 (by decide) rfl rfl

/-- C17 (UV blending). For an operator input whose property array holds three
entries for each of the `n` sample nodes, whose floor sample holds `n` expanded
UVs and whose ceil sample holds at least as many, on a mesh whose per-face
sample index lists together form a permutation of `0..n-1`, and `alpha ≠ 0`:
the operator writes its output, and the triple of every node is
`floor_u*(1-alpha) + ceil_u*alpha`, `floor_v*(1-alpha) + ceil_v*alpha`, `0`,
where floor and ceil are the UVs of the occurrence `D[i]` the node looks up in
the floor and in the ceil sample. The floor value in the blend is the one the
apply loop wrote to the very entry that is overwritten (the right operand of
the assignment of lines 843-844 is read before `offset` is incremented). -/
theorem C17_uv_blending (inp : UvsInput) (F : List V2f)
    (hfloor : inp.floorUVs = some F)
    (hsize : F.length * 3 = inp.uvValues.length)
    (hnodes : inp.nodeCount = F.length)
    (hperm : ((inp.faces.map (fun f => f.samples)).flatten).Perm
      ((List.range inp.nodeCount).map Int.ofNat))
    (hceil : F.length ≤ inp.ceilUVs.length)
    (hα : inp.alpha ≠ 0) :
    ∃ D, uvsSampleLookup inp.faces inp.nodeCount = some D ∧ D.length = inp.nodeCount ∧
      (∀ d ∈ D, 0 ≤ d ∧ d.toNat < F.length) ∧
      alembic_uvs_Update inp = Outcome.done (flat3 (D.map (fun d =>
        (⟨(F.getD d.toNat ⟨0, 0⟩).x * (1 - inp.alpha) +
            (inp.ceilUVs.getD d.toNat ⟨0, 0⟩).x * inp.alpha,
          (F.getD d.toNat ⟨0, 0⟩).y * (1 - inp.alpha) +
            (inp.ceilUVs.getD d.toNat ⟨0, 0⟩).y * inp.alpha, 0⟩ : V3f)))) := by
  obtain ⟨D, hD, hDlen, hDr, _, _, _⟩ :=
    uvs_round_trip ⟨id, id, ⟨0, 0, 0⟩⟩ inp.faces inp.nodeCount [] hperm
  have hDrF : ∀ d ∈ D, 0 ≤ d ∧ d.toNat < F.length := fun d hd => by
    rw [← hnodes]; exact hDr d hd
  refine ⟨D, hD, hDlen, hDrF, ?_⟩
  have hlen : inp.uvValues.length = 3 * inp.nodeCount := by rw [hnodes]; omega
  obtain ⟨curs, hcl, hbuf⟩ := exists_flat3 inp.nodeCount inp.uvValues hlen
  have happly := uvsApply_spec F D [] curs (by rw [hcl, hDlen]) hDrF
  have hblend := uvsBlend_spec inp.ceilUVs inp.alpha D []
    (D.map (fun d => (⟨(F.getD d.toNat ⟨0, 0⟩).x, (F.getD d.toNat ⟨0, 0⟩).y, 0⟩ : V3f)))
    (by simp) (fun d hd => ⟨(hDrF d hd).1, lt_of_lt_of_le (hDrF d hd).2 hceil⟩)
  simp only [List.length_nil, Nat.mul_zero, List.nil_append] at happly hblend
  rw [← hbuf] at happly
  rw [List.zipWith_map_left, List.zipWith_same] at hblend
  unfold alembic_uvs_Update
  simp only [hfloor, hsize, if_true, hD, happly, hblend]
  rw [if_pos hα]

/-- Witness of C17: one triangle whose samples are `0, 2, 1`, floor UVs
`(1,4)`, `(0,0)`, `(2,2)`, ceil UVs `(3,2)`, `(4,0)`, `(0,6)`, a stale property
array, `alpha = 1/2`. -/
theorem C17_uv_blending_witness :
    alembic_uvs_Update
      { uvValues := [9, 9, 9, 9, 9, 9, 9, 9, 9], faces := [⟨[0, 1, 2], [0, 2, 1]⟩]
        nodeCount := 3, floorUVs := some [⟨1, 4⟩, ⟨0, 0⟩, ⟨2, 2⟩]
        ceilUVs := [⟨3, 2⟩, ⟨4, 0⟩, ⟨0, 6⟩], alpha := 1 / 2 } =
      Outcome.done [1, 4, 0, 2, 3, 0, 2, 0, 0] := by
  obtain ⟨D, hD, _, _, h⟩ := C17_uv_blending
    { uvValues := [9, 9, 9, 9, 9, 9, 9, 9, 9], faces := [⟨[0, 1, 2], [0, 2, 1]⟩]
      nodeCount := 3, floorUVs := some [⟨1, 4⟩, ⟨0, 0⟩, ⟨2, 2⟩]
      ceilUVs := [⟨3, 2⟩, ⟨4, 0⟩, ⟨0, 6⟩], alpha := 1 / 2 }
    [⟨1, 4⟩, ⟨0, 0⟩, ⟨2, 2⟩] rfl rfl rfl (by decide) (by decide) (by norm_num)
  have hD2 : D = [2, 0, 1] := by
    have e : uvsSampleLookup [⟨[0, 1, 2], [0, 2, 1]⟩] 3 = some [2, 0, 1] := by decide
    rw [e] at hD
    exact (Option.some.inj hD).symm
  subst hD2
  rw [h]
  have t2 : Int.toNat 2 = 2 := rfl
  norm_num [flat3, t2]

/-- C19 (bounding box envelope). For every non-empty position list whose
narrowed points are finite single precision values, the self-bounds box computed
by `Save` (a fresh empty box extended by each narrowed point in turn) has `min`
and `max` equal to the component-wise minimum and maximum of the points: on
every axis no point lies outside the box and both faces of the box are reached
by a point. Each extension never shrinks a box, and the box of `Save` is the
same for every permutation of the position list. -/
theorem C19_bbox_envelope :
    (∀ (globalSpace : Bool) (toWorld : V3f → V3f) (narrow : Scalar → Scalar) (pos : List V3f),
      pos ≠ [] →
      (∀ p ∈ Save.posVec globalSpace toWorld narrow pos, p.inFloatRange) →
      (∀ p ∈ Save.posVec globalSpace toWorld narrow pos,
        ((Save.selfBounds globalSpace toWorld narrow pos).min.x ≤ p.x ∧
          p.x ≤ (Save.selfBounds globalSpace toWorld narrow pos).max.x) ∧
        ((Save.selfBounds globalSpace toWorld narrow pos).min.y ≤ p.y ∧
          p.y ≤ (Save.selfBounds globalSpace toWorld narrow pos).max.y) ∧
        ((Save.selfBounds globalSpace toWorld narrow pos).min.z ≤ p.z ∧
          p.z ≤ (Save.selfBounds globalSpace toWorld narrow pos).max.z)) ∧
      (∃ p ∈ Save.posVec globalSpace toWorld narrow pos,
        p.x = (Save.selfBounds globalSpace toWorld narrow pos).min.x) ∧
      (∃ p ∈ Save.posVec globalSpace toWorld narrow pos,
        p.y = (Save.selfBounds globalSpace toWorld narrow pos).min.y) ∧
      (∃ p ∈ Save.posVec globalSpace toWorld narrow pos,
        p.z = (Save.selfBounds globalSpace toWorld narrow pos).min.z) ∧
      (∃ p ∈ Save.posVec globalSpace toWorld narrow pos,
        p.x = (Save.selfBounds globalSpace toWorld narrow pos).max.x) ∧
      (∃ p ∈ Save.posVec globalSpace toWorld narrow pos,
        p.y = (Save.selfBounds globalSpace toWorld narrow pos).max.y) ∧
      (∃ p ∈ Save.posVec globalSpace toWorld narrow pos,
        p.z = (Save.selfBounds globalSpace toWorld narrow pos).max.z)) ∧
    (∀ (b : Box3d) (p : V3f),
      ((b.extendBy p).min.x ≤ b.min.x ∧ (b.extendBy p).min.y ≤ b.min.y ∧
        (b.extendBy p).min.z ≤ b.min.z) ∧
      (b.max.x ≤ (b.extendBy p).max.x ∧ b.max.y ≤ (b.extendBy p).max.y ∧
        b.max.z ≤ (b.extendBy p).max.z)) ∧
    (∀ (globalSpace : Bool) (toWorld : V3f → V3f) (narrow : Scalar → Scalar)
      (pos pos2 : List V3f), pos.Perm pos2 →
      Save.selfBounds globalSpace toWorld narrow pos =
        Save.selfBounds globalSpace toWorld narrow pos2) := by
  refine ⟨?_, ?_, ?_⟩
  · intro globalSpace toWorld narrow pos hne hfin
    have hD := FLT_MAX_le_DBL_MAX
    have hlen : pos.length ≠ 0 := fun h => hne (List.eq_nil_of_length_eq_zero h)
    have hpv : Save.posVec globalSpace toWorld narrow pos =
        pos.map (fun p => narrowV3 narrow (if globalSpace then toWorld p else p)) := by
      unfold Save.posVec
      simp [hlen]
    have hbox : Save.selfBounds globalSpace toWorld narrow pos =
        (Save.posVec globalSpace toWorld narrow pos).foldl Box3d.extendBy Box3d.makeEmpty := by
      rw [hpv]
      unfold Save.selfBounds
      simp [hlen]
    have hne2 : Save.posVec globalSpace toWorld narrow pos ≠ [] := by
      rw [hpv]; simpa using hne
    generalize Save.posVec globalSpace toWorld narrow pos = pts at hfin hbox hne2
    rw [hbox, foldl_extendBy]
    simp only [Box3d.makeEmpty]
    have hx : ∀ v ∈ pts.map (fun p => p.x), -DBL_MAX ≤ v ∧ v ≤ DBL_MAX := by
      intro v hv
      obtain ⟨p, hp, rfl⟩ := List.mem_map.1 hv
      have := (hfin p hp).1
      exact ⟨by linarith [this.1], by linarith [this.2]⟩
    have hy : ∀ v ∈ pts.map (fun p => p.y), -DBL_MAX ≤ v ∧ v ≤ DBL_MAX := by
      intro v hv
      obtain ⟨p, hp, rfl⟩ := List.mem_map.1 hv
      have := (hfin p hp).2.1
      exact ⟨by linarith [this.1], by linarith [this.2]⟩
    have hz : ∀ v ∈ pts.map (fun p => p.z), -DBL_MAX ≤ v ∧ v ≤ DBL_MAX := by
      intro v hv
      obtain ⟨p, hp, rfl⟩ := List.mem_map.1 hv
      have := (hfin p hp).2.2
      exact ⟨by linarith [this.1], by linarith [this.2]⟩
    have hmx : pts.map (fun p => p.x) ≠ [] := by simpa using hne2
    have hmy : pts.map (fun p => p.y) ≠ [] := by simpa using hne2
    have hmz : pts.map (fun p => p.z) ≠ [] := by simpa using hne2
    refine ⟨?_, ?_, ?_, ?_, ?_, ?_, ?_⟩
    · intro p hp
      exact ⟨⟨minF_le_mem _ _ _ (List.mem_map_of_mem _ hp),
          mem_le_maxF _ _ _ (List.mem_map_of_mem _ hp)⟩,
        ⟨minF_le_mem _ _ _ (List.mem_map_of_mem _ hp),
          mem_le_maxF _ _ _ (List.mem_map_of_mem _ hp)⟩,
        ⟨minF_le_mem _ _ _ (List.mem_map_of_mem _ hp),
          mem_le_maxF _ _ _ (List.mem_map_of_mem _ hp)⟩⟩
    · obtain ⟨p, hp, he⟩ := List.mem_map.1 (minF_mem _ DBL_MAX hmx (fun v hv => (hx v hv).2))
      exact ⟨p, hp, he⟩
    · obtain ⟨p, hp, he⟩ := List.mem_map.1 (minF_mem _ DBL_MAX hmy (fun v hv => (hy v hv).2))
      exact ⟨p, hp, he⟩
    · obtain ⟨p, hp, he⟩ := List.mem_map.1 (minF_mem _ DBL_MAX hmz (fun v hv => (hz v hv).2))
      exact ⟨p, hp, he⟩
    · obtain ⟨p, hp, he⟩ := List.mem_map.1 (maxF_mem _ (-DBL_MAX) hmx (fun v hv => (hx v hv).1))
      exact ⟨p, hp, he⟩
    · obtain ⟨p, hp, he⟩ := List.mem_map.1 (maxF_mem _ (-DBL_MAX) hmy (fun v hv => (hy v hv).1))
      exact ⟨p, hp, he⟩
    · obtain ⟨p, hp, he⟩ := List.mem_map.1 (maxF_mem _ (-DBL_MAX) hmz (fun v hv => (hz v hv).1))
      exact ⟨p, hp, he⟩
  · intro b p
    simp only [Box3d.extendBy]
    refine ⟨⟨?_, ?_, ?_⟩, ⟨?_, ?_, ?_⟩⟩ <;> split_ifs with h <;>
      first | exact le_refl _ | exact le_of_lt h
  · intro globalSpace toWorld narrow pos pos2 hperm
    unfold Save.selfBounds
    simp only [List.length_map, hperm.length_eq]
    have hfold := List.Perm.foldl_eq'
      (hperm.map (fun p => narrowV3 narrow (if globalSpace then toWorld p else p)))
      (fun x _ y _ z => extendBy_comm z x y) Box3d.makeEmpty
    rw [hfold]

/-- Witness of C19: two points; every point lies in the box and the lower face
on the x axis is reached. -/
theorem C19_bbox_envelope_witness :
    (∀ p ∈ Save.posVec false id id [⟨1, 5, -2⟩, ⟨-3, 0, 4⟩], p.inFloatRange) ∧
    (∀ p ∈ Save.posVec false id id [⟨1, 5, -2⟩, ⟨-3, 0, 4⟩],
      ((Save.selfBounds false id id [⟨1, 5, -2⟩, ⟨-3, 0, 4⟩]).min.x ≤ p.x ∧
        p.x ≤ (Save.selfBounds false id id [⟨1, 5, -2⟩, ⟨-3, 0, 4⟩]).max.x) ∧
      ((Save.selfBounds false id id [⟨1, 5, -2⟩, ⟨-3, 0, 4⟩]).min.y ≤ p.y ∧
        p.y ≤ (Save.selfBounds false id id [⟨1, 5, -2⟩, ⟨-3, 0, 4⟩]).max.y) ∧
      ((Save.selfBounds false id id [⟨1, 5, -2⟩, ⟨-3, 0, 4⟩]).min.z ≤ p.z ∧
        p.z ≤ (Save.selfBounds false id id [⟨1, 5, -2⟩, ⟨-3, 0, 4⟩]).max.z)) ∧
    (∃ p ∈ Save.posVec false id id [⟨1, 5, -2⟩, ⟨-3, 0, 4⟩],
      p.x = (Save.selfBounds false id id [⟨1, 5, -2⟩, ⟨-3, 0, 4⟩]).min.x) :=
  have hfin : ∀ p ∈ Save.posVec false id id [⟨1, 5, -2⟩, ⟨-3, 0, 4⟩], p.inFloatRange := by
    intro p hp
    simp [Save.posVec, narrowV3] at hp
    rcases hp with rfl | rfl <;> simp only [V3f.inFloatRange, FLT_MAX] <;> norm_num
  have h := C19_bbox_envelope.1 false id id [⟨1, 5, -2⟩, ⟨-3, 0, 4⟩] (by simp) hfin
  ⟨hfin, h.1, h.2.1⟩

/-- C20, as stated, fails: the spec admits duplicate sample times, and on the
ascending list `[0, 0]` the query time `0` is both at or before the first time
and at or after the last; the lookup answers `(0, 0, 0)`, not `(n-1, n-1, 0)`. -/
theorem C20_time_locator_boundary_counterexample :
    List.Pairwise (fun a b : Scalar => a ≤ b) [0, 0] ∧
    (0 : Scalar) ≥ ([0, 0] : List Scalar).getD (2 - 1) 0 ∧
    getSampleInfo 0 [0, 0] 2 = ⟨0, 0, 0⟩ ∧
    getSampleInfo 0 [0, 0] 2 ≠ ⟨2 - 1, 2 - 1, 0⟩ := by
  refine ⟨by simp, by simp, by simp [getSampleInfo], ?_⟩
  simp [getSampleInfo]

/-- C20 (amended): for every strictly ascending list of `n >= 2` sample times,
`getSampleInfo` returns floor = ceil = 0 with `alpha = 0` for a query time at or
before `times[0]`, floor = ceil = n-1 with `alpha = 0` for one at or after
`times[n-1]`, and floor = ceil = k with `alpha = 0` for one equal to
`times[k]`. -/
theorem C20_time_locator_boundary (times : List Scalar) (t : Scalar)
    (hs : times.Pairwise (fun a b => a < b)) (hn : 2 ≤ times.length) :
    (t ≤ times.getD 0 0 → getSampleInfo t times times.length = ⟨0, 0, 0⟩) ∧
    (times.getD (times.length - 1) 0 ≤ t →
      getSampleInfo t times times.length = ⟨times.length - 1, times.length - 1, 0⟩) ∧
    (∀ (k : Nat) (hk : k < times.length), t = times[k] →
      getSampleInfo t times times.length = ⟨k, k, 0⟩) := by
  have hpair := List.pairwise_iff_getElem.1 hs
  have hn1 : ¬ times.length ≤ 1 := by omega
  have h0 : times.getD 0 0 = times[0] := List.getD_eq_getElem _ _ (by omega)
  have hl : times.getD (times.length - 1) 0 = times[times.length - 1] :=
    List.getD_eq_getElem _ _ (by omega)
  have hfl : times[0] < times[times.length - 1] :=
    hpair 0 (times.length - 1) (by omega) (by omega) (by omega)
  refine ⟨?_, ?_, ?_⟩
  · intro h
    simp only [getSampleInfo, if_neg hn1, if_pos h]
  · intro h
    have hnot : ¬ t ≤ times.getD 0 0 := by
      rw [h0]; rw [hl] at h
      exact not_le.2 (lt_of_lt_of_le hfl h)
    simp only [getSampleInfo, if_neg hn1, if_neg hnot, if_pos h]
  · intro k hk hkt
    by_cases hfirst : t ≤ times.getD 0 0
    · have hk0 : k = 0 := by
        by_contra hc
        have := hpair 0 k (by omega) hk (by omega)
        rw [h0, hkt] at hfirst
        exact absurd this (not_lt.2 hfirst)
      subst hk0
      simp only [getSampleInfo, if_neg hn1, if_pos hfirst]
    · by_cases hlast : times.getD (times.length - 1) 0 ≤ t
      · have hkl : k = times.length - 1 := by
          by_contra hc
          have := hpair k (times.length - 1) hk (by omega) (by omega)
          rw [hl, hkt] at hlast
          exact absurd this (not_lt.2 hlast)
        simp only [getSampleInfo, if_neg hn1, if_neg hfirst, if_pos hlast, hkl]
      · have hi : ((times.take times.length).takeWhile
            (fun x => decide (x ≤ t))).length - 1 = k := by
          rw [List.take_length, hkt, length_takeWhile_le times hs k hk]
          rfl
        have hk2 : times.getD k 0 = times[k] := List.getD_eq_getElem _ _ hk
        simp only [getSampleInfo, if_neg hn1, if_neg hfirst, if_neg hlast, hi, hk2,
          if_pos hkt]

/-- C20 witness: the times `0, 1, 3` queried at `1`. -/
theorem C20_time_locator_boundary_witness :
    getSampleInfo 1 [0, 1, 3] 3 = ⟨1, 1, 0⟩ :=
  (C20_time_locator_boundary [0, 1, 3] 1 (by simp) (by simp)).2.2 1 (by simp) rfl

/-- C22 (padded box deformation). In `alembic_bbox_Update`, for every stored or
blended box, every `extend` and every input point: the padded box has its `min`
corner lowered and its `max` corner raised by exactly `extend` on each axis, the
operator writes one output point per input point, and each output component is
`box.min - extend` on its axis when the input component is `< 0` and
`box.max + extend` otherwise. -/
theorem C22_padded_box_deformation :
    (∀ (box : Box3d) (extend : Scalar),
      (bboxPad box extend).min = ⟨box.min.x - extend, box.min.y - extend, box.min.z - extend⟩ ∧
      (bboxPad box extend).max = ⟨box.max.x + extend, box.max.y + extend, box.max.z + extend⟩) ∧
    (∀ inp : BBoxInput, ∃ out, alembic_bbox_Update inp = Outcome.done out ∧
      out.length = inp.inPositions.length ∧
      ∀ (i : Nat) (hi : i < inp.inPositions.length), ∃ q, out[i]? = some q ∧
        q.x = (if inp.inPositions[i].x < 0 then (bboxStored inp).min.x - inp.extend
               else (bboxStored inp).max.x + inp.extend) ∧
        q.y = (if inp.inPositions[i].y < 0 then (bboxStored inp).min.y - inp.extend
               else (bboxStored inp).max.y + inp.extend) ∧
        q.z = (if inp.inPositions[i].z < 0 then (bboxStored inp).min.z - inp.extend
               else (bboxStored inp).max.z + inp.extend)) := by
  refine ⟨fun box extend => ⟨rfl, rfl⟩, ?_⟩
  intro inp
  refine ⟨_, rfl, by simp, ?_⟩
  intro i hi
  refine ⟨_, by rw [List.getElem?_map, List.getElem?_eq_getElem hi]; rfl, rfl, rfl, rfl⟩

/-- Witness of C22: the unit box padded by `1/2` and two input points. -/
theorem C22_padded_box_deformation_witness :
    (∃ out, alembic_bbox_Update
      { matched := true, floorBox := ⟨⟨0, 0, 0⟩, ⟨1, 1, 1⟩⟩, ceilBox := ⟨⟨0, 0, 0⟩, ⟨1, 1, 1⟩⟩
        alpha := 0, extend := 1 / 2, inPositions := [⟨-1, 2, 0⟩, ⟨3, -4, -5⟩] } =
      Outcome.done out ∧ out.length = 2) ∧
    alembic_bbox_Update
      { matched := true, floorBox := ⟨⟨0, 0, 0⟩, ⟨1, 1, 1⟩⟩, ceilBox := ⟨⟨0, 0, 0⟩, ⟨1, 1, 1⟩⟩
        alpha := 0, extend := 1 / 2, inPositions := [⟨-1, 2, 0⟩, ⟨3, -4, -5⟩] } =
      Outcome.done [⟨-1 / 2, 3 / 2, 3 / 2⟩, ⟨3 / 2, -1 / 2, -1 / 2⟩] := by
  constructor
  · obtain ⟨out, h1, h2, _⟩ := C22_padded_box_deformation.2
      { matched := true, floorBox := ⟨⟨0, 0, 0⟩, ⟨1, 1, 1⟩⟩, ceilBox := ⟨⟨0, 0, 0⟩, ⟨1, 1, 1⟩⟩
        alpha := 0, extend := 1 / 2, inPositions := [⟨-1, 2, 0⟩, ⟨3, -4, -5⟩] }
    exact ⟨out, h1, h2⟩
  · norm_num [alembic_bbox_Update, bboxStored, bboxPad]

/-- C23 (expansion round trip of the indexer). For every sequence of normals,
and for every sequence of UVs, that the indexing loop of `Save` receives (its
length fits the host count type `LONG`), and every position `i` of the input:
the index written for `i`, looked up in the table the loop produced, is the
input value, `table[indices[i]] = input[i]`. -/
theorem C23_expansion_round_trip :
    (∀ (uninit : V3f) (normalVec : List V3f), normalVec.length ≤ LONG_MAX →
      ∀ (i : Nat) (hi : i < normalVec.length),
        (Save.indexedNormals uninit normalVec).expand i = some normalVec[i]) ∧
    (∀ (uninit : V2f) (prevIndex : List Nat) (uvVec : List V2f), uvVec.length ≤ LONG_MAX →
      ∀ (i : Nat) (hi : i < uvVec.length),
        (Save.indexedUVs uninit prevIndex uvVec).expand i = some uvVec[i]) := by
  constructor
  · intro uninit normalVec hmax i hi
    unfold Save.indexedNormals
    rw [expand_indexLoop keyOrder_SortableV3f uninit [] normalVec hmax i hi,
      List.getElem?_eq_getElem hi]
  · intro uninit prevIndex uvVec hmax i hi
    unfold Save.indexedUVs
    rw [expand_indexLoop keyOrder_SortableV2f uninit prevIndex uvVec hmax i hi,
      List.getElem?_eq_getElem hi]

/-- Witness of C23: the last of three normals, a repetition of the first, and
the second of two UVs written over a stale index vector. -/
theorem C23_expansion_round_trip_witness :
    (Save.indexedNormals ⟨9, 9, 9⟩ [⟨1, 0, 0⟩, ⟨0, 1, 0⟩, ⟨1, 0, 0⟩]).expand 2 =
      some ⟨1, 0, 0⟩ ∧
    (Save.indexedUVs ⟨9, 9⟩ [7, 7, 7] [⟨1, 2⟩, ⟨3, 4⟩]).expand 1 = some ⟨3, 4⟩ :=
  ⟨C23_expansion_round_trip.1 ⟨9, 9, 9⟩ [⟨1, 0, 0⟩, ⟨0, 1, 0⟩, ⟨1, 0, 0⟩] (by decide) 2
      (by decide),
    C23_expansion_round_trip.2 ⟨9, 9⟩ [7, 7, 7] [⟨1, 2⟩, ⟨3, 4⟩] (by decide) 1 (by decide)⟩

/-- C24 (index range invariant of the indexer). For every input sequence of
length `n` that the indexing loop of `Save` receives (`n` fits the host count
type `LONG`), for normals and for UVs: the loop writes exactly `n` indices, the
table count `k` satisfies `k <= n` and `k >= 1` when `n >= 1`, every written
index is `< k`, and before the pass for any entry of the input the write
position in the index buffer and the write position in the table buffer lie
inside these buffers, which both have `n` entries. -/
theorem C24_index_range_invariant :
    (∀ (uninit : V3f) (normalVec : List V3f), normalVec.length ≤ LONG_MAX →
      ((indexLoop SortableV3f.lt uninit [] normalVec).indexCount = normalVec.length ∧
        (Save.indexedNormals uninit normalVec).indices.length = normalVec.length ∧
        (indexLoop SortableV3f.lt uninit [] normalVec).sortedCount ≤ normalVec.length ∧
        (1 ≤ normalVec.length → 1 ≤ (indexLoop SortableV3f.lt uninit [] normalVec).sortedCount) ∧
        (Save.indexedNormals uninit normalVec).vals.length =
          (indexLoop SortableV3f.lt uninit [] normalVec).sortedCount ∧
        (∀ a ∈ (Save.indexedNormals uninit normalVec).indices,
          a < (indexLoop SortableV3f.lt uninit [] normalVec).sortedCount)) ∧
      ∀ (xs : List V3f) (v : V3f) (rest : List V3f), normalVec = xs ++ v :: rest →
        (xs.foldl (indexStep SortableV3f.lt) (indexInit uninit [] normalVec.length)).indexCount <
          (xs.foldl (indexStep SortableV3f.lt)
            (indexInit uninit [] normalVec.length)).indexVec.length ∧
        (xs.foldl (indexStep SortableV3f.lt) (indexInit uninit [] normalVec.length)).sortedCount <
          (xs.foldl (indexStep SortableV3f.lt)
            (indexInit uninit [] normalVec.length)).sortedVec.length) ∧
    (∀ (uninit : V2f) (prevIndex : List Nat) (uvVec : List V2f), uvVec.length ≤ LONG_MAX →
      ((indexLoop SortableV2f.lt uninit prevIndex uvVec).indexCount = uvVec.length ∧
        (Save.indexedUVs uninit prevIndex uvVec).indices.length = uvVec.length ∧
        (indexLoop SortableV2f.lt uninit prevIndex uvVec).sortedCount ≤ uvVec.length ∧
        (1 ≤ uvVec.length → 1 ≤ (indexLoop SortableV2f.lt uninit prevIndex uvVec).sortedCount) ∧
        (Save.indexedUVs uninit prevIndex uvVec).vals.length =
          (indexLoop SortableV2f.lt uninit prevIndex uvVec).sortedCount ∧
        (∀ a ∈ (Save.indexedUVs uninit prevIndex uvVec).indices,
          a < (indexLoop SortableV2f.lt uninit prevIndex uvVec).sortedCount)) ∧
      ∀ (xs : List V2f) (v : V2f) (rest : List V2f), uvVec = xs ++ v :: rest →
        (xs.foldl (indexStep SortableV2f.lt)
            (indexInit uninit prevIndex uvVec.length)).indexCount <
          (xs.foldl (indexStep SortableV2f.lt)
            (indexInit uninit prevIndex uvVec.length)).indexVec.length ∧
        (xs.foldl (indexStep SortableV2f.lt)
            (indexInit uninit prevIndex uvVec.length)).sortedCount <
          (xs.foldl (indexStep SortableV2f.lt)
            (indexInit uninit prevIndex uvVec.length)).sortedVec.length) := by
  constructor
  · intro uninit normalVec hmax
    obtain ⟨c1, c2, c3, c4, c5, c6⟩ :=
      indexLoop_counts keyOrder_SortableV3f uninit [] normalVec hmax
    refine ⟨⟨c1, ?_, c2, c3, ?_, c6⟩, ?_⟩
    · simp only [Save.indexedNormals, IndexState.sample, List.length_take, c1, c4, min_self]
    · simp only [Save.indexedNormals, IndexState.sample, List.length_take, c5]
      omega
    · intro xs v rest hsplit
      subst hsplit
      exact indexLoop_write_positions keyOrder_SortableV3f uninit [] xs v rest hmax
  · intro uninit prevIndex uvVec hmax
    obtain ⟨c1, c2, c3, c4, c5, c6⟩ :=
      indexLoop_counts keyOrder_SortableV2f uninit prevIndex uvVec hmax
    refine ⟨⟨c1, ?_, c2, c3, ?_, c6⟩, ?_⟩
    · simp only [Save.indexedUVs, IndexState.sample, List.length_take, c1, c4, min_self]
    · simp only [Save.indexedUVs, IndexState.sample, List.length_take, c5]
      omega
    · intro xs v rest hsplit
      subst hsplit
      exact indexLoop_write_positions keyOrder_SortableV2f uninit prevIndex xs v rest hmax

/-- Witness of C24: three normals with a repetition give three indices below the
table count 2. -/
theorem C24_index_range_invariant_witness :
    (indexLoop SortableV3f.lt ⟨9, 9, 9⟩ [] [⟨1, 0, 0⟩, ⟨0, 1, 0⟩, ⟨1, 0, 0⟩]).indexCount = 3 ∧
    (indexLoop SortableV3f.lt ⟨9, 9, 9⟩ [] [⟨1, 0, 0⟩, ⟨0, 1, 0⟩, ⟨1, 0, 0⟩]).sortedCount ≤ 3 ∧
    ∀ a ∈ (Save.indexedNormals ⟨9, 9, 9⟩ [⟨1, 0, 0⟩, ⟨0, 1, 0⟩, ⟨1, 0, 0⟩]).indices,
      a < (indexLoop SortableV3f.lt ⟨9, 9, 9⟩ [] [⟨1, 0, 0⟩, ⟨0, 1, 0⟩, ⟨1, 0, 0⟩]).sortedCount :=
  have h := (C24_index_range_invariant.1 ⟨9, 9, 9⟩ [⟨1, 0, 0⟩, ⟨0, 1, 0⟩, ⟨1, 0, 0⟩]
    (by decide)).1
  ⟨h.1, h.2.2.1, h.2.2.2.2.2⟩

/-- C25 (UV encode/decode round trip). For every mesh whose per-face sample
index lists together form a permutation of `0..n-1`, and every pass of the loop
over the UV sets of `Save` that stays inside its vectors (any UV set, any
sample of the stream, indexed UVs or not): the look table built by
`alembic_uvs_Update` is the inverse of the look table built by `Save`, and the
sample the pass writes, expanded and read back by the operator at `alpha = 0`,
gives for every sample node `i` the narrowed `u` and `v` of node `i` and a third
component 0. -/
theorem C25_uv_round_trip (m : Machine) (indexedUVs : Bool) (mNumSamples : Nat)
    (st : UvState) (uvI : Nat) (prop : UvProp) (faces : List PolygonFace) (n : Nat)
    (hperm : ((faces.map (fun f => f.samples)).flatten).Perm
      ((List.range n).map Int.ofNat))
    (hmax : n ≤ LONG_MAX) (h1 : uvI < st.mUvVec.length)
    (h2 : indexedUVs = true → uvI < st.mUvIndexVec.length)
    (h3 : uvI = 0 ∨ (mNumSamples = 0 ∧ uvI - 1 ≤ st.mUvParams.length) ∨
      (mNumSamples ≠ 0 ∧ uvI - 1 < st.mUvParams.length)) :
    ∃ (st1 : UvState) (written : UvSample) (D : List Int),
      Save.uvSet m indexedUVs mNumSamples (Save.sampleLookup faces n) n st uvI prop =
        some st1 ∧
      ((uvI = 0 ∧ st1.meshUVs = some written) ∨
        (uvI ≠ 0 ∧ ∃ p, st1.mUvParams[uvI - 1]? = some p ∧ p.getLast? = some written)) ∧
      uvsSampleLookup faces n = some D ∧
      (∀ i, i < n → (Save.sampleLookup faces n).getD (D.getD i 0).toNat 0 = Int.ofNat i) ∧
      (∀ p, p < n → D.getD ((Save.sampleLookup faces n).getD p 0).toNat 0 = Int.ofNat p) ∧
      ∀ (uvValues : List Scalar) (ceilUVs : List V2f),
        uvValues.length = 3 * n →
        alembic_uvs_Update
          { uvValues := uvValues, faces := faces, nodeCount := n
            floorUVs := some written.expanded, ceilUVs := ceilUVs, alpha := 0 } =
          Outcome.done (flat3 ((List.range n).map (fun i =>
            (⟨m.narrow (prop.uvValues.getD (i * 3) 0),
              m.narrow (prop.uvValues.getD (i * 3 + 1) 0), 0⟩ : V3f)))) := by
  obtain ⟨st1, hs⟩ := Save.uvSet_some m indexedUVs mNumSamples (Save.sampleLookup faces n) n
    st uvI prop h1 h2 h3
  obtain ⟨written, hexp, hw⟩ := Save.uvSet_sample m indexedUVs mNumSamples
    (Save.sampleLookup faces n) n st st1 uvI prop hmax hs
  obtain ⟨D, hD, hDlen, hDr, hinv1, hinv2, hmap⟩ := uvs_round_trip m faces n prop.uvValues hperm
  refine ⟨st1, written, D, hs, hw, hD, hinv1, hinv2, ?_⟩
  intro uvValues ceilUVs hlen
  have hElen : written.expanded.length = n := by rw [hexp]; simp
  obtain ⟨curs, hcl, hbuf⟩ := exists_flat3 n uvValues hlen
  have happly := uvsApply_spec written.expanded D [] curs (by rw [hcl, hDlen])
    (fun d hd => by rw [hElen]; exact hDr d hd)
  simp only [List.length_nil, Nat.mul_zero, List.nil_append] at happly
  rw [hexp] at happly
  rw [hmap] at happly
  rw [← hexp, ← hbuf] at happly
  unfold alembic_uvs_Update
  simp only [hElen, hlen, hD, happly]
  simp
  omega

/-- Witness of C25: one triangle whose samples are `0, 2, 1`, written as the
first UV set of the first sample with indexed UVs and read back over a stale
property. -/
theorem C25_uv_round_trip_witness :
    ∃ (st1 : UvState) (written : UvSample),
      Save.uvSet ⟨id, id, ⟨9, 9, 9⟩⟩ true 0 (Save.sampleLookup [⟨[0, 1, 2], [0, 2, 1]⟩] 3) 3
        { mUvVec := [[]], mUvIndexVec := [[]], mUvParams := [], mUvOptionsVec := []
          uvOptionsSet := [], meshUVs := none } 0
        ⟨[1, 2, 0, 3, 4, 0, 7, 8, 0], false, false, []⟩ = some st1 ∧
      st1.meshUVs = some written ∧
      alembic_uvs_Update
        { uvValues := [9, 9, 9, 9, 9, 9, 9, 9, 9], faces := [⟨[0, 1, 2], [0, 2, 1]⟩]
          nodeCount := 3, floorUVs := some written.expanded, ceilUVs := [], alpha := 0 } =
        Outcome.done (flat3 ((List.range 3).map (fun i =>
          (⟨id (([1, 2, 0, 3, 4, 0, 7, 8, 0] : List Scalar).getD (i * 3) 0),
            id (([1, 2, 0, 3, 4, 0, 7, 8, 0] : List Scalar).getD (i * 3 + 1) 0), 0⟩ : V3f)))) := by
  obtain ⟨st1, written, D, h1, h2, _, _, _, h6⟩ := C25_uv_round_trip ⟨id, id, ⟨9, 9, 9⟩⟩ true 0
    { mUvVec := [[]], mUvIndexVec := [[]], mUvParams := [], mUvOptionsVec := []
      uvOptionsSet := [], meshUVs := none } 0
    ⟨[1, 2, 0, 3, 4, 0, 7, 8, 0], false, false, []⟩ [⟨[0, 1, 2], [0, 2, 1]⟩] 3
    (by decide) (by decide) (by decide) (fun _ => by decide) (Or.inl rfl)
  rcases h2 with ⟨_, h2⟩ | ⟨hne, _⟩
  · exact ⟨st1, written, h1, h2, h6 [9, 9, 9, 9, 9, 9, 9, 9, 9] [] rfl⟩
  · exact absurd rfl hne

/-- C26 (normal encode/decode round trip). For every mesh in which the sample
indices of the faces, face after face, are the node indices `0, 1, ..., n-1`
(each face holds a consecutive block), with the node normals `N` held as single
precision values (`shadingNormals` is a `CFloatArray`, so the cast `(float)`
leaves them as they are): a call of `Save` without `globalSpace` that exports
normals stores a normal sample which, expanded and read back by
`alembic_normals_Update` at `alpha = 0` over the polygon sizes of the same mesh,
gives the original normal of every node, with indexed normals or without. -/
theorem C26_normal_round_trip (m : Machine) (job : JobOptions) (st : SaveState)
    (snap : MeshSnapshot) (N : List V3f)
    (hbuild : st.mNumSamples = 0 ∨ snap.animated = true)
    (hpc : job.exportPurePointCache = false) (hn : job.exportNormals = true)
    (hgs : job.globalSpace = false)
    (hsamples : (snap.faces.map (fun f => f.samples)).flatten =
      (List.range N.length).map Int.ofNat)
    (hcount : snap.sampleCount = N.length) (hN : snap.shadingNormals = flat3 N)
    (hpos : 0 < N.length) (hmax : N.length ≤ LONG_MAX)
    (hfloat : ∀ n ∈ N, narrowV3 m.narrow n = n) :
    ∃ written : NormalSample,
      (Save m job st snap).mMeshSample.normals = some written ∧
      (Save m job st snap).stored = st.stored ++ [(Save m job st snap).mMeshSample] ∧
      written.expanded.length = N.length ∧
      ∀ (normalValues : List Scalar) (ceilNormals : List V3f),
        normalValues.length = 3 * N.length →
        alembic_normals_Update m
          { normalValues := normalValues
            counts := snap.faces.map (fun f => Int.ofNat f.samples.length)
            floorNormals := some written.expanded
            ceilNormals := ceilNormals
            alpha := 0 } = Outcome.done (flat3 N) := by
  have htotal : (snap.faces.map (fun f => f.samples.length)).sum = N.length := by
    have := congrArg List.length hsamples
    simpa [List.length_flatten, Function.comp_def] using this
  have hnar : N.map (narrowV3 m.narrow) = N := by
    conv_rhs => rw [← List.map_id N]
    exact List.map_congr_left (fun n hn => hfloat n hn)
  have hvec : Save.normalVec m job snap =
      reverseFaces (snap.faces.map (fun f => f.samples.length)) N := by
    rw [Save.normalVec_blocks m job snap N hgs hsamples hcount hN, hnar]
  have hveclen : (Save.normalVec m job snap).length = N.length := by
    rw [hvec, length_reverseFaces _ _ (by omega), htotal]
  obtain ⟨v1, v2, v3⟩ := Save.normalVars_expanded m job snap hn (by omega) (by omega)
  have hstored := Save_normals_nonempty m job st snap hpc hbuild ⟨v1, v2⟩
  refine ⟨_, hstored, (Save_stores m job st snap hbuild).1, by rw [v3, hveclen], ?_⟩
  intro normalValues ceilNormals hlen
  rw [v3, hvec]
  obtain ⟨curs, hcl, hbuf⟩ := exists_flat3 N.length normalValues hlen
  have hrl : (reverseFaces (snap.faces.map (fun f => f.samples.length)) N).length = N.length := by
    rw [length_reverseFaces _ _ (by omega), htotal]
  have hcounts : snap.faces.map (fun f => Int.ofNat f.samples.length) =
      (snap.faces.map (fun f => f.samples.length)).map Int.ofNat := by
    rw [List.map_map]; rfl
  have happly : normalsLoop (fun _ s => s)
      (reverseFaces (snap.faces.map (fun f => f.samples.length)) N)
      (snap.faces.map (fun f => Int.ofNat f.samples.length)) normalValues =
      some (flat3 N) := by
    rw [hcounts, hbuf, normalsLoop_whole _ _ _ curs (by omega) (by omega),
      reverseFaces_reverseFaces _ N htotal, zipWith_snd_of_length _ _ (by omega)]
  unfold alembic_normals_Update
  simp only [hrl, hlen, happly]
  simp
  omega

/-- Witness of C26: one triangle with the three unit normals, written with
indexed normals as the first sample and read back over a stale property. -/
theorem C26_normal_round_trip_witness :
    ∃ written : NormalSample,
      (Save ⟨id, id, ⟨9, 9, 9⟩⟩ ⟨false, false, false, true, true⟩ SaveState.init
        { animated := true, pos := [⟨0, 0, 0⟩, ⟨1, 0, 0⟩, ⟨0, 1, 0⟩]
          faces := [⟨[0, 1, 2], [0, 1, 2]⟩], sampleCount := 3
          shadingNormals := [1, 0, 0, 0, 1, 0, 0, 0, 1]
          velocitiesData := none, toWorld := id, rotate := id }).mMeshSample.normals =
        some written ∧
      alembic_normals_Update ⟨id, id, ⟨9, 9, 9⟩⟩
        { normalValues := [7, 7, 7, 7, 7, 7, 7, 7, 7], counts := [3]
          floorNormals := some written.expanded, ceilNormals := [], alpha := 0 } =
        Outcome.done [1, 0, 0, 0, 1, 0, 0, 0, 1] :=
  let ⟨written, h1, _, _, h4⟩ :=
    C26_normal_round_trip ⟨id, id, ⟨9, 9, 9⟩⟩ ⟨false, false, false, true, true⟩ SaveState.init
      { animated := true, pos := [⟨0, 0, 0⟩, ⟨1, 0, 0⟩, ⟨0, 1, 0⟩]
        faces := [⟨[0, 1, 2], [0, 1, 2]⟩], sampleCount := 3
        shadingNormals := [1, 0, 0, 0, 1, 0, 0, 0, 1]
        velocitiesData := none, toWorld := id, rotate := id }
      [⟨1, 0, 0⟩, ⟨0, 1, 0⟩, ⟨0, 0, 1⟩]
      (Or.inl rfl) rfl rfl rfl (by decide) rfl rfl (by decide) (by decide) (fun _ _ => rfl)
  ⟨written, h1, h4 [7, 7, 7, 7, 7, 7, 7, 7, 7] [] rfl⟩

/-- C27 (PolyMesh and SubD read paths) at its failing input. One triangle stored
twice with static topology, the ceil sample moved by `(2,0,0)`, read at
`alpha = 1/2`: through the PolyMesh schema the operator blends the floor sample
with the ceil sample and gives the points half way; through the SubD schema
line 1005 reads the sample at `floorIndex` a second time, so the floor sample is
blended with itself and the floor positions come out. -/
theorem C27_read_paths_divergence :
    alembic_polymesh_topo_Update
      { isPolyMesh := true, hasDynamicTopo := false
        floorSample :=
          { positions := [⟨0, 0, 0⟩, ⟨1, 0, 0⟩, ⟨0, 1, 0⟩], velocities := none
            faceCounts := [3], faceIndices := [2, 1, 0] }
        ceilSample :=
          { positions := [⟨2, 0, 0⟩, ⟨3, 0, 0⟩, ⟨2, 1, 0⟩], velocities := none
            faceCounts := [3], faceIndices := [2, 1, 0] }
        alpha := 1 / 2, floorTime := 0, ceilTime := 1 } =
      Outcome.done ([⟨1, 0, 0⟩, ⟨2, 0, 0⟩, ⟨1, 1, 0⟩], [3, 0, 1, 2]) ∧
    alembic_polymesh_topo_Update
      { isPolyMesh := false, hasDynamicTopo := false
        floorSample :=
          { positions := [⟨0, 0, 0⟩, ⟨1, 0, 0⟩, ⟨0, 1, 0⟩], velocities := none
            faceCounts := [3], faceIndices := [2, 1, 0] }
        ceilSample :=
          { positions := [⟨2, 0, 0⟩, ⟨3, 0, 0⟩, ⟨2, 1, 0⟩], velocities := none
            faceCounts := [3], faceIndices := [2, 1, 0] }
        alpha := 1 / 2, floorTime := 0, ceilTime := 1 } =
      Outcome.done ([⟨0, 0, 0⟩, ⟨1, 0, 0⟩, ⟨0, 1, 0⟩], [3, 0, 1, 2]) := by
  have hp : topoPolies
      { positions := [⟨0, 0, 0⟩, ⟨1, 0, 0⟩, ⟨0, 1, 0⟩], velocities := none
        faceCounts := [3], faceIndices := [2, 1, 0] } = Outcome.done [3, 0, 1, 2] := by
    decide
  constructor <;>
    (unfold alembic_polymesh_topo_Update
     rw [hp]
     norm_num [topoPositions, updateEach])

/-- C28 (positions and velocities stay aligned). A call of `Save` that writes a
velocity array (it builds a sample, is not a pure point cache call, runs under
`dynamicTopology` and has a defined velocity source) stores a sample whose
velocity array has the length of its position array; with zero vertices both
have length 1. Hence on a sample written this way, read as the floor sample by
`alembic_polymesh_topo_Update`, the velocity-length checks pass: the operator
never takes the early return of the zero face count, and where it extrapolates
(a PolyMesh stream at `alpha ≠ 0` whose ceil count differs or whose topology is
dynamic) every position is moved along its velocity. -/
theorem C28_positions_velocities_aligned (m : Machine) (job : JobOptions) (st : SaveState)
    (snap : MeshSnapshot) (hbuild : st.mNumSamples = 0 ∨ snap.animated = true)
    (hpc : job.exportPurePointCache = false) (hdyn : job.exportDynamicTopology = true)
    (data : List V3f) (hdata : snap.velocitiesData = some data) :
    ∃ pos vel,
      (Save m job st snap).mMeshSample.positions = some pos ∧
      (Save m job st snap).mMeshSample.velocities = some vel ∧
      (Save m job st snap).stored = st.stored ++ [(Save m job st snap).mMeshSample] ∧
      vel.length = pos.length ∧
      (snap.pos.length = 0 → pos.length = 1 ∧ vel.length = 1) ∧
      (snap.pos.length ≠ 0 → pos.length = snap.pos.length) ∧
      ∀ inp : TopoInput, inp.floorSample.positions = pos →
        inp.floorSample.velocities = some vel →
        topoPolies inp.floorSample ≠ Outcome.notSet ∧
        alembic_polymesh_topo_Update inp ≠ Outcome.notSet ∧
        (inp.isPolyMesh = true → inp.alpha ≠ 0 →
          (inp.ceilSample.positions.length ≠ inp.floorSample.positions.length ∨
            inp.hasDynamicTopo = true) →
          topoPositions inp = some (List.zipWith
            (fun p v => (⟨p.x + v.x * (inp.ceilTime - inp.floorTime) * inp.alpha,
              p.y + v.y * (inp.ceilTime - inp.floorTime) * inp.alpha,
              p.z + v.z * (inp.ceilTime - inp.floorTime) * inp.alpha⟩ : V3f))
            pos vel)) := by
  obtain ⟨hst, _, hpos, _⟩ := Save_stores m job st snap hbuild
  have hvel := (Save_velocity_field m job st snap hbuild).1 hpc hdyn data hdata
  rw [Save.velocitiesVec_eq] at hvel
  have hlen : (if snap.pos.length = 0 then ([⟨0, 0, 0⟩] : List V3f)
      else (List.range snap.pos.length).map (fun i =>
        narrowV3 m.narrow
          (if job.globalSpace then snap.rotate (data.getD i ⟨0, 0, 0⟩)
           else data.getD i ⟨0, 0, 0⟩))).length =
      (Save.posVec job.globalSpace snap.toWorld m.narrow snap.pos).length := by
    unfold Save.posVec
    by_cases h0 : snap.pos.length = 0
    · simp [h0]
    · simp [h0]
  refine ⟨_, _, hpos, hvel, hst, hlen, ?_, ?_, ?_⟩
  · intro h0
    rw [hlen.symm]
    simp [h0]
  · intro h0
    unfold Save.posVec
    simp [h0]
  · intro inp hp hv
    have hns : topoPolies inp.floorSample ≠ Outcome.notSet :=
      topoPolies_aligned inp.floorSample _ hv (by rw [hp]; exact hlen)
    refine ⟨hns, ?_, ?_⟩
    · unfold alembic_polymesh_topo_Update
      cases h1 : topoPolies inp.floorSample with
      | notSet => exact absurd h1 hns
      | fault => simp
      | done p => cases topoPositions inp <;> simp
    · intro hpm hα hinc
      have h := topoPositions_velocity_polyMesh inp hpm hα hinc _ hv (by rw [hp]; exact hlen)
      rw [hp] at h
      exact h

/-- Witness of C28: the first sample of a mesh of two vertices with their
velocities, under dynamic topology. -/
theorem C28_positions_velocities_aligned_witness :
    ∃ pos vel,
      (Save ⟨id, id, ⟨9, 9, 9⟩⟩ ⟨false, false, true, false, false⟩ SaveState.init
        { animated := true, pos := [⟨0, 0, 0⟩, ⟨1, 0, 0⟩], faces := [], sampleCount := 0
          shadingNormals := [], velocitiesData := some [⟨1, 0, 0⟩, ⟨0, 2, 0⟩], toWorld := id
          rotate := id }).mMeshSample.positions = some pos ∧
      (Save ⟨id, id, ⟨9, 9, 9⟩⟩ ⟨false, false, true, false, false⟩ SaveState.init
        { animated := true, pos := [⟨0, 0, 0⟩, ⟨1, 0, 0⟩], faces := [], sampleCount := 0
          shadingNormals := [], velocitiesData := some [⟨1, 0, 0⟩, ⟨0, 2, 0⟩], toWorld := id
          rotate := id }).mMeshSample.velocities = some vel ∧
      vel.length = pos.length ∧ pos.length = 2 :=
  let ⟨pos, vel, h1, h2, _, h4, _, h6, _⟩ :=
    C28_positions_velocities_aligned ⟨id, id, ⟨9, 9, 9⟩⟩ ⟨false, false, true, false, false⟩
      SaveState.init
      { animated := true, pos := [⟨0, 0, 0⟩, ⟨1, 0, 0⟩], faces := [], sampleCount := 0
        shadingNormals := [], velocitiesData := some [⟨1, 0, 0⟩, ⟨0, 2, 0⟩], toWorld := id
        rotate := id }
      (Or.inl rfl) rfl rfl [⟨1, 0, 0⟩, ⟨0, 2, 0⟩] rfl
  ⟨pos, vel, h1, h2, h4, h6 (by decide)⟩

/-- C29 (topology rebuild stays in range). In `alembic_polymesh_topo_Update`, for
every face-count array with first entry `≠ 0` and no negative entry whose sum is
the length of the face-index array (the output array
`polies(counts.size + indices.size)` being one the host can hold): the rebuild
loop, which stops at the first read `offset2 - 1 - k` outside the face-index
array and at the first write outside `polies`, runs to its end; it ends with the
write offset at `counts.size + indices.size`, the length of `polies`, and the
operator hands this array on. -/
theorem C29_topology_rebuild_in_range (s : MeshSample) (first : Int) (rest : List Int)
    (hc : s.faceCounts = first :: rest) (hfirst : first ≠ 0)
    (hnn : ∀ c ∈ s.faceCounts, 0 ≤ c)
    (hsum : (s.faceCounts.map Int.toNat).sum = s.faceIndices.length)
    (hlong : s.faceCounts.length + s.faceIndices.length ≤ LONG_MAX) :
    ∃ st, s.faceCounts.foldl (rebuildStep s.faceIndices)
        (some { polies := List.replicate (s.faceCounts.length + s.faceIndices.length) 0
                offset1 := 0, offset2 := 0 }) = some st ∧
      st.offset1 = s.faceCounts.length + s.faceIndices.length ∧
      st.polies.length = s.faceCounts.length + s.faceIndices.length ∧
      topoPolies s = Outcome.done st.polies := by
  obtain ⟨fs, h1, h2⟩ := exists_faces_of_counts s.faceCounts s.faceIndices hnn hsum
  have hlen : s.faceCounts.length = fs.length := by rw [h1, List.length_map]
  have hsum2 : (fs.map List.length).sum = s.faceIndices.length := by
    rw [h2]; simp [List.length_flatten, Function.comp_def]
  obtain ⟨st1, k1, k2, _⟩ := rebuild_foldl s.faceIndices fs [] []
    { polies := List.replicate (s.faceCounts.length + s.faceIndices.length) 0
      offset1 := 0, offset2 := 0 }
    (by simpa using h2) (by simp only [List.length_nil, Nat.zero_add]; omega) rfl
    (by simp only [List.length_replicate]; omega)
  rw [← h1] at k1
  have ho := rebuild_foldl_offset s.faceIndices s.faceCounts _ st1 k1
  simp only [Nat.zero_add, hsum] at ho
  simp only [List.length_replicate] at k2
  refine ⟨st1, k1, ho, k2, ?_⟩
  unfold topoPolies
  split
  · rename_i heq
    rw [hc] at heq
    exact List.noConfusion heq
  · rename_i f tl heq
    have hf : f = first := by
      rw [hc] at heq
      exact (List.cons.inj heq).1.symm
    rw [if_neg (by rw [hf]; exact hfirst), k1]

/-- Witness of C29: a triangle and a quadrilateral. -/
theorem C29_topology_rebuild_in_range_witness :
    ∃ st, ([3, 4] : List Int).foldl (rebuildStep [2, 1, 0, 4, 3, 1, 2])
        (some { polies := List.replicate (2 + 7) 0, offset1 := 0, offset2 := 0 }) = some st ∧
      st.offset1 = 2 + 7 ∧ st.polies.length = 2 + 7 :=
  let ⟨st, h1, h2, h3, _⟩ := C29_topology_rebuild_in_range
    { positions := [], velocities := none, faceCounts := [3, 4]
      faceIndices := [2, 1, 0, 4, 3, 1, 2] }
    3 [4] rfl (by decide) (by decide) (by decide) (by decide)
  ⟨st, h1, h2, h3⟩

/-- C30 (per-UV-set buffers stay in range across samples). For every sequence of
calls of `Save` on one object in which the first sample has at least one UV set
and no later call presents more UV sets than the first sample did: no call
leaves `mUvVec`, `mUvIndexVec` or `mUvParams` at an access `mUvVec[uvI]`,
`mUvIndexVec[uvI]`, `mUvParams[uvI-1]` (the sequence runs to its end), and with
`exportUVs` set, outside a pure point cache, the three vectors keep the sizes the
first sample gave them: one entry per UV set in `mUvVec`, the same in
`mUvIndexVec` under `indexedUVs`, one parameter per UV set but the first. -/
theorem C30_uv_buffers_in_range (m : Machine) (job : JobOptions) (uvJob : UvJobOptions)
    (first : MeshSnapshot × List UvProp) (rest : List (MeshSnapshot × List UvProp))
    (hfirst : 1 ≤ first.2.length)
    (hrest : ∀ call ∈ rest, call.2.length ≤ first.2.length) :
    ∃ st, SaveUVSeq m job uvJob (some (SaveState.init, UvState.init)) (first :: rest) =
        some st ∧
      (uvJob.exportUVs = true → job.exportPurePointCache = false →
        st.2.mUvVec.length = first.2.length ∧
        (uvJob.indexedUVs = true → st.2.mUvIndexVec.length = first.2.length) ∧
        st.2.mUvParams.length = first.2.length - 1) := by
  obtain ⟨st0, h0, _, hb⟩ := SaveUV_first m job uvJob first
  have hne : first.2 ≠ [] := fun hc => by rw [hc] at hfirst; simp at hfirst
  obtain ⟨st1, h1, hinv⟩ := UvBoundsInv_seq m job uvJob first.2.length hfirst rest st0
    (hb hne) hrest
  refine ⟨st1, ?_, hinv.2⟩
  simp only [SaveUVSeq, h0]
  exact h1

/-- Witness of C30: a first sample with two UV sets, then a sample with one,
under dynamic topology and indexed UVs. -/
theorem C30_uv_buffers_in_range_witness :
    ∃ st, SaveUVSeq ⟨id, id, ⟨9, 9, 9⟩⟩ ⟨false, false, true, false, false⟩ ⟨true, true⟩
        (some (SaveState.init, UvState.init))
        [({ animated := true, pos := [⟨0, 0, 0⟩, ⟨1, 0, 0⟩, ⟨0, 1, 0⟩]
            faces := [⟨[0, 1, 2], [0, 1, 2]⟩], sampleCount := 3, shadingNormals := []
            velocitiesData := none, toWorld := id, rotate := id },
          [⟨[1, 2, 0, 3, 4, 0, 5, 6, 0], true, true, []⟩,
           ⟨[7, 8, 0, 7, 8, 0, 7, 8, 0], false, false, []⟩]),
         ({ animated := true, pos := [⟨0, 0, 0⟩, ⟨1, 0, 0⟩, ⟨0, 1, 0⟩]
            faces := [⟨[0, 1, 2], [0, 1, 2]⟩], sampleCount := 3, shadingNormals := []
            velocitiesData := none, toWorld := id, rotate := id },
          [⟨[1, 2, 0, 3, 4, 0, 5, 6, 0], true, true, []⟩])] = some st ∧
      st.2.mUvVec.length = 2 ∧ st.2.mUvParams.length = 1 :=
  let ⟨st, h, k⟩ := C30_uv_buffers_in_range ⟨id, id, ⟨9, 9, 9⟩⟩
    ⟨false, false, true, false, false⟩ ⟨true, true⟩
    ({ animated := true, pos := [⟨0, 0, 0⟩, ⟨1, 0, 0⟩, ⟨0, 1, 0⟩]
       faces := [⟨[0, 1, 2], [0, 1, 2]⟩], sampleCount := 3, shadingNormals := []
       velocitiesData := none, toWorld := id, rotate := id },
     [⟨[1, 2, 0, 3, 4, 0, 5, 6, 0], true, true, []⟩,
      ⟨[7, 8, 0, 7, 8, 0, 7, 8, 0], false, false, []⟩])
    [({ animated := true, pos := [⟨0, 0, 0⟩, ⟨1, 0, 0⟩, ⟨0, 1, 0⟩]
        faces := [⟨[0, 1, 2], [0, 1, 2]⟩], sampleCount := 3, shadingNormals := []
        velocitiesData := none, toWorld := id, rotate := id },
      [⟨[1, 2, 0, 3, 4, 0, 5, 6, 0], true, true, []⟩])]
    (by decide) (by simp)
  ⟨st, h, (k rfl rfl).1, (k rfl rfl).2.2⟩

end ExocortexCrate
